import Mathlib

/-! # chart-verifier: configuration, check registry and report summaries

A shallow embedding of the Go packages

* `pkg/chartverifier/report` (the report data model, `types.go`),
* `pkg/chartverifier/reportsummary` (`reportSummary.go`),
* `pkg/chartverifier/verifier` (`verifier.go`),

followed by theorems about them.

Conventions of the embedding:

* a Go `map[K]V` is an association list read by first match (`GoMap`); `m[k] = v`
  overwrites the entry of `k` in place or appends a new entry;
* a Go `string` is a `String`; `strings.Compare(a, b) == 0` is `a = b`;
* a nil-able pointer is an `Option`; a slice is a `List`, the nil slice being `[]`
  (every slice this code builds comes from `append`, so it is nil exactly when empty);
* a dereference of a nil pointer (a Go panic) is the result `none`;
* a Go `(string, error)` result is an `Except String String`: the code returns the text
  `""` with every error and a nil error with every text;
* Go `int` counters are `Nat` (they only count list elements).
-/

namespace ChartVerifier

/-! ## Go maps -/

/-- A Go map, as an association list that is read by first match. -/
abbrev GoMap (K V : Type) := List (K × V)

namespace GoMap

variable {K V : Type} [DecidableEq K]

/-- The Go read `v, ok := m[k]`. -/
def get : GoMap K V → K → Option V
  | [], _ => none
  | (k', v') :: m, k => if k' = k then some v' else get m k

/-- The Go write `m[k] = v`. -/
def set : GoMap K V → K → V → GoMap K V
  | [], k, v => [(k, v)]
  | (k', v') :: m, k, v => if k' = k then (k, v) :: m else (k', v') :: set m k v

/-- The keys a Go `range` over the map visits (each key once). -/
def keys (m : GoMap K V) : List K := (m.map Prod.fst).dedup

/-- The entries a Go `range` over the map visits: each key once, with the value a read
of the key gives. The order is one of the orders Go may choose. -/
def entries (m : GoMap K V) : List (K × V) :=
  (keys m).filterMap fun k => (get m k).map fun v => (k, v)

end GoMap

/-! ## Go library functions used by the code -/

/-- A Go `interface{}` value as it occurs in the values maps: a string, a boolean, an
integer, or a value of any other type (a float, nil, a list, ...), given by the text `%v`
prints for it and the text `%s` prints for it, such as `1.5` and `%!s(float64=1.5)`, or
`<nil>` and `%!s(<nil>)`. -/
inductive Value where
  | str (s : String)
  | bool (b : Bool)
  | int (n : Int)
  | other (printed printedS : String)
  deriving DecidableEq, Repr

/-- The Go `fmt.Sprintf("%v", x)`. -/
def sprintV : Value → String
  | .str s => s
  | .bool true => "true"
  | .bool false => "false"
  | .int n => if n < 0 then "-" ++ Nat.repr n.natAbs else Nat.repr n.natAbs
  | .other printed _ => printed

/-- The Go `fmt.Sprintf("%d", n)` for a non-negative `int`. -/
def sprintD (n : Nat) : String := Nat.repr n

/-- The Go `strings.TrimRight(s, cutset)`: all trailing code points contained in
`cutset` are removed. -/
def stringsTrimRight (s cutset : String) : String :=
  ⟨(s.data.reverse.dropWhile (fun c => cutset.data.contains c)).reverse⟩

/-- The scan of `strings.ReplaceAll` for a non-empty `old`: at each position, a match of
`old` is replaced by `new` and skipped (matches do not overlap), any other character is
copied. `fuel` bounds the number of steps; each step consumes at least one character. -/
def replaceAllGo (old new : List Char) : Nat → List Char → List Char
  | 0, s => s
  | _ + 1, [] => []
  | fuel + 1, c :: cs =>
    if old.isPrefixOf (c :: cs) then new ++ replaceAllGo old new fuel ((c :: cs).drop old.length)
    else c :: replaceAllGo old new fuel cs

/-- The Go `strings.ReplaceAll(s, old, new)`. With an empty `old`, `new` is inserted
before every code point and at the end. -/
def stringsReplaceAll (s old new : String) : String :=
  if old = new then s
  else if old.data = [] then ⟨new.data ++ s.data.flatMap (fun c => c :: new.data)⟩
  else ⟨replaceAllGo old.data new.data s.data.length s.data⟩

/-- The Go `strings.ToLower(s)` for a string of ASCII characters: `A`..`Z` become `a`..`z`.
On other code points Go applies `unicode.ToLower`; `stringsToLowerUnicode` below is the
function on all strings. -/
def stringsToLower (s : String) : String := ⟨s.data.map Char.toLower⟩

/-! ## Package `checks` -/

namespace checks

/-- The Go `type CheckName string`. -/
abbrev CheckName := String

/-- The Go `type CheckType string`. -/
abbrev CheckType := String

/-- Modelled from the spec: the constant `checks.MandatoryCheckType` is declared in the
package `checks`, outside the three embedded packages; the spec names the type
`Mandatory`. -/
def MandatoryCheckType : CheckType := "Mandatory"

/-- Modelled from the spec: the constant `checks.OptionalCheckType` is declared in the
package `checks`, outside the three embedded packages; the spec names the type
`Optional`. -/
def OptionalCheckType : CheckType := "Optional"

end checks

/-! ## Package `profiles` -/

namespace profiles

/-- Modelled from the spec: the constant `profiles.VendorTypeConfigName` is declared in
the package `profiles`, outside the three embedded packages; the spec gives the key name
`profile.vendorType`. -/
def VendorTypeConfigName : String := "profile.vendorType"

/-- Modelled from the spec: the constant `profiles.VersionConfigName` is declared in the
package `profiles`, outside the three embedded packages; the spec gives the key name
`profile.version`. -/
def VersionConfigName : String := "profile.version"

/-- One entry of `Profile.Checks`; `Type_` is the Go field `Type`. -/
structure Check where
  Name : String
  Type_ : checks.CheckType
  deriving DecidableEq, Repr

/-- The profile `profiles.New` resolves: the fields `addResults` and the spec name. -/
structure Profile where
  VendorType : String
  Version : String
  Checks : List Check
  deriving DecidableEq, Repr

end profiles

/-! ## Package `report` (`types.go`) -/

namespace report

/-- The Go `type OutcomeType string`. -/
abbrev OutcomeType := String

/-- Modelled from the spec: the constant `report.PassOutcomeType` is declared in a file of
the package `report` other than `types.go`; the spec names the outcome `Pass`. -/
def PassOutcomeType : OutcomeType := "Pass"

/-- Modelled from the spec: the constant `report.FailOutcomeType` is declared in a file of
the package `report` other than `types.go`; the spec names the outcome `Fail`. -/
def FailOutcomeType : OutcomeType := "Fail"

/-- Modelled from the spec: the constant `report.UnknownOutcomeType` is declared in a file
of the package `report` other than `types.go`; the spec names the outcome `Unknown`. -/
def UnknownOutcomeType : OutcomeType := "Unknown"

/-- The helm library type `chart.Metadata`; the code carries it along and never reads
it. -/
structure ChartMetadata where
  Name : String
  Version : String
  deriving DecidableEq, Repr

structure Digests where
  Chart : String
  Package : String
  deriving DecidableEq, Repr

structure Profile where
  VendorType : String
  Version : String
  deriving DecidableEq, Repr

structure ToolMetadata where
  Version : String
  Profile : Profile
  ChartUri : String
  Digests : Digests
  LastCertifiedTimestamp : String
  CertifiedOpenShiftVersions : String
  TestedOpenShiftVersion : String
  SupportedOpenShiftVersions : String
  ProviderDelivery : Bool
  deriving DecidableEq, Repr

structure ReportMetadata where
  ToolMetadata : ToolMetadata
  ChartData : Option ChartMetadata
  Overrides : String
  deriving DecidableEq, Repr

structure CheckReport where
  Check : checks.CheckName
  Type_ : checks.CheckType
  Outcome : OutcomeType
  Reason : String
  deriving DecidableEq, Repr

structure Report where
  Apiversion : String
  Kind : String
  Metadata : ReportMetadata
  Results : List CheckReport
  deriving DecidableEq, Repr

end report

/-! ## Package `reportsummary` (`reportSummary.go`) -/

namespace reportsummary

def AnnotationsPrefixConfigName : String := "annotations.prefix"
def DefaultAnnotationsPrefix : String := "charts.openshift.io"

def DigestsAnnotationName : String := "digest"
def LastCertifiedTimestampAnnotationName : String := "lastCertifiedTimestamp"
def CertifiedOCPVersionsAnnotationName : String := "certifiedOpenShiftVersions"
def TestedOCPVersionAnnotationName : String := "testedOpenShiftVersion"
def SupportedOCPVersionsAnnotationName : String := "supportedOpenShiftVersions"

/-- The Go `type SummaryType string`. -/
abbrev SummaryType := String

def MetadataSummary : SummaryType := "metadata"
def DigestsSummary : SummaryType := "digests"
def ResultsSummary : SummaryType := "results"
def AnnotationsSummary : SummaryType := "annotations"
def AllSummary : SummaryType := "all"

/-- The Go `type SummaryFormat string`. -/
abbrev SummaryFormat := String

def JsonReport : SummaryFormat := "json"
def YamlReport : SummaryFormat := "yaml"

structure Annotation where
  Name : String
  Value : String
  deriving DecidableEq, Repr

structure DigestReport where
  ChartDigest : String
  PackageDigest : String
  deriving DecidableEq, Repr

structure MetadataReport where
  ProfileVendorType : String
  ProfileVersion : String
  ChartUri : String
  Chart : Option report.ChartMetadata
  ProviderDelivery : Bool
  deriving DecidableEq, Repr

structure ResultsReport where
  Passed : String
  Failed : String
  Messages : List String
  deriving DecidableEq, Repr

structure reportOptions where
  report : Option report.Report
  values : GoMap String Value
  deriving DecidableEq, Repr

/-- The summarizer: its options and the four cached sub-summaries. -/
structure ReportSummary where
  options : reportOptions
  AnnotationsReport : List Annotation
  DigestsReport : Option DigestReport
  MetadataReport : Option MetadataReport
  ResultsReport : Option ResultsReport
  deriving DecidableEq, Repr

/-- The collaborators of `reportSummary.go` that live outside the embedded files: the
profile lookup `profiles.New`, the method `Report.Load` (its error, if any; the report is
read-only once built, so `Load` leaves it as it is) and the two encoders `json.Marshal`
and `yaml.Marshal`. -/
structure Deps where
  profilesNew : GoMap String Value → profiles.Profile
  reportLoad : report.Report → Option String
  jsonMarshal : ReportSummary → Except String String
  yamlMarshal : ReportSummary → Except String String

/-- The Go zero value `ReportSummary{}` (its nil `options` is never read). -/
def ReportSummary.zero : ReportSummary :=
  { options := { report := none, values := [] }, AnnotationsReport := [],
    DigestsReport := none, MetadataReport := none, ResultsReport := none }

def NewReportSummary : ReportSummary :=
  { options := { report := none, values := [] }, AnnotationsReport := [],
    DigestsReport := none, MetadataReport := none, ResultsReport := none }

/-- `SetReport` takes a `*report.Report`, which may be nil. -/
def SetReport (r : ReportSummary) (report : Option report.Report) : ReportSummary :=
  { options := { r.options with report := report }, AnnotationsReport := [],
    DigestsReport := none, MetadataReport := none, ResultsReport := none }

def SetValues (r : ReportSummary) (values : GoMap String Value) : ReportSummary :=
  { r with options := { r.options with
      values := values.entries.foldl (fun m kv => m.set kv.1 kv.2) r.options.values } }

/-- The Go `fmt.Sprintf("%s/%s", a, b)`. -/
def sprintfSlash (a b : String) : String := a ++ "/" ++ b

/-- One block of `addAnnotations`: the annotation is appended when `len(value) > 0`. -/
def appendIfSet (r : ReportSummary) (name value : String) : ReportSummary :=
  if value.length > 0 then
    { r with AnnotationsReport := r.AnnotationsReport ++ [{ Name := name, Value := value }] }
  else r

def addAnnotations (r : ReportSummary) : Option ReportSummary :=
  let anotationsPrefix :=
    match r.options.values.get AnnotationsPrefixConfigName with
    | some configAnnotationsPrefix => sprintV configAnnotationsPrefix
    | none => DefaultAnnotationsPrefix
  match r.options.report with
  | none => none
  | some rep =>
    let tool := rep.Metadata.ToolMetadata
    let r := appendIfSet r (sprintfSlash anotationsPrefix DigestsAnnotationName)
      tool.Digests.Chart
    let r := appendIfSet r (sprintfSlash anotationsPrefix LastCertifiedTimestampAnnotationName)
      tool.LastCertifiedTimestamp
    let r := appendIfSet r (sprintfSlash anotationsPrefix CertifiedOCPVersionsAnnotationName)
      tool.CertifiedOpenShiftVersions
    let r := appendIfSet r (sprintfSlash anotationsPrefix TestedOCPVersionAnnotationName)
      tool.TestedOpenShiftVersion
    let r := appendIfSet r (sprintfSlash anotationsPrefix SupportedOCPVersionsAnnotationName)
      tool.SupportedOpenShiftVersions
    some r

def addDigests (r : ReportSummary) : Option ReportSummary :=
  match r.options.report with
  | none => none
  | some rep =>
    let digests : DigestReport :=
      { ChartDigest := rep.Metadata.ToolMetadata.Digests.Chart,
        PackageDigest := rep.Metadata.ToolMetadata.Digests.Package }
    some { r with DigestsReport := some digests }

def addMetadata (r : ReportSummary) : Option ReportSummary :=
  match r.options.report with
  | none => none
  | some rep =>
    let metadata : MetadataReport :=
      { ProfileVendorType := rep.Metadata.ToolMetadata.Profile.VendorType,
        ProfileVersion := rep.Metadata.ToolMetadata.Profile.Version,
        ChartUri := rep.Metadata.ToolMetadata.ChartUri,
        Chart := rep.Metadata.ChartData,
        ProviderDelivery := rep.Metadata.ToolMetadata.ProviderDelivery }
    some { r with MetadataReport := some metadata }

/-- The first part of `addResults`: the profile is looked up by the report's vendor type
and version, each replaced by the values entry of its key when that entry prints to a
non-empty string. -/
def resolveProfile (d : Deps) (values : GoMap String Value) (rep : report.Report) :
    profiles.Profile :=
  let profileVendorType := rep.Metadata.ToolMetadata.Profile.VendorType
  let profileVersion := rep.Metadata.ToolMetadata.Profile.Version
  let profileVendorType :=
    match values.get profiles.VendorTypeConfigName with
    | some configVendorType =>
      let useVendorType := sprintV configVendorType
      if useVendorType.length > 0 then useVendorType else profileVendorType
    | none => profileVendorType
  let profileVersion :=
    match values.get profiles.VersionConfigName with
    | some configProfileVersion =>
      let useProfileVersion := sprintV configProfileVersion
      if useProfileVersion.length > 0 then useProfileVersion else profileVersion
    | none => profileVersion
  let values : GoMap String Value := []
  let values := values.set profiles.VendorTypeConfigName (Value.str profileVendorType)
  let values := values.set profiles.VersionConfigName (Value.str profileVersion)
  d.profilesNew values

/-- The three counters of the loop of `addResults`. -/
structure Tally where
  passed : Nat
  failed : Nat
  messages : List String
  deriving DecidableEq, Repr

/-- The reason of a failed check on one line. -/
def flattenReason (reason : String) : String :=
  stringsReplaceAll (stringsTrimRight reason "\n") "\n" ", "

/-- The Go `fmt.Sprintf("Missing mandatory check : %s", name)`. -/
def missingMessage (name : String) : String := "Missing mandatory check : " ++ name

/-- The inner loop of `addResults`: the report's results are scanned up to the first
entry named as the profile check (`break`); the flag is `found`. -/
def scanResults (profileCheck : profiles.Check) : List report.CheckReport → Tally → Bool × Tally
  | [], t => (false, t)
  | reportCheck :: rest, t =>
    if profileCheck.Name = reportCheck.Check then
      if reportCheck.Outcome = report.PassOutcomeType then
        (true, { t with passed := t.passed + 1 })
      else
        (true, { t with failed := t.failed + 1,
                        messages := t.messages ++ [flattenReason reportCheck.Reason] })
    else scanResults profileCheck rest t

/-- The body of the outer loop of `addResults`, for one profile check. -/
def tallyCheck (results : List report.CheckReport) (t : Tally) (profileCheck : profiles.Check) :
    Tally :=
  if profileCheck.Type_ = checks.MandatoryCheckType then
    let (found, t) := scanResults profileCheck results t
    if !found then
      { t with failed := t.failed + 1,
               messages := t.messages ++ [missingMessage profileCheck.Name] }
    else t
  else t

/-- The outer loop of `addResults`, from the counters `0, 0, nil`. -/
def tallyProfile (results : List report.CheckReport) (profileChecks : List profiles.Check) :
    Tally :=
  profileChecks.foldl (tallyCheck results) { passed := 0, failed := 0, messages := [] }

def addResults (d : Deps) (r : ReportSummary) : Option ReportSummary :=
  match r.options.report with
  | none => none
  | some rep =>
    let profile := resolveProfile d r.options.values rep
    let t := tallyProfile rep.Results profile.Checks
    let results : ResultsReport :=
      { Passed := sprintD t.passed, Failed := sprintD t.failed, Messages := t.messages }
    some { r with ResultsReport := some results }

def addAll (d : Deps) (r : ReportSummary) : Option ReportSummary :=
  (((addAnnotations r).bind addDigests).bind (addResults d)).bind addMetadata

/-- The `switch summary` of `GetContent`: the summary that is serialized. -/
def selectSummary (r : ReportSummary) (summary : SummaryType) : ReportSummary :=
  if summary = MetadataSummary then
    { ReportSummary.zero with MetadataReport := r.MetadataReport }
  else if summary = DigestsSummary then
    { ReportSummary.zero with DigestsReport := r.DigestsReport }
  else if summary = ResultsSummary then
    { ReportSummary.zero with ResultsReport := r.ResultsReport }
  else if summary = AnnotationsSummary then
    { ReportSummary.zero with AnnotationsReport := r.AnnotationsReport }
  else r

/-- The method `GetContent`: the summarizer after the call and the `(string, error)`
result. The result `none` is the nil dereference of `r.options.report.Load()` on a
summarizer whose four sub-summaries are set and whose report is nil. -/
def GetContent (d : Deps) (r : ReportSummary) (summary : SummaryType) (format : SummaryFormat) :
    Option (ReportSummary × Except String String) :=
  let generateSummary := r.MetadataReport.isNone || r.ResultsReport.isNone ||
    r.AnnotationsReport.isEmpty || r.DigestsReport.isNone
  if generateSummary && r.options.report.isNone then
    some (r, Except.error "no report set from which to create a summary")
  else
    (if generateSummary then addAll d r else some r).bind fun r =>
      match r.options.report with
      | none => none
      | some rep =>
        match d.reportLoad rep with
        | some err => some (r, Except.error err)
        | none =>
          let outputSummary := selectSummary r summary
          if format = JsonReport then some (r, d.jsonMarshal outputSummary)
          else some (r, d.yamlMarshal outputSummary)

end reportsummary

/-! ## Package `verifier` (`verifier.go`) -/

namespace verifier

/-- The Go `type StringKey string`. -/
abbrev StringKey := String
/-- The Go `type ValuesKey string`. -/
abbrev ValuesKey := String
/-- The Go `type BooleanKey string`. -/
abbrev BooleanKey := String
/-- The Go `type DurationKey string`. -/
abbrev DurationKey := String

def KubeApiServer : StringKey := "kube-apiserver"
def KubeAsUser : StringKey := "kube-as-user"
def KubeCaFile : StringKey := "kube-ca-file"
def KubeContext : StringKey := "kube-context"
def KubeToken : StringKey := "kube-token"
def KubeConfig : StringKey := "kubeconfig"
def Namespace : StringKey := "namespace"
def OpenshiftVersion : StringKey := "openshift-version"
def RegistryConfig : StringKey := "registry-config"
def RepositoryConfig : StringKey := "repository-config"
def RepositoryCache : StringKey := "repository-cache"
def Config : StringKey := "config"
def ChartValues : StringKey := "chart-values"
def KubeAsGroups : StringKey := "kube-as-group"

def ChartSet : ValuesKey := "chart-set"
def ChartSetFile : ValuesKey := "chart-set-file"
def ChartSetString : ValuesKey := "chart-set-string"
def CommandSet : ValuesKey := "set"

def ProviderDelivery : BooleanKey := "provider-delivery"
def SuppressErrorLog : BooleanKey := "suppress-error-log"

def Timeout : DurationKey := "timeout"

def setStringKeys : List StringKey :=
  [KubeApiServer, KubeAsUser, KubeCaFile, KubeConfig, KubeContext, KubeToken, Namespace,
   OpenshiftVersion, RegistryConfig, RepositoryConfig, RepositoryCache, Config, ChartValues,
   KubeAsGroups]

def setValuesKeys : List ValuesKey := [CommandSet, ChartSet, ChartSetFile, ChartSetString]

def setBooleanKeys : List BooleanKey := [ProviderDelivery, SuppressErrorLog]

def setDurationKeys : List DurationKey := [Timeout]

structure CheckStatus where
  Enabled : Bool
  deriving DecidableEq, Repr

/-- The five maps of `v.Inputs.Flags`; a `time.Duration` is its number of nanoseconds. -/
structure Flags where
  StringFlags : GoMap StringKey (List String)
  ValuesFlags : GoMap ValuesKey (GoMap String Value)
  BooleanFlags : GoMap BooleanKey Bool
  DurationFlags : GoMap DurationKey Int
  Checks : GoMap checks.CheckName CheckStatus
  deriving DecidableEq, Repr

structure Inputs where
  ChartUri : String
  Flags : Flags
  deriving DecidableEq, Repr

structure Outputs where
  Report : Option report.Report
  ReportSummary : Option reportsummary.ReportSummary
  deriving DecidableEq, Repr

structure Verifier where
  Id : String
  Inputs : Inputs
  Outputs : Outputs
  deriving DecidableEq, Repr

/-- The verifier with `v.Inputs.Flags.Checks` replaced. -/
def Verifier.withChecks (v : Verifier) (c : GoMap checks.CheckName CheckStatus) : Verifier :=
  { v with Inputs := { v.Inputs with Flags := { v.Inputs.Flags with Checks := c } } }

/-- The verifier with `v.Inputs.Flags.ValuesFlags` replaced. -/
def Verifier.withValuesFlags (v : Verifier) (m : GoMap ValuesKey (GoMap String Value)) :
    Verifier :=
  { v with Inputs := { v.Inputs with Flags := { v.Inputs.Flags with ValuesFlags := m } } }

def SetBoolean (v : Verifier) (key : BooleanKey) (value : Bool) : Verifier :=
  { v with Inputs := { v.Inputs with Flags := { v.Inputs.Flags with
      BooleanFlags := v.Inputs.Flags.BooleanFlags.set key value } } }

def SetDuration (v : Verifier) (key : DurationKey) (duration : Int) : Verifier :=
  { v with Inputs := { v.Inputs with Flags := { v.Inputs.Flags with
      DurationFlags := v.Inputs.Flags.DurationFlags.set key duration } } }

def SetString (v : Verifier) (key : StringKey) (value : List String) : Verifier :=
  { v with Inputs := { v.Inputs with Flags := { v.Inputs.Flags with
      StringFlags := v.Inputs.Flags.StringFlags.set key value } } }

/-- The method `SetValues` on the entries of the maps, for a caller's map `values` that is
a map object of its own (such as a map literal: not nil, and stored nowhere else) with
ASCII keys, on a verifier whose value maps are such objects. `SetValuesInMemory` below is
the method on map values in general: the nil map, and one map object stored twice. -/
def SetValues (v : Verifier) (valuesFlagName : ValuesKey) (values : GoMap String Value) :
    Verifier :=
  match v.Inputs.Flags.ValuesFlags.get valuesFlagName with
  | some existing =>
    v.withValuesFlags (v.Inputs.Flags.ValuesFlags.set valuesFlagName
      (values.entries.foldl (fun m kv => m.set (stringsToLower kv.1) kv.2) existing))
  | none => v.withValuesFlags (v.Inputs.Flags.ValuesFlags.set valuesFlagName values)

/-- The loop `for _, checkName := range names { Checks[checkName] = CheckStatus{b} }`. -/
def setAll (names : List checks.CheckName) (b : Bool)
    (c : GoMap checks.CheckName CheckStatus) : GoMap checks.CheckName CheckStatus :=
  names.foldl (fun m checkName => m.set checkName { Enabled := b }) c

/-- The method `EnableChecks`; `getChecks` is the catalog `checks.GetChecks()`, a function
of the package `checks`, taken as a parameter. -/
def EnableChecks (getChecks : List checks.CheckName) (v : Verifier)
    (checkNames : List checks.CheckName) : Verifier :=
  if checkNames.length > 0 then
    v.withChecks (setAll checkNames true (setAll getChecks false v.Inputs.Flags.Checks))
  else
    v.withChecks (setAll getChecks true v.Inputs.Flags.Checks)

/-- The method `UnEnableChecks`; `getChecks` is the catalog `checks.GetChecks()`. -/
def UnEnableChecks (getChecks : List checks.CheckName) (v : Verifier)
    (checkNames : List checks.CheckName) : Verifier :=
  if checkNames.length > 0 then
    v.withChecks (setAll checkNames false (setAll getChecks true v.Inputs.Flags.Checks))
  else v

/-- The method `initialize` on the zero `Verifier`: `id` is the fresh `uuid.New().String()`,
`defaultProfile` and `defaultProfileVersion` are the constants `profiles.DefaultProfile`
and `profiles.DefaultProfileVersion` of the package `profiles`, taken as parameters. -/
def initializeVerifier (getChecks : List checks.CheckName) (id defaultProfile defaultProfileVersion : String) :
    Verifier :=
  let booleanFlags : GoMap BooleanKey Bool := []
  let booleanFlags := booleanFlags.set ProviderDelivery false
  let booleanFlags := booleanFlags.set SuppressErrorLog false
  let v : Verifier :=
    { Id := id,
      Inputs := { ChartUri := "",
                  Flags := { StringFlags := [], ValuesFlags := [], BooleanFlags := booleanFlags,
                             DurationFlags := [], Checks := setAll getChecks true [] } },
      Outputs := { Report := none, ReportSummary := none } }
  let profileDefaults : GoMap String Value := []
  let profileDefaults := profileDefaults.set profiles.VendorTypeConfigName (Value.str defaultProfile)
  let profileDefaults := profileDefaults.set profiles.VersionConfigName (Value.str defaultProfileVersion)
  let v := SetValues v CommandSet profileDefaults
  { v with Outputs := { Report := none, ReportSummary := none } }

def NewVerifier (getChecks : List checks.CheckName) (id defaultProfile defaultProfileVersion : String) :
    Verifier :=
  initializeVerifier getChecks id defaultProfile defaultProfileVersion

end verifier

/-! ## Notions the statements below use -/

/-- The value `String.toNat?` reads off a list of digits, from an accumulator. -/
def digitsValue (acc : Nat) (l : List Char) : Nat :=
  l.foldl (fun n c => n * 10 + (c.toNat - 48)) acc

namespace reportsummary

/-- The profile checks the loop of `addResults` looks at: those of type Mandatory. -/
def mandatoryChecks (profileChecks : List profiles.Check) : List profiles.Check :=
  profileChecks.filter fun c => c.Type_ = checks.MandatoryCheckType

/-- The counters before the loop of `addResults`. -/
def Tally.zero : Tally := { passed := 0, failed := 0, messages := [] }

end reportsummary

/-! ## The one-line reason, in the words of the specification -/

/-- All trailing newlines stripped. -/
def stripTrailingNewlines : List Char → List Char
  | [] => []
  | c :: cs =>
    if c = '\n' ∧ stripTrailingNewlines cs = [] then [] else c :: stripTrailingNewlines cs

/-- Every newline replaced by a comma and a blank. -/
def commaForNewline (l : List Char) : List Char :=
  l.flatMap fun c => if c = '\n' then [',', ' '] else [c]

/-- The reason with all trailing newlines stripped and every remaining newline replaced
by a comma and a blank. -/
def flattenSpec (reason : String) : String :=
  ⟨commaForNewline (stripTrailingNewlines reason.data)⟩

/-! ## Example inputs -/

namespace Examples

open reportsummary

/-- A profile lookup: the `redhat` profile makes three checks mandatory, every other
vendor type makes one check mandatory. -/
def exampleProfilesNew (values : GoMap String Value) : profiles.Profile :=
  if values.get profiles.VendorTypeConfigName = some (Value.str "redhat") then
    { VendorType := "redhat", Version := "v1.1",
      Checks := [{ Name := "v1.0/is-helm-v3", Type_ := checks.MandatoryCheckType },
                 { Name := "v1.0/images-are-certified", Type_ := checks.MandatoryCheckType },
                 { Name := "v1.0/chart-testing", Type_ := checks.OptionalCheckType },
                 { Name := "v1.0/has-readme", Type_ := checks.MandatoryCheckType }] }
  else
    { VendorType := "partner", Version := "v1.0",
      Checks := [{ Name := "v1.0/images-are-certified", Type_ := checks.MandatoryCheckType }] }

def exampleDeps : Deps :=
  { profilesNew := exampleProfilesNew,
    reportLoad := fun _ => none,
    jsonMarshal := fun _ => Except.ok "json",
    yamlMarshal := fun _ => Except.ok "yaml" }

def exampleTool : report.ToolMetadata :=
  { Version := "1.0.0", Profile := { VendorType := "partner", Version := "v1.0" },
    ChartUri := "chart.tgz", Digests := { Chart := "sha256:abc", Package := "" },
    LastCertifiedTimestamp := "", CertifiedOpenShiftVersions := "4.9",
    TestedOpenShiftVersion := "", SupportedOpenShiftVersions := "",
    ProviderDelivery := false }

/-- The report of the scenario: one check, failed, with a reason on two lines. -/
def scenarioReport : report.Report :=
  { Apiversion := "v1", Kind := "verify-report",
    Metadata := { ToolMetadata := exampleTool, ChartData := none, Overrides := "" },
    Results := [{ Check := "v1.0/images-are-certified", Type_ := checks.MandatoryCheckType,
                  Outcome := report.FailOutcomeType, Reason := "bad\nimage\n" }] }

/-- A report with a passed check, a failed check and a failed optional check. -/
def exampleReport : report.Report :=
  { Apiversion := "v1", Kind := "verify-report",
    Metadata := { ToolMetadata := exampleTool, ChartData := none, Overrides := "" },
    Results := [{ Check := "v1.0/is-helm-v3", Type_ := checks.MandatoryCheckType,
                  Outcome := report.PassOutcomeType, Reason := "ok" },
                { Check := "v1.0/images-are-certified", Type_ := checks.MandatoryCheckType,
                  Outcome := report.FailOutcomeType, Reason := "bad\nimage\n" },
                { Check := "v1.0/chart-testing", Type_ := checks.OptionalCheckType,
                  Outcome := report.FailOutcomeType, Reason := "no cluster" }] }

/-- A summarizer holding `exampleReport` and the vendor type override `redhat`. -/
def exampleSummary : ReportSummary :=
  SetReport (SetValues NewReportSummary [(profiles.VendorTypeConfigName, Value.str "redhat")])
    (some exampleReport)

/-- A summarizer holding `scenarioReport` and no values. -/
def scenarioSummary : ReportSummary := SetReport NewReportSummary (some scenarioReport)

end Examples

namespace Examples

open reportsummary

/-- The report `exampleReport` with the outcome of its optional check changed to Pass. -/
def exampleReportOptionalPassed : report.Report :=
  { exampleReport with
    Results := [{ Check := "v1.0/is-helm-v3", Type_ := checks.MandatoryCheckType,
                  Outcome := report.PassOutcomeType, Reason := "ok" },
                { Check := "v1.0/images-are-certified", Type_ := checks.MandatoryCheckType,
                  Outcome := report.FailOutcomeType, Reason := "bad\nimage\n" },
                { Check := "v1.0/chart-testing", Type_ := checks.OptionalCheckType,
                  Outcome := report.PassOutcomeType, Reason := "" }] }

/-- The profile lookup `exampleProfilesNew` with the optional check of the `redhat`
profile removed. -/
def exampleDepsNoOptional : Deps :=
  { exampleDeps with
    profilesNew := fun values =>
      { exampleProfilesNew values with
        Checks := (exampleProfilesNew values).Checks.filter
          fun c => c.Type_ = checks.MandatoryCheckType } }

/-- A check catalog of three checks. -/
def exampleCatalog : List checks.CheckName :=
  ["v1.0/is-helm-v3", "v1.0/has-readme", "v1.0/images-are-certified"]

/-- A new verifier over `exampleCatalog`. -/
def exampleVerifier : verifier.Verifier :=
  verifier.NewVerifier exampleCatalog "id-1" "partner" "v1.1"

/-- The verifier after `EnableChecks` with a name outside the catalog: the name is in the
status map, enabled. -/
def verifierWithUnknownEnabled : verifier.Verifier :=
  verifier.EnableChecks exampleCatalog exampleVerifier ["v9.9/no-such-check"]

/-- The verifier after `UnEnableChecks` with a name outside the catalog: the name is in the
status map, disabled. -/
def verifierWithUnknownDisabled : verifier.Verifier :=
  verifier.UnEnableChecks exampleCatalog exampleVerifier ["v9.9/no-such-check"]

end Examples

namespace Examples

open reportsummary

/-- A summarizer that is given both profile overrides, `redhat` and `v1.1`, and then
`exampleReport`, which records the profile `partner`, `v1.0`. -/
def overrideSummary : ReportSummary :=
  SetReport
    (SetValues NewReportSummary
      [(profiles.VendorTypeConfigName, Value.str "redhat"),
       (profiles.VersionConfigName, Value.str "v1.1")])
    (some exampleReport)

/-- A second report: another chart, no digest, a timestamp. -/
def secondReport : report.Report :=
  { Apiversion := "v1", Kind := "verify-report",
    Metadata :=
      { ToolMetadata :=
          { Version := "1.0.0", Profile := { VendorType := "community", Version := "v1.0" },
            ChartUri := "other.tgz", Digests := { Chart := "", Package := "sha256:def" },
            LastCertifiedTimestamp := "2021-07-01", CertifiedOpenShiftVersions := "",
            TestedOpenShiftVersion := "", SupportedOpenShiftVersions := "",
            ProviderDelivery := true },
        ChartData := none, Overrides := "" },
    Results := [] }

end Examples

/-! ## The sub-summaries, in the words of the specification -/

namespace reportsummary

/-- The five tracked metadata fields of a report, each with its fixed key, in the fixed
order. -/
def trackedFields (rep : report.Report) : List (String × String) :=
  [("digest", rep.Metadata.ToolMetadata.Digests.Chart),
   ("lastCertifiedTimestamp", rep.Metadata.ToolMetadata.LastCertifiedTimestamp),
   ("certifiedOpenShiftVersions", rep.Metadata.ToolMetadata.CertifiedOpenShiftVersions),
   ("testedOpenShiftVersion", rep.Metadata.ToolMetadata.TestedOpenShiftVersion),
   ("supportedOpenShiftVersions", rep.Metadata.ToolMetadata.SupportedOpenShiftVersions)]

/-- The values entry `annotations.prefix`, as it prints, when present, and
`charts.openshift.io` otherwise. -/
def annotationsPrefix (values : GoMap String Value) : String :=
  match values.get "annotations.prefix" with
  | some v => sprintV v
  | none => "charts.openshift.io"

/-- One entry `{Name: "<prefix>/<field key>", Value: field value}` for each tracked field
that is non-empty, in the fixed order, and no entry for an empty field. -/
def expectedAnnotations (values : GoMap String Value) (rep : report.Report) :
    List Annotation :=
  ((trackedFields rep).filter fun kv => kv.2 ≠ "").map fun kv =>
    { Name := annotationsPrefix values ++ "/" ++ kv.1, Value := kv.2 }

/-- The digests of the report. -/
def digestsOf (rep : report.Report) : DigestReport :=
  { ChartDigest := rep.Metadata.ToolMetadata.Digests.Chart,
    PackageDigest := rep.Metadata.ToolMetadata.Digests.Package }

/-- The metadata of the report, with the profile the report records. -/
def metadataOf (rep : report.Report) : MetadataReport :=
  { ProfileVendorType := rep.Metadata.ToolMetadata.Profile.VendorType,
    ProfileVersion := rep.Metadata.ToolMetadata.Profile.Version,
    ChartUri := rep.Metadata.ToolMetadata.ChartUri,
    Chart := rep.Metadata.ChartData,
    ProviderDelivery := rep.Metadata.ToolMetadata.ProviderDelivery }

/-- The results of the report against the profile resolved from the values and the
report. -/
def resultsOf (d : Deps) (values : GoMap String Value) (rep : report.Report) : ResultsReport :=
  { Passed := sprintD (tallyProfile rep.Results (resolveProfile d values rep).Checks).passed,
    Failed := sprintD (tallyProfile rep.Results (resolveProfile d values rep).Checks).failed,
    Messages := (tallyProfile rep.Results (resolveProfile d values rep).Checks).messages }

/-- The summarizer that holds the values and the report and the four sub-summaries of
that report alone. -/
def summaryOf (d : Deps) (values : GoMap String Value) (rep : report.Report) : ReportSummary :=
  { options := { report := some rep, values := values },
    AnnotationsReport := expectedAnnotations values rep,
    DigestsReport := some (digestsOf rep),
    MetadataReport := some (metadataOf rep),
    ResultsReport := some (resultsOf d values rep) }

/-- The `(string, error)` result of `GetContent` for a summarizer whose sub-summaries are
set: the error of `Load`, if any, or the encoding of the selected summary. -/
def render (d : Deps) (r : ReportSummary) (rep : report.Report) (summary : SummaryType)
    (format : SummaryFormat) : Except String String :=
  match d.reportLoad rep with
  | some err => Except.error err
  | none =>
    if format = JsonReport then d.jsonMarshal (selectSummary r summary)
    else d.yamlMarshal (selectSummary r summary)

/-- A fresh summarizer that is given the values and then the report. -/
def freshSummary (values : GoMap String Value) (rep : report.Report) : ReportSummary :=
  SetReport { NewReportSummary with options := { report := none, values := values } } (some rep)

end reportsummary

/-! ## Package `verifier`: validation of the inputs -/

/-- Go leaves open the order in which a `range` over a map visits the keys: `visit ks` is
the order chosen for a map whose keys are `ks`, any rearrangement of them. -/
structure RangeChoice where
  visit : List String → List String
  visit_perm : ∀ ks, (visit ks).Perm ks

/-- The choice that visits the keys in the order of the association list. -/
def RangeChoice.inOrder : RangeChoice :=
  { visit := fun ks => ks, visit_perm := fun ks => List.Perm.refl ks }

/-- The choice that visits the keys in the reverse order. -/
def RangeChoice.reversed : RangeChoice :=
  { visit := fun ks => ks.reverse, visit_perm := fun ks => List.reverse_perm ks }

namespace verifier

/-- The inner loop of the four key validations: `foundElement` is set when an element of
the whitelist equals the key (`validateBooleanKeys` goes on with `continue`, the others
leave with `break`; the flag is the same). -/
def foundElement (whitelist : List String) (key : String) : Bool :=
  whitelist.any fun sliceElement => sliceElement == key

/-- The outer loop of the four key validations over the keys in the order visited: `err`
is overwritten at every key outside the whitelist, `message` being the text before the
key in `fmt.Sprintf`. -/
def validateKeys (whitelist : List String) (message : String) :
    List String → Option String → Option String
  | [], err => err
  | key :: rest, err =>
    if !foundElement whitelist key then validateKeys whitelist message rest (some (message ++ key))
    else validateKeys whitelist message rest err

def validateBooleanKeys (σ : RangeChoice) (v : Verifier) : Option String :=
  validateKeys setBooleanKeys "Invalid boolean key name: "
    (σ.visit v.Inputs.Flags.BooleanFlags.keys) none

def validateDurationKeys (σ : RangeChoice) (v : Verifier) : Option String :=
  validateKeys setDurationKeys "Invalid duration key name: "
    (σ.visit v.Inputs.Flags.DurationFlags.keys) none

def validateStringKeys (σ : RangeChoice) (v : Verifier) : Option String :=
  validateKeys setStringKeys "Invalid string key name: "
    (σ.visit v.Inputs.Flags.StringFlags.keys) none

def validateValuesKeys (σ : RangeChoice) (v : Verifier) : Option String :=
  validateKeys setValuesKeys "Invalid values key name: "
    (σ.visit v.Inputs.Flags.ValuesFlags.keys) none

/-- The loop of `validateChecks` over the check names in the order visited: it returns at
the first name outside the catalog. -/
def validateChecksLoop (getChecks : List checks.CheckName) : List checks.CheckName → Option String
  | [] => none
  | checkName :: rest =>
    let isValidCheckName := getChecks.any fun validCheckName => checkName == validCheckName
    if !isValidCheckName then some ("Invalid check name : " ++ checkName)
    else validateChecksLoop getChecks rest

def validateChecks (σ : RangeChoice) (getChecks : List checks.CheckName) (v : Verifier) :
    Option String :=
  validateChecksLoop getChecks (σ.visit v.Inputs.Flags.Checks.keys)

/-- The method `checkInputs`: the error, `none` being the nil error. -/
def checkInputs (σ : RangeChoice) (getChecks : List checks.CheckName) (v : Verifier) :
    Option String :=
  let err := validateBooleanKeys σ v
  let err := if err = none then validateChecks σ getChecks v else err
  let err := if err = none then validateDurationKeys σ v else err
  let err := if err = none then validateValuesKeys σ v else err
  let err := if err = none then validateStringKeys σ v else err
  err

/-- The loop of `SetValues` on a values key that has a map, on the entries of the maps:
every entry of `values`, in the order visited, is written under its lower-cased key. -/
def mergeLower (visited : List (String × Value)) (existing : GoMap String Value) :
    GoMap String Value :=
  visited.foldl (fun m kv => m.set (stringsToLower kv.1) kv.2) existing

end verifier

namespace Examples

/-- The new verifier with a boolean key, a string key, a duration key and a check name
that are all outside their whitelists. -/
def invalidVerifier : verifier.Verifier :=
  verifier.SetDuration
    (verifier.SetString
      (verifier.SetBoolean
        (verifier.EnableChecks exampleCatalog exampleVerifier ["v9.9/no-such-check"])
        "no-such-flag" true)
      "no-such-setting" ["x"])
    "no-such-duration" 5

/-- A values map with two keys that are equal once lower-cased. -/
def collidingValues : GoMap String Value :=
  [("Image.Tag", Value.str "one"), ("image.tag", Value.str "two")]

/-- A values map without such keys. -/
def plainValues : GoMap String Value :=
  [("Image.Tag", Value.str "one"), ("replicas", Value.int 2)]

/-- A report that has none of the five tracked annotation fields and one failed check. -/
def bareReport : report.Report :=
  { Apiversion := "v1", Kind := "verify-report",
    Metadata :=
      { ToolMetadata :=
          { Version := "1.0.0", Profile := { VendorType := "partner", Version := "v1.0" },
            ChartUri := "bare.tgz", Digests := { Chart := "", Package := "" },
            LastCertifiedTimestamp := "", CertifiedOpenShiftVersions := "",
            TestedOpenShiftVersion := "", SupportedOpenShiftVersions := "",
            ProviderDelivery := false },
        ChartData := none, Overrides := "" },
    Results := [{ Check := "v1.0/images-are-certified", Type_ := checks.MandatoryCheckType,
                  Outcome := report.FailOutcomeType, Reason := "bad" }] }

end Examples

namespace verifier

/-- Some key of the map is outside the whitelist. -/
def hasKeyOutside {V : Type} (m : GoMap String V) (whitelist : List String) : Prop :=
  ∃ k, (m.get k).isSome = true ∧ k ∉ whitelist

end verifier

namespace Examples

/-- The new verifier with a check name outside the catalog and a duration key outside its
whitelist, and every boolean key in its whitelist. -/
def invalidCheckAndDuration : verifier.Verifier :=
  verifier.SetDuration
    (verifier.EnableChecks exampleCatalog exampleVerifier ["v9.9/no-such-check"])
    "no-such-duration" 5

end Examples

/-! ## The summarizer after `GetContent` -/

namespace reportsummary

/-- The flag `generateSummary` of `GetContent`: one of the four sub-summaries is nil. -/
def needsGenerate (r : ReportSummary) : Bool :=
  r.MetadataReport.isNone || r.ResultsReport.isNone || r.AnnotationsReport.isEmpty ||
    r.DigestsReport.isNone

/-- The summarizer after `addAll` for the report `rep`: the annotations of the report are
appended to the cached ones, the other three sub-summaries are computed anew. -/
def regenerated (d : Deps) (r : ReportSummary) (rep : report.Report) : ReportSummary :=
  { options := r.options,
    AnnotationsReport := r.AnnotationsReport ++ expectedAnnotations r.options.values rep,
    DigestsReport := some (digestsOf rep),
    MetadataReport := some (metadataOf rep),
    ResultsReport := some (resultsOf d r.options.values rep) }

/-- The summarizer after `GetContent` when the report `rep` is attached. -/
def afterGetContent (d : Deps) (r : ReportSummary) (rep : report.Report) : ReportSummary :=
  if needsGenerate r then regenerated d r rep else r

end reportsummary

/-! ## Package `verifier`: `Run` -/

namespace verifier

/-- The helm type `cli.EnvSettings`: the fields `setHelmEnv` writes (`Namespace` is set by
`SetNamespace`). -/
structure EnvSettings where
  KubeAPIServer : String
  KubeAsUser : String
  KubeCaFile : String
  KubeConfig : String
  KubeContext : String
  KubeToken : String
  Namespace : String
  RegistryConfig : String
  RepositoryConfig : String
  RepositoryCache : String
  KubeAsGroups : List String
  deriving DecidableEq, Repr

/-- The helm type `values.Options`. -/
structure ValuesOptions where
  ValueFiles : List String
  StringValues : List String
  Values : List String
  FileValues : List String
  deriving DecidableEq, Repr

/-- The type `api.RunOptions`: the fields `Run` sets (`ViperConfig` is a fresh
`viper.New()`). -/
structure RunOptions where
  APIVersion : String
  ChartUri : String
  Values : GoMap String Value
  Overrides : GoMap String Value
  ChecksToRun : List checks.CheckName
  OpenShiftVersion : String
  ProviderDelivery : Bool
  SuppressErrorLog : Bool
  ClientTimeout : Int
  deriving DecidableEq, Repr

/-- The collaborators of `Run` that live outside the embedded files: the catalog
`checks.GetChecks()`, the helm settings `cli.New()`, the helm merge
`opts.MergeValues(getter.All(settings))`, the execution `api.Run` and the method
`report.Init`. -/
structure RunDeps where
  getChecks : List checks.CheckName
  cliNew : EnvSettings
  mergeValues : EnvSettings → ValuesOptions → Except String (GoMap String Value)
  apiRun : RunOptions → Except String report.Report
  reportInit : report.Report → report.Report

def APIVersion : String := "1.0.0"

/-- The Go `fmt.Sprintf("%s", x)` of an `interface{}` value: a string prints as it is, a
boolean or an integer prints as a bad-verb text; a value of another type prints the text
recorded for `%s`. -/
def sprintS : Value → String
  | .str s => s
  | .bool true => "%!s(bool=true)"
  | .bool false => "%!s(bool=false)"
  | .int n => "%!s(int=" ++ sprintV (.int n) ++ ")"
  | .other _ printedS => printedS

/-- The function `mapToStringSlice`, the map visited in the order `σ` chooses. -/
def mapToStringSlice (σ : RangeChoice) (valuesMap : GoMap String Value) : List String :=
  (σ.visit valuesMap.keys).filterMap fun name =>
    (valuesMap.get name).map fun value => name ++ "=" ++ sprintS value

/-- The `switch key` of `setHelmEnv` for one entry; `value[0]` is `value.head?`, and `none`
is the panic of an index out of range. -/
def setHelmEnvStep (settings : EnvSettings) (key : StringKey) (value : List String) :
    Option EnvSettings :=
  if key = KubeApiServer then value.head?.map fun x => { settings with KubeAPIServer := x }
  else if key = KubeAsUser then value.head?.map fun x => { settings with KubeAsUser := x }
  else if key = KubeCaFile then value.head?.map fun x => { settings with KubeCaFile := x }
  else if key = KubeConfig then value.head?.map fun x => { settings with KubeConfig := x }
  else if key = KubeContext then value.head?.map fun x => { settings with KubeContext := x }
  else if key = KubeToken then value.head?.map fun x => { settings with KubeToken := x }
  else if key = Namespace then value.head?.map fun x => { settings with Namespace := x }
  else if key = RegistryConfig then
    value.head?.map fun x => { settings with RegistryConfig := x }
  else if key = RepositoryConfig then
    value.head?.map fun x => { settings with RepositoryConfig := x }
  else if key = RepositoryCache then
    value.head?.map fun x => { settings with RepositoryCache := x }
  else if key = KubeAsGroups then some { settings with KubeAsGroups := value }
  else some settings

/-- The loop of `setHelmEnv` over the keys in the order visited. -/
def setHelmEnvLoop (stringSettings : GoMap StringKey (List String)) :
    List StringKey → EnvSettings → Option EnvSettings
  | [], settings => some settings
  | key :: rest, settings =>
    match stringSettings.get key with
    | none => setHelmEnvLoop stringSettings rest settings
    | some value =>
      match setHelmEnvStep settings key value with
      | none => none
      | some settings => setHelmEnvLoop stringSettings rest settings

/-- The function `setHelmEnv`: the settings after the loop, `none` when it panics. -/
def setHelmEnv (σ : RangeChoice) (settings : EnvSettings)
    (stringSettings : GoMap StringKey (List String)) : Option EnvSettings :=
  setHelmEnvLoop stringSettings (σ.visit stringSettings.keys) settings

/-- The loop of `Run` that fills `ChecksToRun`: the names of the status map, in the order
visited, whose status is enabled. -/
def checksToRun (σ : RangeChoice) (checkStatus : GoMap checks.CheckName CheckStatus) :
    List checks.CheckName :=
  (σ.visit checkStatus.keys).filter fun checkName =>
    match checkStatus.get checkName with
    | some status => status.Enabled
    | none => false

/-- The value options `Run` builds from the values flags and the `chart-values` string
flag. -/
def valuesOptions (σ : RangeChoice) (flags : Flags) : ValuesOptions :=
  { Values := match flags.ValuesFlags.get ChartSet with
      | some valueMap => mapToStringSlice σ valueMap
      | none => [],
    FileValues := match flags.ValuesFlags.get ChartSetFile with
      | some valueMap => mapToStringSlice σ valueMap
      | none => [],
    StringValues := match flags.ValuesFlags.get ChartSetString with
      | some valueMap => mapToStringSlice σ valueMap
      | none => [],
    ValueFiles := match flags.StringFlags.get ChartValues with
      | some stringValue => stringValue
      | none => [] }

/-- The part of `Run` between `checkInputs` and `api.Run`: the run options. The result
`none` is a panic (an index out of range in `setHelmEnv` or at `stringsValue[0]`), an
error is the error of the helm merge. -/
def buildRunOptions (σ : RangeChoice) (d : RunDeps) (v : Verifier) (chart_uri : String) :
    Option (Except String RunOptions) :=
  match setHelmEnv σ d.cliNew v.Inputs.Flags.StringFlags with
  | none => none
  | some settings =>
    match d.mergeValues settings (valuesOptions σ v.Inputs.Flags) with
    | Except.error mergeErr => some (Except.error mergeErr)
    | Except.ok vals =>
      let openShiftVersion : Option String :=
        match v.Inputs.Flags.StringFlags.get OpenshiftVersion with
        | some stringsValue => stringsValue.head?
        | none => some ""
      match openShiftVersion with
      | none => none
      | some version =>
        some (Except.ok
          { APIVersion := APIVersion,
            ChartUri := chart_uri,
            Values := vals,
            Overrides := (v.Inputs.Flags.ValuesFlags.get CommandSet).getD [],
            ChecksToRun := checksToRun σ v.Inputs.Flags.Checks,
            OpenShiftVersion := version,
            ProviderDelivery := (v.Inputs.Flags.BooleanFlags.get ProviderDelivery).getD false,
            SuppressErrorLog := (v.Inputs.Flags.BooleanFlags.get SuppressErrorLog).getD false,
            ClientTimeout := (v.Inputs.Flags.DurationFlags.get Timeout).getD 0 })

/-- The verifier with `v.Inputs.ChartUri` set. -/
def Verifier.withChartUri (v : Verifier) (chart_uri : String) : Verifier :=
  { v with Inputs := { v.Inputs with ChartUri := chart_uri } }

/-- The verifier with `v.Outputs.Report` set. -/
def Verifier.withReport (v : Verifier) (rep : report.Report) : Verifier :=
  { v with Outputs := { v.Outputs with Report := some rep } }

/-- The method `Run`: the verifier after the call, the error returned (`none` for nil) and
the options of the calls made to `api.Run`, in order. The result `none` is a panic. -/
def Run (σ : RangeChoice) (d : RunDeps) (v : Verifier) (chart_uri : String) :
    Option (Verifier × Option String × List RunOptions) :=
  if chart_uri.length = 0 then some (v, some "run error: chart_uri is required", [])
  else
    let v := v.withChartUri chart_uri
    match checkInputs σ d.getChecks v with
    | some err => some (v, some err, [])
    | none =>
      match buildRunOptions σ d v chart_uri with
      | none => none
      | some (Except.error mergeErr) => some (v, some mergeErr, [])
      | some (Except.ok runOptions) =>
        match d.apiRun runOptions with
        | Except.error runErr => some (v, some runErr, [runOptions])
        | Except.ok rep => some (v.withReport (d.reportInit rep), none, [runOptions])

def GetReport (v : Verifier) : Option report.Report := v.Outputs.Report

/-- The verifiers a caller gets from `NewVerifier` by the setters and the two check
selections. -/
inductive Configured (getChecks : List checks.CheckName) : Verifier → Prop
  | newVerifier (id defaultProfile defaultProfileVersion : String) :
    Configured getChecks (NewVerifier getChecks id defaultProfile defaultProfileVersion)
  | setBoolean {v : Verifier} (key : BooleanKey) (value : Bool) :
    Configured getChecks v → Configured getChecks (SetBoolean v key value)
  | setDuration {v : Verifier} (key : DurationKey) (duration : Int) :
    Configured getChecks v → Configured getChecks (SetDuration v key duration)
  | setString {v : Verifier} (key : StringKey) (value : List String) :
    Configured getChecks v → Configured getChecks (SetString v key value)
  | setValues {v : Verifier} (key : ValuesKey) (values : GoMap String Value) :
    Configured getChecks v → Configured getChecks (SetValues v key values)
  | enableChecks {v : Verifier} (names : List checks.CheckName) :
    Configured getChecks v → Configured getChecks (EnableChecks getChecks v names)
  | unEnableChecks {v : Verifier} (names : List checks.CheckName) :
    Configured getChecks v → Configured getChecks (UnEnableChecks getChecks v names)

end verifier

/-! ## Package `cmd` (`verify.go`): the check lists of the command line -/

namespace cmd

/-- The function `convertChecks`, from the names still to convert and the set built so
far: every catalog name equal to the name is appended; a name that found none ends the
loop with the error. -/
def convertChecksLoop (getChecks : List checks.CheckName) :
    List String → List checks.CheckName → List checks.CheckName × Option String
  | [], apiCheckSet => (apiCheckSet, none)
  | check :: rest, apiCheckSet =>
    let found := getChecks.filter fun checkName => check = checkName
    let apiCheckSet := apiCheckSet ++ found
    let checkFound := !found.isEmpty
    if !checkFound then (apiCheckSet, some ("enabled check is invalid :" ++ check))
    else convertChecksLoop getChecks rest apiCheckSet

def convertChecks (getChecks : List checks.CheckName) (names : List String) :
    List checks.CheckName × Option String :=
  convertChecksLoop getChecks names []

/-- The function `buildChecks`: the enabled checks, the un-enabled checks and the error
(`none` for nil). -/
def buildChecks (getChecks : List checks.CheckName) (enabled unEnabled : List String) :
    List checks.CheckName × List checks.CheckName × Option String :=
  if enabled.length > 0 ∧ unEnabled.length > 0 then
    ([], [], some "--enable and --disable can't be used at the same time")
  else if enabled.length > 0 then
    match convertChecks getChecks enabled with
    | (enabledChecks, some convertErr) => (enabledChecks, [], some convertErr)
    | (enabledChecks, none) => (enabledChecks, [], none)
  else if unEnabled.length > 0 then
    match convertChecks getChecks unEnabled with
    | (unEnabledChecks, some convertErr) => ([], unEnabledChecks, some convertErr)
    | (unEnabledChecks, none) => ([], unEnabledChecks, none)
  else ([], [], none)

end cmd

/-! ## Package `chartverifier` (`internal/chartverifier/report.go`) -/

namespace chartverifier

def ReportApiVersion : String := "v1"
def ReportKind : String := "verify-report"

/-- The type `checks.CheckId` of the internal package `checks`. -/
structure CheckId where
  Name : String
  Version : String
  deriving DecidableEq, Repr

/-- The type `checks.Check` of the internal package `checks`: the fields `AddCheck` reads;
`Type_` is the Go field `Type`. -/
structure Check where
  CheckId : CheckId
  Type_ : String
  deriving DecidableEq, Repr

structure InternalReport where
  APIReport : report.Report
  deriving DecidableEq, Repr

/-- A `*InternalCheckReport` that `AddCheck` returned: `Results` holds the pointer
`&newCheck.APICheckReport`, so the check report and the entry of `Results` are one
object, named here by the position of the entry. -/
structure InternalCheckReport where
  index : Nat
  deriving DecidableEq, Repr

/-- The zero value `apiReport.ToolMetadata{}`. -/
def zeroToolMetadata : report.ToolMetadata :=
  { Version := "", Profile := { VendorType := "", Version := "" }, ChartUri := "",
    Digests := { Chart := "", Package := "" }, LastCertifiedTimestamp := "",
    CertifiedOpenShiftVersions := "", TestedOpenShiftVersion := "",
    SupportedOpenShiftVersions := "", ProviderDelivery := false }

def newReport : InternalReport :=
  { APIReport :=
      { Apiversion := ReportApiVersion, Kind := ReportKind,
        Metadata := { ToolMetadata := zeroToolMetadata, ChartData := none, Overrides := "" },
        Results := [] } }

/-- The Go `fmt.Sprintf("%s/%s", check.CheckId.Version, check.CheckId.Name)`. -/
def checkName (check : Check) : checks.CheckName :=
  check.CheckId.Version ++ "/" ++ check.CheckId.Name

def AddCheck (c : InternalReport) (check : Check) : InternalReport × InternalCheckReport :=
  let newCheck : report.CheckReport :=
    { Check := checkName check, Type_ := check.Type_,
      Outcome := report.UnknownOutcomeType, Reason := "" }
  ({ APIReport := { c.APIReport with Results := c.APIReport.Results ++ [newCheck] } },
   { index := c.APIReport.Results.length })

/-- The method `SetResult` on the check report `cr` of the report `c`. -/
def SetResult (c : InternalReport) (cr : InternalCheckReport) (outcome : Bool)
    (reason : String) : InternalReport :=
  { APIReport := { c.APIReport with
      Results := c.APIReport.Results.modify
        (fun entry =>
          { entry with
            Outcome := if outcome then report.PassOutcomeType else report.FailOutcomeType,
            Reason := reason })
        cr.index } }

def GetApiReport (c : InternalReport) : report.Report := c.APIReport

def GetApiCheckReport (c : InternalReport) (cr : InternalCheckReport) :
    Option report.CheckReport :=
  c.APIReport.Results[cr.index]?

/-- One call on a report: `AddCheck`, or `SetResult` on the check report with the given
position. -/
inductive ReportOp where
  | addCheck (check : Check)
  | setResult (cr : InternalCheckReport) (outcome : Bool) (reason : String)

def applyOp (c : InternalReport) : ReportOp → InternalReport
  | .addCheck check => (AddCheck c check).1
  | .setResult cr outcome reason => SetResult c cr outcome reason

/-- The report after a sequence of calls on `newReport`. -/
def runOps (ops : List ReportOp) : InternalReport := ops.foldl applyOp newReport

/-- The identifiers of the checks added by a sequence of calls, in the order of the
calls. -/
def addedNames (ops : List ReportOp) : List checks.CheckName :=
  ops.filterMap fun op =>
    match op with
    | .addCheck check => some (checkName check)
    | .setResult _ _ _ => none

end chartverifier

/-! ## The verdict on one profile check, in the words of the specification -/

namespace reportsummary

/-- The entry of the report the loop of `addResults` finds for a name: the first one of
that name. -/
def firstResult (results : List report.CheckReport) (name : String) :
    Option report.CheckReport :=
  results.find? fun reportCheck => name = reportCheck.Check

/-- A profile check is passed when its entry is found with the outcome Pass. -/
def checkPassed (results : List report.CheckReport) (pc : profiles.Check) : Bool :=
  match firstResult results pc.Name with
  | some reportCheck => reportCheck.Outcome = report.PassOutcomeType
  | none => false

/-- The message of a profile check that is not passed: the one-line reason of its entry,
or the missing-check message when it has no entry. -/
def failureMessage (results : List report.CheckReport) (pc : profiles.Check) : String :=
  match firstResult results pc.Name with
  | some reportCheck => flattenReason reportCheck.Reason
  | none => missingMessage pc.Name

/-- The Mandatory checks of the profile that are not passed, in profile order. -/
def failingChecks (results : List report.CheckReport) (profileChecks : List profiles.Check) :
    List profiles.Check :=
  (mandatoryChecks profileChecks).filter fun pc => !checkPassed results pc

end reportsummary

namespace Examples

/-- Collaborators of `Run`: an execution that fails with `boom`. -/
def failingRunDeps : verifier.RunDeps :=
  { getChecks := exampleCatalog,
    cliNew := { KubeAPIServer := "", KubeAsUser := "", KubeCaFile := "", KubeConfig := "",
                KubeContext := "", KubeToken := "", Namespace := "default",
                RegistryConfig := "", RepositoryConfig := "", RepositoryCache := "",
                KubeAsGroups := [] },
    mergeValues := fun _ _ => Except.ok [],
    apiRun := fun _ => Except.error "boom",
    reportInit := fun rep => rep }

/-- A check of the internal registry. -/
def someCheck : chartverifier.Check :=
  { CheckId := { Name := "is-helm-v3", Version := "v1.0" }, Type_ := checks.MandatoryCheckType }

end Examples

/-! ## `SetValues` on map objects

A Go map value is a reference: the nil map or a map object. `SetValues` stores the
caller's map object itself under a key that has no map yet, and writes into the object
stored under a key that has one; writing into the nil map panics. The definitions below
model the values flags with their map objects. -/

/-- The Go `strings.ToLower(s)`: every code point is mapped by `unicode.ToLower`, which on
ASCII turns `A`..`Z` into `a`..`z` and keeps the rest; `lowerRune` is `unicode.ToLower` on the
code points outside ASCII, the tables of the package `unicode`, taken as a parameter. -/
def stringsToLowerUnicode (lowerRune : Char → Char) (s : String) : String :=
  ⟨s.data.map fun c => if c.toNat < 128 then c.toLower else lowerRune c⟩

namespace verifier

/-- A Go value of type `map[string]interface{}`: the nil map, or the map object at an
address. Two values with the same address are the same object. -/
inductive MapRef where
  | nilMap
  | object (address : Nat)
  deriving DecidableEq, Repr

/-- The values flags in memory: `objects` holds the map objects by address (those the
verifier stores and those the caller holds), `flags` is `v.Inputs.Flags.ValuesFlags`, each
key with the map value stored under it. -/
structure ValuesMemory where
  objects : GoMap Nat (GoMap String Value)
  flags : GoMap ValuesKey MapRef
  deriving DecidableEq, Repr

/-- The entries of a map value; the nil map reads as the empty map (and so does an address
that has no object, which no map value of a Go program is). -/
def ValuesMemory.read (mem : ValuesMemory) : MapRef → GoMap String Value
  | .nilMap => []
  | .object address => (mem.objects.get address).getD []

/-- The values flags as maps of entries: each key with the entries of its map value. -/
def ValuesMemory.view (mem : ValuesMemory) : GoMap ValuesKey (GoMap String Value) :=
  mem.flags.map fun kr => (kr.1, mem.read kr.2)

/-- The value map of a key: the entries of the map value stored under it, if any. -/
def ValuesMemory.valueMap (mem : ValuesMemory) (key : ValuesKey) :
    Option (GoMap String Value) :=
  (mem.flags.get key).map mem.read

/-- The entries of a map in the order in which `range` visits them, chosen by `σ`. -/
def entriesVisited (σ : RangeChoice) (m : GoMap String Value) : List (String × Value) :=
  (σ.visit m.keys).filterMap fun k => (m.get k).map fun x => (k, x)

/-- The writes `m[lower(key)] = element` for the entries visited, on a map of entries. -/
def mergeLowerWith (lower : String → String) (visited : List (String × Value))
    (existing : GoMap String Value) : GoMap String Value :=
  visited.foldl (fun m kv => m.set (lower kv.1) kv.2) existing

/-- The loop `for key, element := range values { ValuesFlags[valuesFlagName][lower(key)] =
element }` over the entries visited, `target` being the map value
`ValuesFlags[valuesFlagName]`: each write goes into the map object of `target`; a write into
the nil map panics (`none`). -/
def mergeInto (lower : String → String) (target : MapRef) :
    List (String × Value) → GoMap Nat (GoMap String Value) →
      Option (GoMap Nat (GoMap String Value))
  | [], objects => some objects
  | kv :: rest, objects =>
    match target with
    | .nilMap => none
    | .object address =>
      mergeInto lower target rest
        (objects.set address (((objects.get address).getD []).set (lower kv.1) kv.2))

/-- The method `SetValues` on the values flags in memory; `none` is the panic of a write
into a nil map. The key is present (`ok`) also when the map value stored under it is the
nil map. The entries of `values` are those it has when the loop starts: when `values` is
the very object stored under the key, the loop writes into the object it ranges over, an
entry it creates is written onto itself if it is visited, and what the loop leaves is what
it leaves on the entries read at its start for one of the orders `σ`. -/
def SetValuesInMemory (lowerRune : Char → Char) (σ : RangeChoice) (mem : ValuesMemory)
    (valuesFlagName : ValuesKey) (values : MapRef) : Option ValuesMemory :=
  match mem.flags.get valuesFlagName with
  | some target =>
    match mergeInto (stringsToLowerUnicode lowerRune) target
        (entriesVisited σ (mem.read values)) mem.objects with
    | some objects => some { mem with objects := objects }
    | none => none
  | none => some { mem with flags := mem.flags.set valuesFlagName values }

/-- The values flags `NewVerifier` leaves, in memory: `initialize` makes the map
`profileDefaults`, the object at address 0, and `SetValues(CommandSet, profileDefaults)`
stores it under `CommandSet`, which has no map before. -/
def newVerifierMemory (defaultProfile defaultProfileVersion : String) : ValuesMemory :=
  { objects := [(0, [(profiles.VendorTypeConfigName, Value.str defaultProfile),
                     (profiles.VersionConfigName, Value.str defaultProfileVersion)])],
    flags := [(CommandSet, MapRef.object 0)] }

end verifier

namespace Examples

/-- The memory of the example verifier with three maps made by the caller: `plainValues`
at address 1, `collidingValues` at address 2 and a map of one entry at address 3. -/
def exampleMemory : verifier.ValuesMemory :=
  { objects := (verifier.newVerifierMemory "partner" "v1.1").objects ++
      [(1, plainValues), (2, collidingValues),
       (3, [("image.pullPolicy", Value.str "Always")])],
    flags := (verifier.newVerifierMemory "partner" "v1.1").flags }

/-- A stand-in for `unicode.ToLower` outside ASCII in the examples, whose keys are ASCII. -/
def keepRune : Char → Char := fun c => c

end Examples

/-! # Theorems -/

/-! ## Go maps: reads after writes -/

namespace GoMap

variable {K V : Type} [DecidableEq K]

theorem get_set_self (m : GoMap K V) (k : K) (v : V) : (m.set k v).get k = some v := by
  induction m with
  | nil => simp [set, get]
  | cons kv m ih =>
    obtain ⟨k', v'⟩ := kv
    by_cases h : k' = k
    · simp [set, get, h]
    · simp [set, get, h, ih]

theorem get_set_ne (m : GoMap K V) {k k' : K} (v : V) (h : k ≠ k') :
    (m.set k v).get k' = m.get k' := by
  induction m with
  | nil => simp [set, get, h]
  | cons kv m ih =>
    obtain ⟨k₀, v₀⟩ := kv
    by_cases h₀ : k₀ = k
    · subst h₀
      simp [set, get, h]
    · by_cases h₁ : k₀ = k'
      · subst h₁
        simp [set, get, h₀]
      · simp [set, get, h₀, h₁, ih]

theorem set_eq_self (m : GoMap K V) {k : K} {v : V} (h : m.get k = some v) : m.set k v = m := by
  induction m with
  | nil => simp [get] at h
  | cons kv m ih =>
    obtain ⟨k₀, v₀⟩ := kv
    by_cases h₀ : k₀ = k
    · subst h₀
      simp [get] at h
      simp [set, h]
    · simp [get, h₀] at h
      simp [set, h₀, ih h]

end GoMap

/-! ## Decimal numerals -/

theorem digitChar_toNat {k : Nat} (h : k < 10) : (Nat.digitChar k).toNat - 48 = k := by
  interval_cases k <;> rfl

theorem digitChar_isDigit {k : Nat} (h : k < 10) : (Nat.digitChar k).isDigit = true := by
  interval_cases k <;> rfl

theorem digitsValue_toDigitsCore (fuel : Nat) : ∀ (n : Nat) (ds : List Char), n < fuel →
    digitsValue 0 (Nat.toDigitsCore 10 fuel n ds) = digitsValue n ds := by
  induction fuel with
  | zero => intro n ds h; omega
  | succ fuel ih =>
    intro n ds h
    have hd := digitChar_toNat (Nat.mod_lt n (by decide : 10 > 0))
    by_cases h0 : n / 10 = 0
    · have hn : n % 10 = n := by omega
      rw [hn] at hd
      simp [Nat.toDigitsCore, h0, digitsValue, hd, hn]
    · have hlt : n / 10 < fuel := by omega
      have := ih (n / 10) (Nat.digitChar (n % 10) :: ds) hlt
      simp only [Nat.toDigitsCore, h0, if_false]
      rw [this]
      simp only [digitsValue, List.foldl_cons, hd]
      congr 1
      omega

theorem isDigit_toDigitsCore (fuel : Nat) : ∀ (n : Nat) (ds : List Char),
    (∀ c ∈ ds, c.isDigit = true) → ∀ c ∈ Nat.toDigitsCore 10 fuel n ds, c.isDigit = true := by
  induction fuel with
  | zero => intro n ds h; simpa [Nat.toDigitsCore] using h
  | succ fuel ih =>
    intro n ds h
    have hd := digitChar_isDigit (Nat.mod_lt n (by decide : 10 > 0))
    have hds : ∀ c ∈ Nat.digitChar (n % 10) :: ds, c.isDigit = true := by
      intro c hc
      rcases List.mem_cons.mp hc with rfl | hc
      · exact hd
      · exact h c hc
    by_cases h0 : n / 10 = 0
    · simpa [Nat.toDigitsCore, h0] using hds
    · simp only [Nat.toDigitsCore, h0, if_false]
      exact ih _ _ hds

theorem toDigitsCore_ne_nil (fuel : Nat) : ∀ (n : Nat) (ds : List Char), ds ≠ [] →
    Nat.toDigitsCore 10 fuel n ds ≠ [] := by
  induction fuel with
  | zero => intro n ds h; simpa [Nat.toDigitsCore] using h
  | succ fuel ih =>
    intro n ds _
    by_cases h0 : n / 10 = 0
    · simp [Nat.toDigitsCore, h0]
    · simp only [Nat.toDigitsCore, h0, if_false]
      exact ih _ _ (by simp)

theorem toDigits_ne_nil (n : Nat) : Nat.toDigits 10 n ≠ [] := by
  unfold Nat.toDigits
  by_cases h0 : n / 10 = 0
  · simp [Nat.toDigitsCore, h0]
  · simp only [Nat.toDigitsCore, h0, if_false]
    exact toDigitsCore_ne_nil _ _ _ (by simp)

/-- Reading the decimal numeral of `n` gives `n` back. -/
theorem toNat?_sprintD (n : Nat) : (sprintD n).toNat? = some n := by
  have hdata : (sprintD n).data = Nat.toDigits 10 n := rfl
  have hne : (sprintD n).isEmpty = false := by
    cases h : (sprintD n).isEmpty
    · rfl
    · rw [String.isEmpty_iff] at h
      have := congrArg String.data h
      rw [hdata] at this
      exact absurd this (toDigits_ne_nil n)
  have hall : (sprintD n).all (fun c => c.isDigit) = true := by
    rw [String.all_eq, hdata, List.all_eq_true]
    exact isDigit_toDigitsCore _ _ _ (by simp)
  have hval : (sprintD n).foldl (fun n c => n * 10 + (c.toNat - 48)) 0 = n := by
    rw [String.foldl_eq, hdata]
    have := digitsValue_toDigitsCore (n + 1) n [] (by omega)
    simpa [digitsValue, Nat.toDigits] using this
  simp [String.toNat?, String.isNat, hne, hall, hval]

/-! ## The loop of `addResults` -/

namespace reportsummary

theorem scanResults_not_found (pc : profiles.Check) (results : List report.CheckReport)
    (t : Tally) (h : ∀ rc ∈ results, rc.Check ≠ pc.Name) :
    scanResults pc results t = (false, t) := by
  induction results with
  | nil => rfl
  | cons rc rest ih =>
    have h1 : ¬ pc.Name = rc.Check := fun e => h rc (List.mem_cons_self _ _) e.symm
    simp only [scanResults, h1, if_false]
    exact ih fun x hx => h x (List.mem_cons_of_mem _ hx)

theorem scanResults_found (pc : profiles.Check) (rpre rpost : List report.CheckReport)
    (rc : report.CheckReport) (t : Tally) (h : ∀ x ∈ rpre, x.Check ≠ pc.Name)
    (hrc : rc.Check = pc.Name) :
    scanResults pc (rpre ++ rc :: rpost) t =
      if rc.Outcome = report.PassOutcomeType then (true, { t with passed := t.passed + 1 })
      else (true, { t with failed := t.failed + 1,
                           messages := t.messages ++ [flattenReason rc.Reason] }) := by
  induction rpre with
  | nil => simp [scanResults, hrc]
  | cons x rest ih =>
    have h1 : ¬ pc.Name = x.Check := fun e => h x (List.mem_cons_self _ _) e.symm
    simp only [List.cons_append, scanResults, h1, if_false]
    exact ih fun y hy => h y (List.mem_cons_of_mem _ hy)

/-- Every result list either holds no entry named as the profile check, or splits at the
first such entry. -/
theorem results_split (name : String) (results : List report.CheckReport) :
    (∀ rc ∈ results, rc.Check ≠ name) ∨
    ∃ rpre rc rpost, results = rpre ++ rc :: rpost ∧ (∀ x ∈ rpre, x.Check ≠ name) ∧
      rc.Check = name := by
  induction results with
  | nil => left; simp
  | cons x rest ih =>
    by_cases hx : x.Check = name
    · right
      exact ⟨[], x, rest, rfl, by simp, hx⟩
    · rcases ih with h | ⟨rpre, rc, rpost, he, hpre, hrc⟩
      · left
        intro rc hrc
        rcases List.mem_cons.mp hrc with rfl | hrc
        · exact hx
        · exact h rc hrc
      · right
        refine ⟨x :: rpre, rc, rpost, by simp [he], ?_, hrc⟩
        intro y hy
        rcases List.mem_cons.mp hy with rfl | hy
        · exact hx
        · exact hpre y hy

/-- The loop body adds to the counters what it adds to the zero counters. -/
theorem tallyCheck_acc (results : List report.CheckReport) (t : Tally) (pc : profiles.Check) :
    tallyCheck results t pc =
      { passed := t.passed + (tallyCheck results Tally.zero pc).passed,
        failed := t.failed + (tallyCheck results Tally.zero pc).failed,
        messages := t.messages ++ (tallyCheck results Tally.zero pc).messages } := by
  unfold tallyCheck
  by_cases hm : pc.Type_ = checks.MandatoryCheckType
  · simp only [hm, if_true]
    rcases results_split pc.Name results with h | ⟨rpre, rc, rpost, he, hpre, hrc⟩
    · simp [scanResults_not_found pc results _ h, Tally.zero]
    · subst he
      by_cases hp : rc.Outcome = report.PassOutcomeType
      · simp [scanResults_found pc rpre rpost rc _ hpre hrc, hp, Tally.zero]
      · simp [scanResults_found pc rpre rpost rc _ hpre hrc, hp, Tally.zero]
  · simp [hm, Tally.zero]

theorem foldl_tallyCheck_acc (results : List report.CheckReport) (cs : List profiles.Check) :
    ∀ t : Tally, cs.foldl (tallyCheck results) t =
      { passed := t.passed + (tallyProfile results cs).passed,
        failed := t.failed + (tallyProfile results cs).failed,
        messages := t.messages ++ (tallyProfile results cs).messages } := by
  induction cs with
  | nil => intro t; simp [tallyProfile]
  | cons pc cs ih =>
    intro t
    have e1 := ih (tallyCheck results t pc)
    have e2 := ih (tallyCheck results Tally.zero pc)
    have e3 := tallyCheck_acc results t pc
    have hz : tallyProfile results (pc :: cs) =
        cs.foldl (tallyCheck results) (tallyCheck results Tally.zero pc) := rfl
    rw [List.foldl_cons, e1, hz, e2, e3]
    simp [Nat.add_assoc]

/-- The counters of a profile split in two are the sums of the counters of the parts. -/
theorem tallyProfile_append (results : List report.CheckReport) (a b : List profiles.Check) :
    tallyProfile results (a ++ b) =
      { passed := (tallyProfile results a).passed + (tallyProfile results b).passed,
        failed := (tallyProfile results a).failed + (tallyProfile results b).failed,
        messages := (tallyProfile results a).messages ++ (tallyProfile results b).messages } := by
  have h : tallyProfile results (a ++ b) =
      b.foldl (tallyCheck results) (tallyProfile results a) := by
    simp [tallyProfile, List.foldl_append]
  rw [h, foldl_tallyCheck_acc]

theorem tallyProfile_singleton (results : List report.CheckReport) (pc : profiles.Check) :
    tallyProfile results [pc] = tallyCheck results Tally.zero pc := rfl

/-- Each profile check moves `passed + failed` by one when it is Mandatory and not at all
otherwise. -/
theorem tallyCheck_count (results : List report.CheckReport) (t : Tally) (pc : profiles.Check) :
    (tallyCheck results t pc).passed + (tallyCheck results t pc).failed =
      t.passed + t.failed + (if pc.Type_ = checks.MandatoryCheckType then 1 else 0) := by
  unfold tallyCheck
  by_cases hm : pc.Type_ = checks.MandatoryCheckType
  · simp only [hm, if_true]
    rcases results_split pc.Name results with h | ⟨rpre, rc, rpost, he, hpre, hrc⟩
    · simp [scanResults_not_found pc results _ h]
      omega
    · subst he
      by_cases hp : rc.Outcome = report.PassOutcomeType
      · simp [scanResults_found pc rpre rpost rc _ hpre hrc, hp]
        omega
      · simp [scanResults_found pc rpre rpost rc _ hpre hrc, hp]
        omega
  · simp [hm]

theorem foldl_tallyCheck_count (results : List report.CheckReport) (cs : List profiles.Check) :
    ∀ t : Tally, (cs.foldl (tallyCheck results) t).passed +
      (cs.foldl (tallyCheck results) t).failed =
      t.passed + t.failed + (mandatoryChecks cs).length := by
  induction cs with
  | nil => intro t; simp [mandatoryChecks]
  | cons pc cs ih =>
    intro t
    rw [List.foldl_cons, ih, tallyCheck_count]
    by_cases hm : pc.Type_ = checks.MandatoryCheckType
    · simp [mandatoryChecks, hm]
      omega
    · simp [mandatoryChecks, hm]

end reportsummary

/-! ## The one-line reason -/

theorem dropWhile_reverse_cons (p : Char → Bool) (c : Char) (cs : List Char) :
    ((c :: cs).reverse.dropWhile p).reverse =
      if p c = true ∧ (cs.reverse.dropWhile p).reverse = [] then []
      else c :: (cs.reverse.dropWhile p).reverse := by
  rw [List.reverse_cons, List.dropWhile_append]
  cases hx : cs.reverse.dropWhile p with
  | nil =>
    cases hc : p c
    · simp [List.dropWhile, hc]
    · simp [List.dropWhile, hc]
  | cons y ys => simp

theorem trimRight_newline_data (l : List Char) :
    (l.reverse.dropWhile fun c => ("\n" : String).data.contains c).reverse =
      stripTrailingNewlines l := by
  have hp : (fun c : Char => ("\n" : String).data.contains c) = fun c => decide (c = '\n') := by
    funext x
    show ['\n'].contains x = decide (x = '\n')
    simp
  rw [hp]
  induction l with
  | nil => rfl
  | cons c cs ih =>
    rw [dropWhile_reverse_cons, stripTrailingNewlines, ih]
    simp

theorem replaceAllGo_newline (fuel : Nat) : ∀ l : List Char, l.length ≤ fuel →
    replaceAllGo ['\n'] [',', ' '] fuel l = commaForNewline l := by
  induction fuel with
  | zero =>
    intro l hl
    have : l = [] := List.length_eq_zero.mp (Nat.le_zero.mp hl)
    subst this
    rfl
  | succ fuel ih =>
    intro l hl
    cases l with
    | nil => rfl
    | cons c cs =>
      have hcs : cs.length ≤ fuel := by simpa using hl
      by_cases hc : c = '\n'
      · subst hc
        simp [replaceAllGo, commaForNewline, List.isPrefixOf] at *
        simpa [commaForNewline] using ih cs hcs
      · have hne : ('\n' == c) = false := by
          cases hx : ('\n' == c)
          · rfl
          · exact absurd (beq_iff_eq.mp hx).symm hc
        simp [replaceAllGo, commaForNewline, List.isPrefixOf, hne, hc] at *
        simpa [commaForNewline] using ih cs hcs

/-- The one-line reason of the code is the one of the specification. -/
theorem flattenReason_eq_flattenSpec (reason : String) :
    reportsummary.flattenReason reason = flattenSpec reason := by
  have h1 : (stringsTrimRight reason "\n").data = stripTrailingNewlines reason.data :=
    trimRight_newline_data reason.data
  have hne : ¬ (("\n" : String) = ", ") := by decide
  have hd : ¬ (("\n" : String).data = []) := by decide
  unfold reportsummary.flattenReason stringsReplaceAll flattenSpec
  rw [if_neg hne, if_neg hd, h1]
  congr 1
  exact replaceAllGo_newline _ _ (Nat.le_refl _)

theorem newline_not_mem_commaForNewline (l : List Char) : '\n' ∉ commaForNewline l := by
  intro h
  rcases List.mem_flatMap.mp h with ⟨c, _, hc⟩
  by_cases hn : c = '\n'
  · rw [if_pos hn] at hc
    revert hc
    decide
  · rw [if_neg hn] at hc
    exact hn (List.mem_singleton.mp hc).symm

theorem stripTrailingNewlines_getLast? (l : List Char) :
    (stripTrailingNewlines l).getLast? ≠ some '\n' := by
  induction l with
  | nil => simp [stripTrailingNewlines]
  | cons c cs ih =>
    unfold stripTrailingNewlines
    cases hx : stripTrailingNewlines cs with
    | nil =>
      by_cases hc : c = '\n'
      · simp [hc]
      · simp [hc]
    | cons y ys =>
      rw [hx] at ih
      simpa [List.getLast?_cons_cons] using ih

/-! ## The results summary -/

namespace reportsummary

/-- What `addResults` returns on a summarizer with a report. -/
theorem addResults_eq (d : Deps) (r : ReportSummary) (rep : report.Report)
    (h : r.options.report = some rep) :
    addResults d r = some { r with ResultsReport := some ⟨
      sprintD (tallyProfile rep.Results (resolveProfile d r.options.values rep).Checks).passed,
      sprintD (tallyProfile rep.Results (resolveProfile d r.options.values rep).Checks).failed,
      (tallyProfile rep.Results (resolveProfile d r.options.values rep).Checks).messages⟩ } := by
  simp [addResults, h]

/-- C1: for every summarizer with a report attached, the results summary `addResults`
computes has `Passed + Failed` (read as decimal numbers) equal to the number of checks of
type Mandatory in the profile `addResults` resolves, whatever the results of the report
are. -/
theorem addResults_passed_plus_failed (d : Deps) (r : ReportSummary) (rep : report.Report)
    (h : r.options.report = some rep) :
    ∃ r' rr p f, addResults d r = some r' ∧ r'.ResultsReport = some rr ∧
      rr.Passed.toNat? = some p ∧ rr.Failed.toNat? = some f ∧
      p + f = (mandatoryChecks (resolveProfile d r.options.values rep).Checks).length := by
  rw [addResults_eq d r rep h]
  refine ⟨_, _,
    (tallyProfile rep.Results (resolveProfile d r.options.values rep).Checks).passed,
    (tallyProfile rep.Results (resolveProfile d r.options.values rep).Checks).failed,
    rfl, rfl, toNat?_sprintD _, toNat?_sprintD _, ?_⟩
  have := foldl_tallyCheck_count rep.Results (resolveProfile d r.options.values rep).Checks
    Tally.zero
  simpa [tallyProfile, Tally.zero] using this

theorem addResults_passed_plus_failed_witness :
    Examples.exampleSummary.options.report = some Examples.exampleReport ∧
    ∃ r' rr p f, addResults Examples.exampleDeps Examples.exampleSummary = some r' ∧
      r'.ResultsReport = some rr ∧ rr.Passed.toNat? = some p ∧ rr.Failed.toNat? = some f ∧
      p + f = (mandatoryChecks (resolveProfile Examples.exampleDeps
        Examples.exampleSummary.options.values Examples.exampleReport).Checks).length :=
  ⟨rfl, addResults_passed_plus_failed Examples.exampleDeps Examples.exampleSummary
    Examples.exampleReport rfl⟩

/-- C2: a profile check of type Mandatory that no entry of the report's results is named
as adds one to `Failed`, nothing to `Passed`, and one message, `Missing mandatory check : `
followed by its name, at its place in the order of the profile: with the profile's checks
split as `pre ++ pc :: post`, the counters are those of `pre` and `post` plus that one
failure, and the messages are those of `pre`, the message of `pc`, those of `post`. -/
theorem addResults_missing_mandatory (d : Deps) (r : ReportSummary) (rep : report.Report)
    (pre post : List profiles.Check) (pc : profiles.Check)
    (h : r.options.report = some rep)
    (hsplit : (resolveProfile d r.options.values rep).Checks = pre ++ pc :: post)
    (hm : pc.Type_ = checks.MandatoryCheckType)
    (habsent : ∀ rc ∈ rep.Results, rc.Check ≠ pc.Name) :
    tallyCheck rep.Results Tally.zero pc =
      { passed := 0, failed := 1, messages := ["Missing mandatory check : " ++ pc.Name] } ∧
    ∃ r' rr, addResults d r = some r' ∧ r'.ResultsReport = some rr ∧
      rr.Passed = sprintD ((tallyProfile rep.Results pre).passed +
        (tallyProfile rep.Results post).passed) ∧
      rr.Failed = sprintD ((tallyProfile rep.Results pre).failed + 1 +
        (tallyProfile rep.Results post).failed) ∧
      rr.Messages = (tallyProfile rep.Results pre).messages ++
        ["Missing mandatory check : " ++ pc.Name] ++ (tallyProfile rep.Results post).messages ∧
      "Missing mandatory check : " ++ pc.Name ∈ rr.Messages := by
  have hpc : tallyCheck rep.Results Tally.zero pc =
      { passed := 0, failed := 1, messages := ["Missing mandatory check : " ++ pc.Name] } := by
    simp [tallyCheck, hm, scanResults_not_found pc rep.Results _ habsent, Tally.zero,
      missingMessage]
  have hcons : tallyProfile rep.Results (pc :: post) =
      { passed := (tallyProfile rep.Results post).passed,
        failed := 1 + (tallyProfile rep.Results post).failed,
        messages := ["Missing mandatory check : " ++ pc.Name] ++
          (tallyProfile rep.Results post).messages } := by
    have := tallyProfile_append rep.Results [pc] post
    rw [tallyProfile_singleton, hpc] at this
    simpa using this
  rw [addResults_eq d r rep h]
  refine ⟨hpc, _, _, rfl, rfl, ?_, ?_, ?_, ?_⟩
  · simp [hsplit, tallyProfile_append, hcons]
  · simp [hsplit, tallyProfile_append, hcons, Nat.add_assoc]
  · simp [hsplit, tallyProfile_append, hcons]
  · simp [hsplit, tallyProfile_append, hcons]

end reportsummary

namespace reportsummary

theorem addResults_missing_mandatory_witness :
    Examples.exampleSummary.options.report = some Examples.exampleReport ∧
    (∀ rc ∈ Examples.exampleReport.Results, rc.Check ≠ "v1.0/has-readme") ∧
    ∃ r' rr, addResults Examples.exampleDeps Examples.exampleSummary = some r' ∧
      r'.ResultsReport = some rr ∧ rr.Passed = "1" ∧ rr.Failed = "2" ∧
      rr.Messages = ["bad, image", "Missing mandatory check : v1.0/has-readme"] :=
  ⟨rfl, by decide,
    match (addResults_missing_mandatory Examples.exampleDeps Examples.exampleSummary
      Examples.exampleReport
      [{ Name := "v1.0/is-helm-v3", Type_ := checks.MandatoryCheckType },
       { Name := "v1.0/images-are-certified", Type_ := checks.MandatoryCheckType },
       { Name := "v1.0/chart-testing", Type_ := checks.OptionalCheckType }] []
      { Name := "v1.0/has-readme", Type_ := checks.MandatoryCheckType }
      rfl rfl rfl (by decide)).2 with
    | ⟨r', rr, h1, h2, h3, h4, h5, _⟩ => ⟨r', rr, h1, h2, h3, h4, h5⟩⟩

/-- Checks that are not Mandatory leave the counters alone: the loop may as well run over
the Mandatory checks only. -/
theorem foldl_tallyCheck_mandatory (results : List report.CheckReport)
    (cs : List profiles.Check) : ∀ t : Tally,
    cs.foldl (tallyCheck results) t = (mandatoryChecks cs).foldl (tallyCheck results) t := by
  induction cs with
  | nil => intro t; rfl
  | cons pc cs ih =>
    intro t
    by_cases hm : pc.Type_ = checks.MandatoryCheckType
    · have : mandatoryChecks (pc :: cs) = pc :: mandatoryChecks cs := by
        simp [mandatoryChecks, hm]
      rw [this, List.foldl_cons, List.foldl_cons, ih]
    · have h1 : mandatoryChecks (pc :: cs) = mandatoryChecks cs := by
        simp [mandatoryChecks, hm]
      have h2 : tallyCheck results t pc = t := by simp [tallyCheck, hm]
      rw [h1, List.foldl_cons, h2, ih]

theorem tallyProfile_mandatory (results : List report.CheckReport) (cs : List profiles.Check) :
    tallyProfile results cs = tallyProfile results (mandatoryChecks cs) :=
  foldl_tallyCheck_mandatory results cs _

/-- C3: a Mandatory profile check whose first entry in the report's results has an outcome
other than Pass adds, at its place in the order of the profile, the message made of the
entry's reason with all trailing newlines stripped and every remaining newline replaced by
a comma and a blank; that message holds no newline. In particular, when the only Mandatory
check of the profile is `v1.0/images-are-certified` and the report holds that check alone,
failed with the reason `bad\nimage\n`, the results summary is
`{Passed: "0", Failed: "1", Messages: ["bad, image"]}`. -/
theorem addResults_failed_reason (d : Deps) (r : ReportSummary) (rep : report.Report)
    (pre post : List profiles.Check) (pc : profiles.Check)
    (rpre rpost : List report.CheckReport) (rc : report.CheckReport)
    (h : r.options.report = some rep)
    (hsplit : (resolveProfile d r.options.values rep).Checks = pre ++ pc :: post)
    (hm : pc.Type_ = checks.MandatoryCheckType)
    (hres : rep.Results = rpre ++ rc :: rpost)
    (hfirst : ∀ x ∈ rpre, x.Check ≠ pc.Name) (hrc : rc.Check = pc.Name)
    (hfail : rc.Outcome ≠ report.PassOutcomeType) :
    (∃ r' rr, addResults d r = some r' ∧ r'.ResultsReport = some rr ∧
      rr.Passed = sprintD ((tallyProfile rep.Results pre).passed +
        (tallyProfile rep.Results post).passed) ∧
      rr.Failed = sprintD ((tallyProfile rep.Results pre).failed + 1 +
        (tallyProfile rep.Results post).failed) ∧
      rr.Messages = (tallyProfile rep.Results pre).messages ++ [flattenSpec rc.Reason] ++
        (tallyProfile rep.Results post).messages) ∧
    flattenReason rc.Reason = flattenSpec rc.Reason ∧
    '\n' ∉ (flattenSpec rc.Reason).data ∧
    (∀ (d' : Deps) (s : ReportSummary) (rep' : report.Report) (ty : checks.CheckType),
      s.options.report = some rep' →
      mandatoryChecks (resolveProfile d' s.options.values rep').Checks =
        [{ Name := "v1.0/images-are-certified", Type_ := checks.MandatoryCheckType }] →
      rep'.Results = [{ Check := "v1.0/images-are-certified", Type_ := ty,
                        Outcome := report.FailOutcomeType, Reason := "bad\nimage\n" }] →
      (addResults d' s).map (fun s' => s'.ResultsReport) =
        some (some { Passed := "0", Failed := "1", Messages := ["bad, image"] })) := by
  have hpc : tallyCheck rep.Results Tally.zero pc =
      { passed := 0, failed := 1, messages := [flattenSpec rc.Reason] } := by
    simp [tallyCheck, hm, hres, scanResults_found pc rpre rpost rc _ hfirst hrc, hfail,
      Tally.zero, flattenReason_eq_flattenSpec]
  have hcons : tallyProfile rep.Results (pc :: post) =
      { passed := (tallyProfile rep.Results post).passed,
        failed := 1 + (tallyProfile rep.Results post).failed,
        messages := [flattenSpec rc.Reason] ++ (tallyProfile rep.Results post).messages } := by
    have := tallyProfile_append rep.Results [pc] post
    rw [tallyProfile_singleton, hpc] at this
    simpa using this
  refine ⟨?_, flattenReason_eq_flattenSpec _, newline_not_mem_commaForNewline _, ?_⟩
  · rw [addResults_eq d r rep h]
    refine ⟨_, _, rfl, rfl, ?_, ?_, ?_⟩
    · simp [hsplit, tallyProfile_append, hcons]
    · simp [hsplit, tallyProfile_append, hcons, Nat.add_assoc]
    · simp [hsplit, tallyProfile_append, hcons]
  · intro d' s rep' ty hs hprof hresults
    have hflat : flattenReason "bad\nimage\n" = "bad, image" := by decide
    have hne : ¬ report.FailOutcomeType = report.PassOutcomeType := by decide
    have ht : tallyProfile
        [{ Check := "v1.0/images-are-certified", Type_ := ty,
           Outcome := report.FailOutcomeType, Reason := "bad\nimage\n" }]
        [{ Name := "v1.0/images-are-certified", Type_ := checks.MandatoryCheckType }] =
        { passed := 0, failed := 1, messages := ["bad, image"] } := by
      simp [tallyProfile, tallyCheck, scanResults, hflat, hne]
    have h0 : sprintD 0 = "0" := by decide
    have h1 : sprintD 1 = "1" := by decide
    rw [addResults_eq d' s rep' hs, tallyProfile_mandatory, hprof, hresults, ht]
    simp [h0, h1]

theorem addResults_failed_reason_witness :
    Examples.exampleSummary.options.report = some Examples.exampleReport ∧
    (∃ r' rr, addResults Examples.exampleDeps Examples.exampleSummary = some r' ∧
      r'.ResultsReport = some rr ∧
      rr.Messages = ["bad, image", "Missing mandatory check : v1.0/has-readme"]) ∧
    (addResults Examples.exampleDeps Examples.scenarioSummary).map (fun s' => s'.ResultsReport) =
      some (some { Passed := "0", Failed := "1", Messages := ["bad, image"] }) :=
  have key := addResults_failed_reason Examples.exampleDeps Examples.exampleSummary
    Examples.exampleReport
    [{ Name := "v1.0/is-helm-v3", Type_ := checks.MandatoryCheckType }]
    [{ Name := "v1.0/chart-testing", Type_ := checks.OptionalCheckType },
     { Name := "v1.0/has-readme", Type_ := checks.MandatoryCheckType }]
    { Name := "v1.0/images-are-certified", Type_ := checks.MandatoryCheckType }
    [{ Check := "v1.0/is-helm-v3", Type_ := checks.MandatoryCheckType,
       Outcome := report.PassOutcomeType, Reason := "ok" }]
    [{ Check := "v1.0/chart-testing", Type_ := checks.OptionalCheckType,
       Outcome := report.FailOutcomeType, Reason := "no cluster" }]
    { Check := "v1.0/images-are-certified", Type_ := checks.MandatoryCheckType,
      Outcome := report.FailOutcomeType, Reason := "bad\nimage\n" }
    rfl rfl rfl rfl (by decide) rfl (by decide)
  ⟨rfl,
    match key.1 with
    | ⟨r', rr, h1, h2, _, _, h5⟩ => ⟨r', rr, h1, h2, h5⟩,
    key.2.2.2 Examples.exampleDeps Examples.scenarioSummary Examples.scenarioReport
      checks.MandatoryCheckType rfl rfl rfl⟩

end reportsummary

namespace reportsummary

/-- The scan for a profile check reads only the names of the entries and the first entry
named as the check. -/
theorem scanResults_congr (pc : profiles.Check) (t : Tally)
    (results results' : List report.CheckReport)
    (hr : List.Forall₂ (fun a b : report.CheckReport =>
      a.Check = b.Check ∧ (a.Check = pc.Name → a = b)) results results') :
    scanResults pc results t = scanResults pc results' t := by
  induction hr with
  | nil => rfl
  | @cons a b l l' hab _ ih =>
    by_cases hn : pc.Name = a.Check
    · have hab' : a = b := hab.2 hn.symm
      subst hab'
      simp [scanResults, hn]
    · have hn' : ¬ pc.Name = b.Check := fun e => hn (e.trans hab.1.symm)
      simp only [scanResults, hn, hn', if_false]
      exact ih

theorem foldl_tallyCheck_congr (results results' : List report.CheckReport)
    (cs : List profiles.Check)
    (hcs : ∀ pc ∈ cs, ∀ t, tallyCheck results t pc = tallyCheck results' t pc) :
    ∀ t : Tally, cs.foldl (tallyCheck results) t = cs.foldl (tallyCheck results') t := by
  induction cs with
  | nil => intro t; rfl
  | cons pc cs ih =>
    intro t
    rw [List.foldl_cons, List.foldl_cons, hcs pc (List.mem_cons_self _ _) t]
    exact ih (fun x hx => hcs x (List.mem_cons_of_mem _ hx)) _

/-- C4: profile checks that are not of type Mandatory (the Optional ones among them) are
never counted by `addResults`. Two summarizers whose resolved profiles have the same
Mandatory checks, in the same order, and whose reports hold entries of the same names,
equal wherever the name is the name of a Mandatory profile check, get the same results
summary: so changing, adding or removing Optional checks in the profile, or changing the
outcome of report entries that are named as Optional checks only, changes neither
`Passed` nor `Failed` nor `Messages`. -/
theorem addResults_optional_not_counted (d d' : Deps) (r r' : ReportSummary)
    (rep rep' : report.Report)
    (h : r.options.report = some rep) (h' : r'.options.report = some rep')
    (hprofile : mandatoryChecks (resolveProfile d r.options.values rep).Checks =
      mandatoryChecks (resolveProfile d' r'.options.values rep').Checks)
    (hresults : List.Forall₂ (fun a b : report.CheckReport =>
      a.Check = b.Check ∧
      ((∃ pc ∈ mandatoryChecks (resolveProfile d r.options.values rep).Checks,
        pc.Name = a.Check) → a = b)) rep.Results rep'.Results) :
    ∃ s s' rr, addResults d r = some s ∧ addResults d' r' = some s' ∧
      s.ResultsReport = some rr ∧ s'.ResultsReport = some rr := by
  have hstep : ∀ pc ∈ mandatoryChecks (resolveProfile d r.options.values rep).Checks,
      ∀ t, tallyCheck rep.Results t pc = tallyCheck rep'.Results t pc := by
    intro pc hpc t
    have hscan : scanResults pc rep.Results t = scanResults pc rep'.Results t := by
      apply scanResults_congr
      refine List.Forall₂.imp ?_ hresults
      intro a b hab
      exact ⟨hab.1, fun hn => hab.2 ⟨pc, hpc, hn.symm⟩⟩
    simp only [tallyCheck, hscan]
  have htally : tallyProfile rep.Results (resolveProfile d r.options.values rep).Checks =
      tallyProfile rep'.Results (resolveProfile d' r'.options.values rep').Checks := by
    rw [tallyProfile_mandatory rep.Results, tallyProfile_mandatory rep'.Results, ← hprofile]
    exact foldl_tallyCheck_congr _ _ _ hstep _
  rw [addResults_eq d r rep h, addResults_eq d' r' rep' h', htally]
  exact ⟨_, _, _, rfl, rfl, rfl, rfl⟩

end reportsummary

namespace reportsummary

theorem addResults_optional_not_counted_witness :
    Examples.exampleSummary.options.report = some Examples.exampleReport ∧
    (SetReport Examples.exampleSummary
      (some Examples.exampleReportOptionalPassed)).options.report =
      some Examples.exampleReportOptionalPassed ∧
    ∃ s s' rr, addResults Examples.exampleDeps Examples.exampleSummary = some s ∧
      addResults Examples.exampleDepsNoOptional
        (SetReport Examples.exampleSummary (some Examples.exampleReportOptionalPassed)) =
        some s' ∧
      s.ResultsReport = some rr ∧ s'.ResultsReport = some rr :=
  ⟨rfl, rfl,
    addResults_optional_not_counted Examples.exampleDeps Examples.exampleDepsNoOptional
      Examples.exampleSummary
      (SetReport Examples.exampleSummary (some Examples.exampleReportOptionalPassed))
      Examples.exampleReport Examples.exampleReportOptionalPassed rfl rfl (by decide)
      (List.Forall₂.cons ⟨rfl, fun _ => rfl⟩
        (List.Forall₂.cons ⟨rfl, fun _ => rfl⟩
          (List.Forall₂.cons ⟨rfl, fun hex => absurd hex (by decide)⟩ List.Forall₂.nil)))⟩

end reportsummary

/-! ## The check registry -/

namespace verifier

theorem get_setAll_of_not_mem (names : List checks.CheckName) (b : Bool) (c : checks.CheckName)
    (h : c ∉ names) : ∀ m : GoMap checks.CheckName CheckStatus,
    GoMap.get (setAll names b m) c = GoMap.get m c := by
  induction names with
  | nil => intro m; rfl
  | cons n ns ih =>
    intro m
    have hn : n ≠ c := fun e => h (e ▸ List.mem_cons_self _ _)
    have hns : c ∉ ns := fun hc => h (List.mem_cons_of_mem _ hc)
    show GoMap.get (setAll ns b (GoMap.set m n { Enabled := b })) c = GoMap.get m c
    rw [ih hns, GoMap.get_set_ne m _ hn]

theorem get_setAll_of_mem (names : List checks.CheckName) (b : Bool) (c : checks.CheckName) :
    c ∈ names → ∀ m : GoMap checks.CheckName CheckStatus,
    GoMap.get (setAll names b m) c = some { Enabled := b } := by
  induction names with
  | nil => intro h; simp at h
  | cons n ns ih =>
    intro h m
    show GoMap.get (setAll ns b (GoMap.set m n { Enabled := b })) c = some { Enabled := b }
    by_cases hns : c ∈ ns
    · exact ih hns _
    · have hc : c = n := by
        rcases List.mem_cons.mp h with e | e
        · exact e
        · exact absurd e hns
      subst hc
      rw [get_setAll_of_not_mem ns b c hns, GoMap.get_set_self]

theorem setAll_eq_self (names : List checks.CheckName) (b : Bool) :
    ∀ m : GoMap checks.CheckName CheckStatus,
    (∀ c ∈ names, GoMap.get m c = some { Enabled := b }) → setAll names b m = m := by
  induction names with
  | nil => intro m _; rfl
  | cons n ns ih =>
    intro m h
    show setAll ns b (GoMap.set m n { Enabled := b }) = m
    rw [GoMap.set_eq_self m (h n (List.mem_cons_self _ _))]
    exact ih m fun c hc => h c (List.mem_cons_of_mem _ hc)

theorem EnableChecks_checks_of_ne_nil (getChecks : List checks.CheckName) (v : Verifier)
    (L : List checks.CheckName) (hne : L ≠ []) :
    (EnableChecks getChecks v L).Inputs.Flags.Checks =
      setAll L true (setAll getChecks false v.Inputs.Flags.Checks) := by
  have : L.length > 0 := List.length_pos.mpr hne
  simp [EnableChecks, this, Verifier.withChecks]

theorem UnEnableChecks_checks_of_ne_nil (getChecks : List checks.CheckName) (v : Verifier)
    (L : List checks.CheckName) (hne : L ≠ []) :
    (UnEnableChecks getChecks v L).Inputs.Flags.Checks =
      setAll L false (setAll getChecks true v.Inputs.Flags.Checks) := by
  have : L.length > 0 := List.length_pos.mpr hne
  simp [UnEnableChecks, this, Verifier.withChecks]

/-- The status `EnableChecks` leaves for any name, for a non-empty list. -/
theorem EnableChecks_get (getChecks : List checks.CheckName) (v : Verifier)
    (L : List checks.CheckName) (hne : L ≠ []) (c : checks.CheckName) :
    GoMap.get (EnableChecks getChecks v L).Inputs.Flags.Checks c =
      if c ∈ L then some { Enabled := true }
      else if c ∈ getChecks then some { Enabled := false }
      else GoMap.get v.Inputs.Flags.Checks c := by
  rw [EnableChecks_checks_of_ne_nil getChecks v L hne]
  by_cases hL : c ∈ L
  · rw [if_pos hL, get_setAll_of_mem L true c hL]
  · rw [if_neg hL, get_setAll_of_not_mem L true c hL]
    by_cases hg : c ∈ getChecks
    · rw [if_pos hg, get_setAll_of_mem getChecks false c hg]
    · rw [if_neg hg, get_setAll_of_not_mem getChecks false c hg]

/-- The status `UnEnableChecks` leaves for any name, for a non-empty list. -/
theorem UnEnableChecks_get (getChecks : List checks.CheckName) (v : Verifier)
    (L : List checks.CheckName) (hne : L ≠ []) (c : checks.CheckName) :
    GoMap.get (UnEnableChecks getChecks v L).Inputs.Flags.Checks c =
      if c ∈ L then some { Enabled := false }
      else if c ∈ getChecks then some { Enabled := true }
      else GoMap.get v.Inputs.Flags.Checks c := by
  rw [UnEnableChecks_checks_of_ne_nil getChecks v L hne]
  by_cases hL : c ∈ L
  · rw [if_pos hL, get_setAll_of_mem L false c hL]
  · rw [if_neg hL, get_setAll_of_not_mem L false c hL]
    by_cases hg : c ∈ getChecks
    · rw [if_pos hg, get_setAll_of_mem getChecks true c hg]
    · rw [if_neg hg, get_setAll_of_not_mem getChecks true c hg]

end verifier

namespace verifier

/-- C5, as stated, fails: a status map may hold an enabled name outside the catalog (put
there by an earlier `EnableChecks`), and `EnableChecks` with a list of catalog names leaves
that name enabled, so the enabled names are not exactly those of the list. -/
theorem EnableChecks_enabled_set_counterexample :
    (∀ c ∈ ["v1.0/has-readme"], c ∈ Examples.exampleCatalog) ∧
    ¬ (∀ c : checks.CheckName,
        GoMap.get (EnableChecks Examples.exampleCatalog Examples.verifierWithUnknownEnabled
          ["v1.0/has-readme"]).Inputs.Flags.Checks c = some { Enabled := true } ↔
        (c ∈ ["v1.0/has-readme"] ∧ c ∈ Examples.exampleCatalog)) := by
  refine ⟨by decide, fun hall => ?_⟩
  have h := (hall "v9.9/no-such-check").1 (by decide)
  revert h
  decide

/-- C5, amended: for every non-empty list `L` of catalog names and every prior status map,
after `EnableChecks(L)` a catalog check is enabled exactly when it is in `L` and every
other catalog check is disabled; a name outside the catalog keeps the status it had; so
the enabled names are exactly those of `L` when the prior map holds no enabled name
outside the catalog. -/
theorem EnableChecks_catalog (getChecks : List checks.CheckName) (v : Verifier)
    (L : List checks.CheckName) (hne : L ≠ []) (hL : ∀ c ∈ L, c ∈ getChecks) :
    (∀ c ∈ getChecks, GoMap.get (EnableChecks getChecks v L).Inputs.Flags.Checks c =
      some { Enabled := decide (c ∈ L) }) ∧
    (∀ c, c ∉ getChecks → GoMap.get (EnableChecks getChecks v L).Inputs.Flags.Checks c =
      GoMap.get v.Inputs.Flags.Checks c) ∧
    ((∀ c, c ∉ getChecks → GoMap.get v.Inputs.Flags.Checks c ≠ some { Enabled := true }) →
      ∀ c, GoMap.get (EnableChecks getChecks v L).Inputs.Flags.Checks c =
        some { Enabled := true } ↔ c ∈ L) := by
  refine ⟨?_, ?_, ?_⟩
  · intro c hc
    rw [EnableChecks_get getChecks v L hne c]
    by_cases hcL : c ∈ L <;> simp [hcL, hc]
  · intro c hc
    have hcL : c ∉ L := fun h => hc (hL c h)
    rw [EnableChecks_get getChecks v L hne c, if_neg hcL, if_neg hc]
  · intro hprior c
    rw [EnableChecks_get getChecks v L hne c]
    by_cases hcL : c ∈ L
    · simp [hcL]
    · by_cases hc : c ∈ getChecks
      · simp [hcL, hc]
      · simp [hcL, hc, hprior c hc]

theorem EnableChecks_catalog_witness :
    (["v1.0/has-readme"] : List checks.CheckName) ≠ [] ∧
    (∀ c ∈ ["v1.0/has-readme"], c ∈ Examples.exampleCatalog) ∧
    (∀ c ∈ Examples.exampleCatalog,
      GoMap.get (EnableChecks Examples.exampleCatalog Examples.verifierWithUnknownEnabled
        ["v1.0/has-readme"]).Inputs.Flags.Checks c =
        some { Enabled := decide (c ∈ ["v1.0/has-readme"]) }) :=
  ⟨by decide, by decide,
    (EnableChecks_catalog Examples.exampleCatalog Examples.verifierWithUnknownEnabled
      ["v1.0/has-readme"] (by decide) (by decide)).1⟩

/-- C6, as stated, fails: a status map may hold a disabled name outside the catalog (put
there by an earlier `UnEnableChecks`), and `UnEnableChecks` with a list of catalog names
leaves that name disabled, so the disabled names are not exactly those of the list. -/
theorem UnEnableChecks_disabled_set_counterexample :
    (∀ c ∈ ["v1.0/has-readme"], c ∈ Examples.exampleCatalog) ∧
    ¬ (∀ c : checks.CheckName,
        GoMap.get (UnEnableChecks Examples.exampleCatalog Examples.verifierWithUnknownDisabled
          ["v1.0/has-readme"]).Inputs.Flags.Checks c = some { Enabled := false } ↔
        c ∈ ["v1.0/has-readme"]) := by
  refine ⟨by decide, fun hall => ?_⟩
  have h := (hall "v9.9/no-such-check").1 (by decide)
  revert h
  decide

/-- C6, amended: for every list `L` of catalog names and every prior status map: when `L`
is non-empty, after `UnEnableChecks(L)` a catalog check is disabled exactly when it is in
`L` and every other catalog check is enabled, a name outside the catalog keeps the status
it had, and so the disabled names are exactly those of `L` when the prior map holds no
disabled name outside the catalog; when `L` is empty, `UnEnableChecks(L)` leaves the
verifier, its status map included, unchanged. -/
theorem UnEnableChecks_catalog (getChecks : List checks.CheckName) (v : Verifier)
    (L : List checks.CheckName) (hL : ∀ c ∈ L, c ∈ getChecks) :
    (L ≠ [] →
      (∀ c ∈ getChecks, GoMap.get (UnEnableChecks getChecks v L).Inputs.Flags.Checks c =
        some { Enabled := !decide (c ∈ L) }) ∧
      (∀ c, c ∉ getChecks → GoMap.get (UnEnableChecks getChecks v L).Inputs.Flags.Checks c =
        GoMap.get v.Inputs.Flags.Checks c) ∧
      ((∀ c, c ∉ getChecks → GoMap.get v.Inputs.Flags.Checks c ≠ some { Enabled := false }) →
        ∀ c, GoMap.get (UnEnableChecks getChecks v L).Inputs.Flags.Checks c =
          some { Enabled := false } ↔ c ∈ L)) ∧
    (L = [] → UnEnableChecks getChecks v L = v) := by
  refine ⟨fun hne => ⟨?_, ?_, ?_⟩, ?_⟩
  · intro c hc
    rw [UnEnableChecks_get getChecks v L hne c]
    by_cases hcL : c ∈ L <;> simp [hcL, hc]
  · intro c hc
    have hcL : c ∉ L := fun h => hc (hL c h)
    rw [UnEnableChecks_get getChecks v L hne c, if_neg hcL, if_neg hc]
  · intro hprior c
    rw [UnEnableChecks_get getChecks v L hne c]
    by_cases hcL : c ∈ L
    · simp [hcL]
    · by_cases hc : c ∈ getChecks
      · simp [hcL, hc]
      · simp [hcL, hc, hprior c hc]
  · intro hnil
    subst hnil
    rfl

theorem UnEnableChecks_catalog_witness :
    (∀ c ∈ ["v1.0/has-readme"], c ∈ Examples.exampleCatalog) ∧
    (∀ c ∈ Examples.exampleCatalog,
      GoMap.get (UnEnableChecks Examples.exampleCatalog Examples.verifierWithUnknownDisabled
        ["v1.0/has-readme"]).Inputs.Flags.Checks c =
        some { Enabled := !decide (c ∈ ["v1.0/has-readme"]) }) ∧
    UnEnableChecks Examples.exampleCatalog Examples.verifierWithUnknownDisabled [] =
      Examples.verifierWithUnknownDisabled :=
  ⟨by decide,
    ((UnEnableChecks_catalog Examples.exampleCatalog Examples.verifierWithUnknownDisabled
      ["v1.0/has-readme"] (by decide)).1 (by decide)).1,
    (UnEnableChecks_catalog Examples.exampleCatalog Examples.verifierWithUnknownDisabled
      [] (by decide)).2 rfl⟩

/-- C7: for every prior status map, `EnableChecks([])` leaves every catalog check enabled,
and applying it twice gives the verifier that applying it once gives. -/
theorem EnableChecks_nil (getChecks : List checks.CheckName) (v : Verifier) :
    (∀ c ∈ getChecks, GoMap.get (EnableChecks getChecks v []).Inputs.Flags.Checks c =
      some { Enabled := true }) ∧
    EnableChecks getChecks (EnableChecks getChecks v []) [] = EnableChecks getChecks v [] := by
  have hchecks : ∀ w : Verifier, (EnableChecks getChecks w []).Inputs.Flags.Checks =
      setAll getChecks true w.Inputs.Flags.Checks := fun w => rfl
  have hall : ∀ c ∈ getChecks, GoMap.get (EnableChecks getChecks v []).Inputs.Flags.Checks c =
      some { Enabled := true } := by
    intro c hc
    rw [hchecks]
    exact get_setAll_of_mem getChecks true c hc _
  refine ⟨hall, ?_⟩
  have hfix := setAll_eq_self getChecks true _ hall
  show (EnableChecks getChecks v []).withChecks
    (setAll getChecks true (EnableChecks getChecks v []).Inputs.Flags.Checks) = _
  rw [hfix]
  rfl

end verifier

/-! ## The four sub-summaries -/

namespace reportsummary

theorem length_pos_iff_ne_empty (s : String) : s.length > 0 ↔ s ≠ "" := by
  cases s with
  | mk l =>
    cases l with
    | nil => simp [String.length]
    | cons c cs =>
      simp [String.length]
      intro h
      have := congrArg String.data h
      simp at this

theorem appendIfSet_eq (r : ReportSummary) (name value : String) :
    appendIfSet r name value =
      { r with AnnotationsReport := r.AnnotationsReport ++
          (if value ≠ "" then [{ Name := name, Value := value }] else []) } := by
  unfold appendIfSet
  by_cases h : value.length > 0
  · have h' := (length_pos_iff_ne_empty value).1 h
    simp [h, h']
  · have h' : ¬ value ≠ "" := fun hne => h ((length_pos_iff_ne_empty value).2 hne)
    rw [if_neg h, if_neg h']
    simp

/-- What `addAnnotations` returns on a summarizer with a report: the annotations of the
report are appended to those the summarizer holds. -/
theorem addAnnotations_eq (r : ReportSummary) (rep : report.Report)
    (h : r.options.report = some rep) :
    addAnnotations r = some { r with AnnotationsReport :=
      r.AnnotationsReport ++ expectedAnnotations r.options.values rep } := by
  have hprefix : (match GoMap.get r.options.values AnnotationsPrefixConfigName with
      | some configAnnotationsPrefix => sprintV configAnnotationsPrefix
      | none => DefaultAnnotationsPrefix) = annotationsPrefix r.options.values := rfl
  simp only [addAnnotations, h, hprefix, appendIfSet_eq, sprintfSlash]
  simp only [expectedAnnotations, trackedFields, DigestsAnnotationName,
    LastCertifiedTimestampAnnotationName, CertifiedOCPVersionsAnnotationName,
    TestedOCPVersionAnnotationName, SupportedOCPVersionsAnnotationName]
  congr 2
  by_cases h1 : rep.Metadata.ToolMetadata.Digests.Chart = "" <;>
  by_cases h2 : rep.Metadata.ToolMetadata.LastCertifiedTimestamp = "" <;>
  by_cases h3 : rep.Metadata.ToolMetadata.CertifiedOpenShiftVersions = "" <;>
  by_cases h4 : rep.Metadata.ToolMetadata.TestedOpenShiftVersion = "" <;>
  by_cases h5 : rep.Metadata.ToolMetadata.SupportedOpenShiftVersions = "" <;>
  simp [h1, h2, h3, h4, h5, List.filter]

theorem addDigests_eq (r : ReportSummary) (rep : report.Report)
    (h : r.options.report = some rep) :
    addDigests r = some { r with DigestsReport := some (digestsOf rep) } := by
  simp [addDigests, h, digestsOf]

theorem addMetadata_eq (r : ReportSummary) (rep : report.Report)
    (h : r.options.report = some rep) :
    addMetadata r = some { r with MetadataReport := some (metadataOf rep) } := by
  simp [addMetadata, h, metadataOf]

/-- What `addAll` returns on a summarizer with a report. -/
theorem addAll_eq (d : Deps) (r : ReportSummary) (rep : report.Report)
    (h : r.options.report = some rep) :
    addAll d r = some
      { options := r.options,
        AnnotationsReport := r.AnnotationsReport ++ expectedAnnotations r.options.values rep,
        DigestsReport := some (digestsOf rep),
        MetadataReport := some (metadataOf rep),
        ResultsReport := some (resultsOf d r.options.values rep) } := by
  simp [addAll, addAnnotations_eq r rep h, addDigests, addResults, addMetadata, h, digestsOf,
    metadataOf, resultsOf]

/-- The call of `GetContent` that follows `SetReport` with a report: the summarizer holds
the sub-summaries of that report alone, and the result is their rendering. -/
theorem GetContent_SetReport (d : Deps) (s : ReportSummary) (rep : report.Report)
    (summary : SummaryType) (format : SummaryFormat) :
    GetContent d (SetReport s (some rep)) summary format =
      some (summaryOf d s.options.values rep,
        render d (summaryOf d s.options.values rep) rep summary format) := by
  have hall : addAll d (SetReport s (some rep)) = some (summaryOf d s.options.values rep) := by
    rw [addAll_eq d (SetReport s (some rep)) rep rfl]
    simp [SetReport, summaryOf]
  unfold GetContent
  simp only [SetReport, Option.isNone_none, Bool.true_or, Bool.or_true, Option.isNone_some,
    Bool.and_false, Bool.false_eq_true, if_false, if_true]
  simp only [SetReport] at hall
  rw [hall, Option.some_bind]
  simp only [summaryOf, render]
  cases d.reportLoad rep with
  | some err => rfl
  | none =>
    by_cases hf : format = JsonReport
    · simp [hf]
    · simp [hf]

end reportsummary

namespace reportsummary

/-- C8, as stated, fails: with the values `profile.vendorType = redhat` and
`profile.version = v1.1` set, the metadata summary of a report that records the profile
`partner`, `v1.0` still shows `partner` and `v1.0`. -/
theorem GetContent_metadata_override_counterexample :
    GoMap.get Examples.overrideSummary.options.values "profile.vendorType" =
      some (Value.str "redhat") ∧
    GoMap.get Examples.overrideSummary.options.values "profile.version" =
      some (Value.str "v1.1") ∧
    ∃ s out, GetContent Examples.exampleDeps Examples.overrideSummary MetadataSummary
        JsonReport = some (s, out) ∧
      (selectSummary s MetadataSummary).MetadataReport.map (fun m => m.ProfileVendorType) =
        some "partner" ∧
      (selectSummary s MetadataSummary).MetadataReport.map (fun m => m.ProfileVersion) =
        some "v1.0" :=
  ⟨by decide, by decide, _, _,
    GetContent_SetReport Examples.exampleDeps _ Examples.exampleReport _ _, by decide,
    by decide⟩

/-- C8, amended: the metadata summary `GetContent` computes is the projection of the
attached report, whatever values were given to `SetValues`, before or after `SetReport`:
its vendor type and version are the ones the report records, with or without the keys
`profile.vendorType` and `profile.version` among the values. -/
theorem GetContent_metadata_is_report_profile (d : Deps) (s : ReportSummary)
    (values : GoMap String Value) (rep : report.Report) (summary : SummaryType)
    (format : SummaryFormat) :
    SetValues (SetReport s (some rep)) values = SetReport (SetValues s values) (some rep) ∧
    ∃ s' out, GetContent d (SetReport (SetValues s values) (some rep)) summary format =
        some (s', out) ∧
      s'.MetadataReport = some (metadataOf rep) ∧
      (selectSummary s' MetadataSummary).MetadataReport = some (metadataOf rep) ∧
      (metadataOf rep).ProfileVendorType = rep.Metadata.ToolMetadata.Profile.VendorType ∧
      (metadataOf rep).ProfileVersion = rep.Metadata.ToolMetadata.Profile.Version :=
  ⟨rfl, _, _, GetContent_SetReport d (SetValues s values) rep summary format, rfl, rfl, rfl,
    rfl⟩

/-- C9: for every report and values map, `addAnnotations` on a summarizer without cached
annotations leaves exactly, in the order digest, lastCertifiedTimestamp,
certifiedOpenShiftVersions, testedOpenShiftVersion, supportedOpenShiftVersions, one
annotation `{Name: "<prefix>/<field key>", Value: field value}` for each of the five
tracked fields that is non-empty and none for an empty field; the prefix is the values
entry `annotations.prefix` (as it prints) when present and `charts.openshift.io`
otherwise. Nothing else of the summarizer changes. -/
theorem addAnnotations_from_empty (r : ReportSummary) (rep : report.Report)
    (h : r.options.report = some rep) (hnil : r.AnnotationsReport = []) :
    addAnnotations r =
      some { r with AnnotationsReport := expectedAnnotations r.options.values rep } := by
  rw [addAnnotations_eq r rep h, hnil, List.nil_append]

theorem addAnnotations_from_empty_witness :
    Examples.exampleSummary.options.report = some Examples.exampleReport ∧
    Examples.exampleSummary.AnnotationsReport = [] ∧
    (addAnnotations Examples.exampleSummary).map (fun r => r.AnnotationsReport) =
      some [{ Name := "charts.openshift.io/digest", Value := "sha256:abc" },
            { Name := "charts.openshift.io/certifiedOpenShiftVersions", Value := "4.9" }] :=
  ⟨rfl, rfl, by
    rw [addAnnotations_from_empty Examples.exampleSummary Examples.exampleReport rfl rfl]
    decide⟩

/-- C10: after any use of a summarizer (in particular after `GetContent` with a report
`r1` attached), `SetReport(r2)` followed by `GetContent` returns what a fresh summarizer
holding the same values and `r2` returns and leaves the same summarizer: the four
sub-summaries are those of `r2` alone, the annotations being the annotations of `r2` and
none of `r1`. -/
theorem GetContent_after_SetReport (d : Deps) (s : ReportSummary) (r1 r2 : report.Report)
    (k1 k2 : SummaryType) (f1 f2 : SummaryFormat) :
    (∃ s1 out1 s2 out2,
      GetContent d (SetReport s (some r1)) k1 f1 = some (s1, out1) ∧
      s1.options.values = s.options.values ∧
      GetContent d (SetReport s1 (some r2)) k2 f2 = some (s2, out2) ∧
      GetContent d (freshSummary s.options.values r2) k2 f2 = some (s2, out2) ∧
      s2.AnnotationsReport = expectedAnnotations s.options.values r2 ∧
      s2.DigestsReport = some (digestsOf r2) ∧
      s2.MetadataReport = some (metadataOf r2) ∧
      s2.ResultsReport = some (resultsOf d s.options.values r2)) ∧
    (∀ s1 : ReportSummary, GetContent d (SetReport s1 (some r2)) k2 f2 =
      GetContent d (freshSummary s1.options.values r2) k2 f2) := by
  refine ⟨⟨_, _, _, _, GetContent_SetReport d s r1 k1 f1, rfl,
    GetContent_SetReport d _ r2 k2 f2, ?_, rfl, rfl, rfl, rfl⟩, fun s1 => rfl⟩
  exact GetContent_SetReport d _ r2 k2 f2

end reportsummary

/-! ## `GetContent` on a summarizer with a report -/

namespace reportsummary

/-- What `GetContent` returns when a report is attached: the sub-summaries are computed
when one of them is nil and kept otherwise, and the result is the rendering of the
selected one. -/
theorem GetContent_of_report (d : Deps) (r : ReportSummary) (rep : report.Report)
    (summary : SummaryType) (format : SummaryFormat) (h : r.options.report = some rep) :
    GetContent d r summary format =
      some (afterGetContent d r rep,
        render d (afterGetContent d r rep) rep summary format) := by
  have hgen : (r.MetadataReport.isNone || r.ResultsReport.isNone ||
      r.AnnotationsReport.isEmpty || r.DigestsReport.isNone) = needsGenerate r := rfl
  have hopt : (afterGetContent d r rep).options.report = some rep := by
    unfold afterGetContent
    by_cases hg : needsGenerate r = true
    · rw [if_pos hg]; exact h
    · rw [if_neg hg]; exact h
  have hall : (if needsGenerate r = true then addAll d r else some r) =
      some (afterGetContent d r rep) := by
    unfold afterGetContent
    by_cases hg : needsGenerate r = true
    · rw [if_pos hg, if_pos hg, addAll_eq d r rep h]; rfl
    · rw [if_neg hg, if_neg hg]
  unfold GetContent
  simp only [hgen, h, Option.isNone_some, Bool.and_false, Bool.false_eq_true, if_false]
  rw [hall, Option.some_bind]
  simp only [hopt, render]
  cases d.reportLoad rep with
  | some err => rfl
  | none =>
    by_cases hf : format = JsonReport
    · simp [hf]
    · simp [hf]

/-- A second `GetContent` finds nothing to change: the summarizer after `GetContent` is
its own summarizer after `GetContent`. -/
theorem afterGetContent_idem (d : Deps) (r : ReportSummary) (rep : report.Report) :
    afterGetContent d (afterGetContent d r rep) rep = afterGetContent d r rep := by
  by_cases hg : needsGenerate r = true
  · have h1 : afterGetContent d r rep = regenerated d r rep := by
      unfold afterGetContent; rw [if_pos hg]
    rw [h1]
    unfold afterGetContent
    by_cases hg2 : needsGenerate (regenerated d r rep) = true
    · rw [if_pos hg2]
      have hnil : (regenerated d r rep).AnnotationsReport = [] := by
        simpa [needsGenerate, regenerated] using hg2
      have hexp : expectedAnnotations r.options.values rep = [] := by
        have : r.AnnotationsReport ++ expectedAnnotations r.options.values rep = [] := hnil
        exact (List.append_eq_nil.mp this).2
      have hold : r.AnnotationsReport = [] := by
        have : r.AnnotationsReport ++ expectedAnnotations r.options.values rep = [] := hnil
        exact (List.append_eq_nil.mp this).1
      simp [regenerated, hexp, hold]
    · rw [if_neg hg2]
  · have h1 : afterGetContent d r rep = r := by
      unfold afterGetContent; rw [if_neg hg]
    rw [h1, h1]

/-- C11: for every summarizer with a report attached, every summary kind and every format,
`GetContent` called twice in a row returns the same result both times, and the second call
leaves the summarizer, its four cached sub-summaries included, as the first call left it
(also when the report yields no annotation, in which case the second call computes the
same sub-summaries again). -/
theorem GetContent_twice (d : Deps) (s : ReportSummary) (rep : report.Report)
    (summary : SummaryType) (format : SummaryFormat) (h : s.options.report = some rep) :
    ∃ s1 out, GetContent d s summary format = some (s1, out) ∧
      GetContent d s1 summary format = some (s1, out) ∧
      (∀ s2 out2, GetContent d s1 summary format = some (s2, out2) →
        s2.AnnotationsReport = s1.AnnotationsReport ∧
        s2.DigestsReport = s1.DigestsReport ∧
        s2.MetadataReport = s1.MetadataReport ∧
        s2.ResultsReport = s1.ResultsReport ∧ out2 = out) := by
  have hopt : (afterGetContent d s rep).options.report = some rep := by
    unfold afterGetContent
    by_cases hg : needsGenerate s = true
    · rw [if_pos hg]; exact h
    · rw [if_neg hg]; exact h
  have h2 : GetContent d (afterGetContent d s rep) summary format =
      some (afterGetContent d s rep,
        render d (afterGetContent d s rep) rep summary format) := by
    rw [GetContent_of_report d _ rep summary format hopt, afterGetContent_idem]
  refine ⟨_, _, GetContent_of_report d s rep summary format h, h2, ?_⟩
  intro s2 out2 hs2
  rw [h2] at hs2
  injection hs2 with hs2
  injection hs2 with hs hout
  subst hs
  exact ⟨rfl, rfl, rfl, rfl, hout.symm⟩

theorem GetContent_twice_witness :
    (SetReport NewReportSummary (some Examples.bareReport)).options.report =
      some Examples.bareReport ∧
    ∃ s1 out,
      GetContent Examples.exampleDeps (SetReport NewReportSummary (some Examples.bareReport))
        AllSummary YamlReport = some (s1, out) ∧
      GetContent Examples.exampleDeps s1 AllSummary YamlReport = some (s1, out) :=
  ⟨rfl,
    match GetContent_twice Examples.exampleDeps
      (SetReport NewReportSummary (some Examples.bareReport)) Examples.bareReport AllSummary
      YamlReport rfl with
    | ⟨s1, out, h1, h2, _⟩ => ⟨s1, out, h1, h2⟩⟩

end reportsummary

namespace reportsummary

/-- When the report yields an annotation, the sub-summaries of the first `GetContent` stay
in place: a `SetValues` before the next `GetContent` changes none of them. -/
theorem GetContent_keeps_cache (d : Deps) (s : ReportSummary) (rep : report.Report)
    (values : GoMap String Value) (h : expectedAnnotations s.options.values rep ≠ []) :
    afterGetContent d (SetValues (afterGetContent d (SetReport s (some rep)) rep) values) rep =
      SetValues (afterGetContent d (SetReport s (some rep)) rep) values := by
  have h1 : afterGetContent d (SetReport s (some rep)) rep =
      regenerated d (SetReport s (some rep)) rep := rfl
  have hne : (regenerated d (SetReport s (some rep)) rep).AnnotationsReport ≠ [] := by
    simpa [regenerated, SetReport] using h
  have hg : needsGenerate (SetValues (regenerated d (SetReport s (some rep)) rep) values) =
      false := by
    cases hx : (regenerated d (SetReport s (some rep)) rep).AnnotationsReport with
    | nil => exact absurd hx hne
    | cons a l =>
      have : (SetValues (regenerated d (SetReport s (some rep)) rep) values).AnnotationsReport =
          a :: l := hx
      unfold needsGenerate
      rw [this]
      rfl
  rw [h1]
  unfold afterGetContent
  rw [hg]
  rfl

/-- C12, the code at the failing input: for a report with none of the five annotation
fields, the first `GetContent` leaves the cached annotations nil, the next `GetContent`
takes that for a summary not yet made and computes all four again; after a `SetValues`
with another vendor type in between, the results returned are other results (one failure
before, three after), with no `SetReport` in between. -/
theorem GetContent_recomputes_without_annotations :
    ∃ s1 out1 s2 out2,
      GetContent Examples.exampleDeps (SetReport NewReportSummary (some Examples.bareReport))
        ResultsSummary JsonReport = some (s1, out1) ∧
      s1.AnnotationsReport = [] ∧
      s1.ResultsReport = some { Passed := "0", Failed := "1", Messages := ["bad"] } ∧
      GetContent Examples.exampleDeps
        (SetValues s1 [(profiles.VendorTypeConfigName, Value.str "redhat")])
        ResultsSummary JsonReport = some (s2, out2) ∧
      s2.ResultsReport = some ⟨"0", "3",
        ["Missing mandatory check : v1.0/is-helm-v3", "bad",
         "Missing mandatory check : v1.0/has-readme"]⟩ ∧
      s2.ResultsReport ≠ s1.ResultsReport :=
  ⟨_, _, _, _, GetContent_of_report Examples.exampleDeps _ Examples.bareReport _ _ rfl,
    by decide, by decide,
    GetContent_of_report Examples.exampleDeps _ Examples.bareReport _ _ rfl,
    by decide, by decide⟩

theorem SetValues_report (r : ReportSummary) (values : GoMap String Value) :
    (SetValues r values).options.report = r.options.report ∧
    (SetValues r values).AnnotationsReport = r.AnnotationsReport ∧
    (SetValues r values).DigestsReport = r.DigestsReport ∧
    (SetValues r values).MetadataReport = r.MetadataReport ∧
    (SetValues r values).ResultsReport = r.ResultsReport :=
  ⟨rfl, rfl, rfl, rfl, rfl⟩

theorem foldl_SetValues_report (vs : List (GoMap String Value)) : ∀ r : ReportSummary,
    (vs.foldl SetValues r).options.report = r.options.report ∧
    (vs.foldl SetValues r).MetadataReport = r.MetadataReport := by
  induction vs with
  | nil => intro r; exact ⟨rfl, rfl⟩
  | cons values vs ih =>
    intro r
    rw [List.foldl_cons]
    exact ⟨(ih _).1, (ih _).2⟩

/-- The guard of `GetContent`: without a report and with a sub-summary missing, the error
is returned and the summarizer is left as it is. -/
theorem GetContent_guard (d : Deps) (r : ReportSummary) (summary : SummaryType)
    (format : SummaryFormat) (hrep : r.options.report = none)
    (hmeta : r.MetadataReport = none) :
    GetContent d r summary format =
      some (r, Except.error "no report set from which to create a summary") := by
  simp [GetContent, hrep, hmeta]

/-- C13: on a summarizer without a report (a new one, or one given the nil report by
`SetReport`), after every sequence of `SetValues` calls and for every summary kind and
format, `GetContent` returns the error `no report set from which to create a summary`
(with it the empty text) and leaves the summarizer as it is; the call is not a nil
dereference. -/
theorem GetContent_no_report (d : Deps) (s : ReportSummary)
    (vs : List (GoMap String Value)) (summary : SummaryType) (format : SummaryFormat) :
    GetContent d (vs.foldl SetValues NewReportSummary) summary format =
      some (vs.foldl SetValues NewReportSummary,
        Except.error "no report set from which to create a summary") ∧
    GetContent d (vs.foldl SetValues (SetReport s none)) summary format =
      some (vs.foldl SetValues (SetReport s none),
        Except.error "no report set from which to create a summary") := by
  constructor
  · exact GetContent_guard d _ summary format (foldl_SetValues_report vs _).1
      (foldl_SetValues_report vs _).2
  · exact GetContent_guard d _ summary format (foldl_SetValues_report vs _).1
      (foldl_SetValues_report vs _).2

/-- C14: the digests summary is the projection of the report's tool digests, whatever the
values map holds: `ChartDigest` is `Metadata.Tool.Digests.Chart` and `PackageDigest` is
`Metadata.Tool.Digests.Package`, from `addDigests` and from `GetContent` after `SetReport`;
a chart digest `sha256:abc` with no package digest gives
`{ChartDigest: "sha256:abc", PackageDigest: ""}`. -/
theorem addDigests_projection (d : Deps) (r : ReportSummary) (rep : report.Report)
    (values : GoMap String Value) (summary : SummaryType) (format : SummaryFormat)
    (h : r.options.report = some rep) :
    (∃ r', addDigests r = some r' ∧
      r'.DigestsReport = some
        { ChartDigest := rep.Metadata.ToolMetadata.Digests.Chart,
          PackageDigest := rep.Metadata.ToolMetadata.Digests.Package }) ∧
    (∃ r', addDigests (SetValues r values) = some r' ∧
      r'.DigestsReport = some
        { ChartDigest := rep.Metadata.ToolMetadata.Digests.Chart,
          PackageDigest := rep.Metadata.ToolMetadata.Digests.Package }) ∧
    (∃ s' out, GetContent d (SetReport (SetValues r values) (some rep)) summary format =
        some (s', out) ∧
      s'.DigestsReport = some
        { ChartDigest := rep.Metadata.ToolMetadata.Digests.Chart,
          PackageDigest := rep.Metadata.ToolMetadata.Digests.Package }) ∧
    (rep.Metadata.ToolMetadata.Digests = { Chart := "sha256:abc", Package := "" } →
      ∃ r', addDigests r = some r' ∧
        r'.DigestsReport = some { ChartDigest := "sha256:abc", PackageDigest := "" }) := by
  refine ⟨⟨_, addDigests_eq r rep h, rfl⟩, ⟨_, addDigests_eq (SetValues r values) rep h, rfl⟩,
    ⟨_, _, GetContent_SetReport d (SetValues r values) rep summary format, rfl⟩, ?_⟩
  intro hd
  refine ⟨_, addDigests_eq r rep h, ?_⟩
  simp [digestsOf, hd]

theorem addDigests_projection_witness :
    Examples.exampleSummary.options.report = some Examples.exampleReport ∧
    Examples.exampleReport.Metadata.ToolMetadata.Digests =
      { Chart := "sha256:abc", Package := "" } ∧
    ∃ r', addDigests Examples.exampleSummary = some r' ∧
      r'.DigestsReport = some { ChartDigest := "sha256:abc", PackageDigest := "" } :=
  ⟨rfl, rfl,
    (addDigests_projection Examples.exampleDeps Examples.exampleSummary Examples.exampleReport
      [] AllSummary JsonReport rfl).2.2.2 rfl⟩

end reportsummary

namespace reportsummary

theorem afterGetContent_isSome (d : Deps) (s : ReportSummary) (rep : report.Report) :
    (afterGetContent d s rep).MetadataReport.isSome = true ∧
    (afterGetContent d s rep).DigestsReport.isSome = true ∧
    (afterGetContent d s rep).ResultsReport.isSome = true := by
  unfold afterGetContent
  by_cases hg : needsGenerate s = true
  · rw [if_pos hg]
    exact ⟨rfl, rfl, rfl⟩
  · rw [if_neg hg]
    have hg' : needsGenerate s = false := by
      cases hx : needsGenerate s
      · rfl
      · exact absurd hx hg
    unfold needsGenerate at hg'
    cases hm : s.MetadataReport <;> cases hd : s.DigestsReport <;>
      cases hr : s.ResultsReport <;> simp [hm, hd, hr] at hg' ⊢

/-- C15: for every summarizer with a report attached, the value `GetContent` hands to the
encoder holds, for the kinds metadata, digests, results and annotations, that one
sub-summary of the summarizer and none of the other three, and for the kind all the four
sub-summaries of the summarizer; metadata, digests and results are present in the
summarizer after the call (the annotations are the list cached, empty when the report
has none of the tracked fields). When `Load` fails, its error is returned and nothing is
encoded. -/
theorem GetContent_selects (d : Deps) (s : ReportSummary) (rep : report.Report)
    (format : SummaryFormat) (h : s.options.report = some rep) :
    ∃ s1 : ReportSummary,
      s1.MetadataReport.isSome = true ∧ s1.DigestsReport.isSome = true ∧
      s1.ResultsReport.isSome = true ∧
      (∀ summary : SummaryType, ∃ X : ReportSummary,
        GetContent d s summary format = some (s1,
          match d.reportLoad rep with
          | some err => Except.error err
          | none => if format = JsonReport then d.jsonMarshal X else d.yamlMarshal X) ∧
        (summary = MetadataSummary →
          X.MetadataReport = s1.MetadataReport ∧ X.DigestsReport = none ∧
          X.ResultsReport = none ∧ X.AnnotationsReport = []) ∧
        (summary = DigestsSummary →
          X.DigestsReport = s1.DigestsReport ∧ X.MetadataReport = none ∧
          X.ResultsReport = none ∧ X.AnnotationsReport = []) ∧
        (summary = ResultsSummary →
          X.ResultsReport = s1.ResultsReport ∧ X.MetadataReport = none ∧
          X.DigestsReport = none ∧ X.AnnotationsReport = []) ∧
        (summary = AnnotationsSummary →
          X.AnnotationsReport = s1.AnnotationsReport ∧ X.MetadataReport = none ∧
          X.DigestsReport = none ∧ X.ResultsReport = none) ∧
        (summary = AllSummary →
          X.MetadataReport = s1.MetadataReport ∧ X.DigestsReport = s1.DigestsReport ∧
          X.ResultsReport = s1.ResultsReport ∧
          X.AnnotationsReport = s1.AnnotationsReport)) := by
  refine ⟨afterGetContent d s rep, (afterGetContent_isSome d s rep).1,
    (afterGetContent_isSome d s rep).2.1, (afterGetContent_isSome d s rep).2.2, ?_⟩
  intro summary
  refine ⟨selectSummary (afterGetContent d s rep) summary, ?_, ?_, ?_, ?_, ?_, ?_⟩
  · rw [GetContent_of_report d s rep summary format h]
    rfl
  · intro hk
    subst hk
    exact ⟨rfl, rfl, rfl, rfl⟩
  · intro hk
    subst hk
    exact ⟨rfl, rfl, rfl, rfl⟩
  · intro hk
    subst hk
    exact ⟨rfl, rfl, rfl, rfl⟩
  · intro hk
    subst hk
    exact ⟨rfl, rfl, rfl, rfl⟩
  · intro hk
    subst hk
    exact ⟨rfl, rfl, rfl, rfl⟩

theorem GetContent_selects_witness :
    Examples.exampleSummary.options.report = some Examples.exampleReport ∧
    ∃ s1 : ReportSummary,
      s1.MetadataReport.isSome = true ∧ s1.DigestsReport.isSome = true ∧
      s1.ResultsReport.isSome = true ∧
      ∃ X : ReportSummary,
        GetContent Examples.exampleDeps Examples.exampleSummary DigestsSummary JsonReport =
          some (s1, Examples.exampleDeps.jsonMarshal X) ∧
        X.DigestsReport = s1.DigestsReport ∧ X.MetadataReport = none ∧
        X.ResultsReport = none ∧ X.AnnotationsReport = [] :=
  ⟨rfl,
    match GetContent_selects Examples.exampleDeps Examples.exampleSummary
      Examples.exampleReport JsonReport rfl with
    | ⟨s1, hm, hd, hr, hall⟩ =>
      match hall DigestsSummary with
      | ⟨X, hget, _, hdig, _, _, _⟩ => ⟨s1, hm, hd, hr, X, hget, hdig rfl⟩⟩

/-- C16: for every summarizer, summary kind and format other than `json` (an unknown or
empty format among them), `GetContent` does what it does for the format `yaml`: same
summarizer afterwards, same result; no error comes from the format. -/
theorem GetContent_format_fallback (d : Deps) (s : ReportSummary) (summary : SummaryType)
    (format : SummaryFormat) (hf : format ≠ JsonReport) :
    GetContent d s summary format = GetContent d s summary YamlReport := by
  have hy : ¬ YamlReport = JsonReport := by decide
  simp only [GetContent, hf, hy, if_false]

theorem GetContent_format_fallback_witness :
    ("" : SummaryFormat) ≠ JsonReport ∧ ("xml" : SummaryFormat) ≠ JsonReport ∧
    GetContent Examples.exampleDeps Examples.exampleSummary ResultsSummary "" =
      GetContent Examples.exampleDeps Examples.exampleSummary ResultsSummary YamlReport ∧
    GetContent Examples.exampleDeps Examples.exampleSummary ResultsSummary "xml" =
      GetContent Examples.exampleDeps Examples.exampleSummary ResultsSummary YamlReport :=
  ⟨by decide, by decide,
    GetContent_format_fallback Examples.exampleDeps Examples.exampleSummary ResultsSummary ""
      (by decide),
    GetContent_format_fallback Examples.exampleDeps Examples.exampleSummary ResultsSummary "xml"
      (by decide)⟩

end reportsummary

/-! ## Go maps: keys and entries -/

namespace GoMap

variable {K V : Type} [DecidableEq K]

theorem mem_map_fst_iff (m : GoMap K V) (k : K) : k ∈ m.map Prod.fst ↔ (m.get k).isSome := by
  induction m with
  | nil => simp [get]
  | cons kv m ih =>
    obtain ⟨k', v'⟩ := kv
    by_cases h : k' = k
    · simp [get, h]
    · have h' : ¬ k = k' := fun e => h e.symm
      simp [get, h, h', ih]

/-- The keys a `range` visits are the keys a read finds. -/
theorem mem_keys_iff (m : GoMap K V) (k : K) : k ∈ m.keys ↔ (m.get k).isSome := by
  unfold keys
  rw [List.mem_dedup]
  exact mem_map_fst_iff m k

/-- The entries a `range` visits are the pairs a read finds. -/
theorem mem_entries_iff (m : GoMap K V) (k : K) (x : V) :
    (k, x) ∈ m.entries ↔ m.get k = some x := by
  unfold entries
  rw [List.mem_filterMap]
  constructor
  · rintro ⟨a, _, ha⟩
    cases hg : get m a with
    | none => simp [hg] at ha
    | some y =>
      simp [hg] at ha
      obtain ⟨rfl, rfl⟩ := ha
      exact hg
  · intro hg
    refine ⟨k, (mem_keys_iff m k).2 (by simp [hg]), ?_⟩
    simp [hg]

end GoMap

/-! ## The validation of the inputs -/

namespace verifier

theorem foundElement_iff (whitelist : List String) (key : String) :
    foundElement whitelist key = true ↔ key ∈ whitelist := by
  unfold foundElement
  rw [List.any_eq_true]
  constructor
  · rintro ⟨x, hx, he⟩
    have : x = key := by simpa using he
    exact this ▸ hx
  · intro h
    exact ⟨key, h, by simp⟩

/-- The key validation returns no error exactly when it started with none and every key
visited is in the whitelist. -/
theorem validateKeys_eq_none_iff (whitelist : List String) (message : String)
    (ks : List String) : ∀ err : Option String,
    validateKeys whitelist message ks err = none ↔
      err = none ∧ ∀ k ∈ ks, k ∈ whitelist := by
  induction ks with
  | nil => intro err; simp [validateKeys]
  | cons key rest ih =>
    intro err
    by_cases hf : foundElement whitelist key = true
    · have hk := (foundElement_iff whitelist key).1 hf
      simp only [validateKeys, hf, Bool.not_true, Bool.false_eq_true, if_false, ih]
      simp [hk]
    · have hk : key ∉ whitelist := fun h => hf ((foundElement_iff whitelist key).2 h)
      have hf' : foundElement whitelist key = false := by
        cases hx : foundElement whitelist key
        · rfl
        · exact absurd hx hf
      simp only [validateKeys, hf', Bool.not_false, if_true, ih]
      simp [hk]

/-- An error of the key validation is the one it started with or names a key visited that
is outside the whitelist. -/
theorem validateKeys_eq_some (whitelist : List String) (message : String)
    (ks : List String) : ∀ (err : Option String) (e : String),
    validateKeys whitelist message ks err = some e →
      err = some e ∨ ∃ k ∈ ks, k ∉ whitelist ∧ e = message ++ k := by
  induction ks with
  | nil => intro err e h; left; simpa [validateKeys] using h
  | cons key rest ih =>
    intro err e h
    by_cases hf : foundElement whitelist key = true
    · simp only [validateKeys, hf, Bool.not_true, Bool.false_eq_true, if_false] at h
      rcases ih err e h with h1 | ⟨k, hk, hbad, he⟩
      · exact Or.inl h1
      · exact Or.inr ⟨k, List.mem_cons_of_mem _ hk, hbad, he⟩
    · have hk : key ∉ whitelist := fun h => hf ((foundElement_iff whitelist key).2 h)
      have hf' : foundElement whitelist key = false := by
        cases hx : foundElement whitelist key
        · rfl
        · exact absurd hx hf
      simp only [validateKeys, hf', Bool.not_false, if_true] at h
      rcases ih _ e h with h1 | ⟨k, hk', hbad, he⟩
      · right
        refine ⟨key, List.mem_cons_self _ _, hk, ?_⟩
        injection h1 with h1
        exact h1.symm
      · exact Or.inr ⟨k, List.mem_cons_of_mem _ hk', hbad, he⟩

theorem validateChecksLoop_eq_none_iff (getChecks : List checks.CheckName)
    (ks : List checks.CheckName) :
    validateChecksLoop getChecks ks = none ↔ ∀ c ∈ ks, c ∈ getChecks := by
  induction ks with
  | nil => simp [validateChecksLoop]
  | cons c rest ih =>
    by_cases hc : c ∈ getChecks
    · have : (getChecks.any fun validCheckName => c == validCheckName) = true := by
        rw [List.any_eq_true]
        exact ⟨c, hc, by simp⟩
      simp [validateChecksLoop, this, ih, hc]
    · have : (getChecks.any fun validCheckName => c == validCheckName) = false := by
        cases hx : (getChecks.any fun validCheckName => c == validCheckName)
        · rfl
        · rw [List.any_eq_true] at hx
          obtain ⟨x, hx, he⟩ := hx
          have : c = x := by simpa using he
          exact absurd (this ▸ hx) hc
      simp [validateChecksLoop, this, hc]

theorem validateChecksLoop_eq_some (getChecks : List checks.CheckName)
    (ks : List checks.CheckName) (e : String)
    (h : validateChecksLoop getChecks ks = some e) :
    ∃ c ∈ ks, c ∉ getChecks ∧ e = "Invalid check name : " ++ c := by
  induction ks with
  | nil => simp [validateChecksLoop] at h
  | cons c rest ih =>
    by_cases hc : c ∈ getChecks
    · have : (getChecks.any fun validCheckName => c == validCheckName) = true := by
        rw [List.any_eq_true]
        exact ⟨c, hc, by simp⟩
      simp only [validateChecksLoop, this, Bool.not_true, Bool.false_eq_true, if_false] at h
      obtain ⟨c', hc', hbad, he⟩ := ih h
      exact ⟨c', List.mem_cons_of_mem _ hc', hbad, he⟩
    · have : (getChecks.any fun validCheckName => c == validCheckName) = false := by
        cases hx : (getChecks.any fun validCheckName => c == validCheckName)
        · rfl
        · rw [List.any_eq_true] at hx
          obtain ⟨x, hx, he⟩ := hx
          have : c = x := by simpa using he
          exact absurd (this ▸ hx) hc
      simp only [validateChecksLoop, this, Bool.not_false, if_true] at h
      injection h with h
      exact ⟨c, List.mem_cons_self _ _, hc, h.symm⟩

end verifier

namespace verifier

/-- One key validation, whatever the order of the visit: no error and no key outside the
whitelist, or the error that names a key of the map outside the whitelist. -/
theorem validateKeys_visit (σ : RangeChoice) {V : Type} (m : GoMap String V)
    (whitelist : List String) (message : String) :
    (validateKeys whitelist message (σ.visit m.keys) none = none ∧
      ¬ hasKeyOutside m whitelist) ∨
    (∃ k, (m.get k).isSome = true ∧ k ∉ whitelist ∧
      validateKeys whitelist message (σ.visit m.keys) none = some (message ++ k)) := by
  have hmem : ∀ k, k ∈ σ.visit m.keys ↔ (m.get k).isSome = true := fun k =>
    ((σ.visit_perm m.keys).mem_iff).trans (GoMap.mem_keys_iff m k)
  cases hres : validateKeys whitelist message (σ.visit m.keys) none with
  | none =>
    left
    refine ⟨rfl, ?_⟩
    rintro ⟨k, hk, hbad⟩
    have := ((validateKeys_eq_none_iff whitelist message _ none).1 hres).2 k ((hmem k).2 hk)
    exact hbad this
  | some e =>
    right
    rcases validateKeys_eq_some whitelist message _ none e hres with h | ⟨k, hk, hbad, he⟩
    · exact absurd h (by simp)
    · exact ⟨k, (hmem k).1 hk, hbad, by rw [he]⟩

/-- The check validation, whatever the order of the visit: no error and no name outside
the catalog, or the error that names a name of the status map outside the catalog. -/
theorem validateChecks_visit (σ : RangeChoice) (getChecks : List checks.CheckName)
    (v : Verifier) :
    (validateChecks σ getChecks v = none ∧ ¬ hasKeyOutside v.Inputs.Flags.Checks getChecks) ∨
    (∃ c, (v.Inputs.Flags.Checks.get c).isSome = true ∧ c ∉ getChecks ∧
      validateChecks σ getChecks v = some ("Invalid check name : " ++ c)) := by
  have hmem : ∀ k, k ∈ σ.visit v.Inputs.Flags.Checks.keys ↔
      (v.Inputs.Flags.Checks.get k).isSome = true := fun k =>
    ((σ.visit_perm _).mem_iff).trans (GoMap.mem_keys_iff _ k)
  unfold validateChecks
  cases hres : validateChecksLoop getChecks (σ.visit v.Inputs.Flags.Checks.keys) with
  | none =>
    left
    refine ⟨rfl, ?_⟩
    rintro ⟨k, hk, hbad⟩
    exact hbad ((validateChecksLoop_eq_none_iff getChecks _).1 hres k ((hmem k).2 hk))
  | some e =>
    right
    obtain ⟨c, hc, hbad, he⟩ := validateChecksLoop_eq_some getChecks _ e hres
    exact ⟨c, (hmem c).1 hc, hbad, by rw [he]⟩

/-- The chain of `checkInputs`: the error of the first validation that returns one, in the
order boolean, checks, duration, values, string. -/
theorem checkInputs_chain (σ : RangeChoice) (getChecks : List checks.CheckName)
    (v : Verifier) :
    checkInputs σ getChecks v =
      match validateBooleanKeys σ v with
      | some e => some e
      | none =>
        match validateChecks σ getChecks v with
        | some e => some e
        | none =>
          match validateDurationKeys σ v with
          | some e => some e
          | none =>
            match validateValuesKeys σ v with
            | some e => some e
            | none => validateStringKeys σ v := by
  unfold checkInputs
  cases validateBooleanKeys σ v <;> cases validateChecks σ getChecks v <;>
    cases validateDurationKeys σ v <;> cases validateValuesKeys σ v <;>
    cases validateStringKeys σ v <;> simp

/-- C18: `checkInputs` returns the violation of the first violating category in the order
boolean, checks, duration, values, string, whatever the order in which the maps are
visited: with a boolean key outside its whitelist the error is `Invalid boolean key name: `
and such a key (so also when a string key is invalid too); else, with a check name outside
the catalog, it is `Invalid check name : ` and such a name (so also when a duration key is
invalid too); else the duration error, else the values error, else the string error. -/
theorem checkInputs_first_category (σ : RangeChoice) (getChecks : List checks.CheckName)
    (v : Verifier) :
    (hasKeyOutside v.Inputs.Flags.BooleanFlags setBooleanKeys →
      ∃ k, (v.Inputs.Flags.BooleanFlags.get k).isSome = true ∧ k ∉ setBooleanKeys ∧
        checkInputs σ getChecks v = some ("Invalid boolean key name: " ++ k)) ∧
    (¬ hasKeyOutside v.Inputs.Flags.BooleanFlags setBooleanKeys →
      hasKeyOutside v.Inputs.Flags.Checks getChecks →
      ∃ c, (v.Inputs.Flags.Checks.get c).isSome = true ∧ c ∉ getChecks ∧
        checkInputs σ getChecks v = some ("Invalid check name : " ++ c)) ∧
    (¬ hasKeyOutside v.Inputs.Flags.BooleanFlags setBooleanKeys →
      ¬ hasKeyOutside v.Inputs.Flags.Checks getChecks →
      hasKeyOutside v.Inputs.Flags.DurationFlags setDurationKeys →
      ∃ k, (v.Inputs.Flags.DurationFlags.get k).isSome = true ∧ k ∉ setDurationKeys ∧
        checkInputs σ getChecks v = some ("Invalid duration key name: " ++ k)) ∧
    (¬ hasKeyOutside v.Inputs.Flags.BooleanFlags setBooleanKeys →
      ¬ hasKeyOutside v.Inputs.Flags.Checks getChecks →
      ¬ hasKeyOutside v.Inputs.Flags.DurationFlags setDurationKeys →
      hasKeyOutside v.Inputs.Flags.ValuesFlags setValuesKeys →
      ∃ k, (v.Inputs.Flags.ValuesFlags.get k).isSome = true ∧ k ∉ setValuesKeys ∧
        checkInputs σ getChecks v = some ("Invalid values key name: " ++ k)) ∧
    (¬ hasKeyOutside v.Inputs.Flags.BooleanFlags setBooleanKeys →
      ¬ hasKeyOutside v.Inputs.Flags.Checks getChecks →
      ¬ hasKeyOutside v.Inputs.Flags.DurationFlags setDurationKeys →
      ¬ hasKeyOutside v.Inputs.Flags.ValuesFlags setValuesKeys →
      hasKeyOutside v.Inputs.Flags.StringFlags setStringKeys →
      ∃ k, (v.Inputs.Flags.StringFlags.get k).isSome = true ∧ k ∉ setStringKeys ∧
        checkInputs σ getChecks v = some ("Invalid string key name: " ++ k)) := by
  have hB := validateKeys_visit σ v.Inputs.Flags.BooleanFlags setBooleanKeys
    "Invalid boolean key name: "
  have hC := validateChecks_visit σ getChecks v
  have hD := validateKeys_visit σ v.Inputs.Flags.DurationFlags setDurationKeys
    "Invalid duration key name: "
  have hV := validateKeys_visit σ v.Inputs.Flags.ValuesFlags setValuesKeys
    "Invalid values key name: "
  have hS := validateKeys_visit σ v.Inputs.Flags.StringFlags setStringKeys
    "Invalid string key name: "
  rw [checkInputs_chain]
  unfold validateBooleanKeys validateDurationKeys validateValuesKeys validateStringKeys
  refine ⟨?_, ?_, ?_, ?_, ?_⟩
  · intro hb
    rcases hB with ⟨_, hnb⟩ | ⟨k, hk, hbad, he⟩
    · exact absurd hb hnb
    · exact ⟨k, hk, hbad, by rw [he]⟩
  · intro hnb hc
    rcases hB with ⟨heB, _⟩ | ⟨k, hk, hbad, _⟩
    · rcases hC with ⟨_, hnc⟩ | ⟨c, hcs, hbad, he⟩
      · exact absurd hc hnc
      · exact ⟨c, hcs, hbad, by rw [heB, he]⟩
    · exact absurd ⟨k, hk, hbad⟩ hnb
  · intro hnb hnc hd
    rcases hB with ⟨heB, _⟩ | ⟨k, hk, hbad, _⟩
    · rcases hC with ⟨heC, _⟩ | ⟨c, hcs, hbad, _⟩
      · rcases hD with ⟨_, hnd⟩ | ⟨k, hk, hbad, he⟩
        · exact absurd hd hnd
        · exact ⟨k, hk, hbad, by rw [heB, heC, he]⟩
      · exact absurd ⟨c, hcs, hbad⟩ hnc
    · exact absurd ⟨k, hk, hbad⟩ hnb
  · intro hnb hnc hnd hv
    rcases hB with ⟨heB, _⟩ | ⟨k, hk, hbad, _⟩
    · rcases hC with ⟨heC, _⟩ | ⟨c, hcs, hbad, _⟩
      · rcases hD with ⟨heD, _⟩ | ⟨k, hk, hbad, _⟩
        · rcases hV with ⟨_, hnv⟩ | ⟨k, hk, hbad, he⟩
          · exact absurd hv hnv
          · exact ⟨k, hk, hbad, by rw [heB, heC, heD, he]⟩
        · exact absurd ⟨k, hk, hbad⟩ hnd
      · exact absurd ⟨c, hcs, hbad⟩ hnc
    · exact absurd ⟨k, hk, hbad⟩ hnb
  · intro hnb hnc hnd hnv hs
    rcases hB with ⟨heB, _⟩ | ⟨k, hk, hbad, _⟩
    · rcases hC with ⟨heC, _⟩ | ⟨c, hcs, hbad, _⟩
      · rcases hD with ⟨heD, _⟩ | ⟨k, hk, hbad, _⟩
        · rcases hV with ⟨heV, _⟩ | ⟨k, hk, hbad, _⟩
          · rcases hS with ⟨_, hns⟩ | ⟨k, hk, hbad, he⟩
            · exact absurd hs hns
            · exact ⟨k, hk, hbad, by rw [heB, heC, heD, heV, he]⟩
          · exact absurd ⟨k, hk, hbad⟩ hnv
        · exact absurd ⟨k, hk, hbad⟩ hnd
      · exact absurd ⟨c, hcs, hbad⟩ hnc
    · exact absurd ⟨k, hk, hbad⟩ hnb

end verifier

namespace verifier

theorem validateKeys_visit_none_iff (σ : RangeChoice) {V : Type} (m : GoMap String V)
    (whitelist : List String) (message : String) :
    validateKeys whitelist message (σ.visit m.keys) none = none ↔
      ¬ hasKeyOutside m whitelist := by
  rcases validateKeys_visit σ m whitelist message with ⟨he, hn⟩ | ⟨k, hk, hbad, he⟩
  · exact ⟨fun _ => hn, fun _ => he⟩
  · constructor
    · intro h
      rw [he] at h
      exact absurd h (by simp)
    · intro h
      exact absurd ⟨k, hk, hbad⟩ h

theorem validateChecks_none_iff (σ : RangeChoice) (getChecks : List checks.CheckName)
    (v : Verifier) :
    validateChecks σ getChecks v = none ↔ ¬ hasKeyOutside v.Inputs.Flags.Checks getChecks := by
  rcases validateChecks_visit σ getChecks v with ⟨he, hn⟩ | ⟨c, hc, hbad, he⟩
  · exact ⟨fun _ => hn, fun _ => he⟩
  · constructor
    · intro h
      rw [he] at h
      exact absurd h (by simp)
    · intro h
      exact absurd ⟨c, hc, hbad⟩ h

theorem checkInputs_eq_none_iff (σ : RangeChoice) (getChecks : List checks.CheckName)
    (v : Verifier) :
    checkInputs σ getChecks v = none ↔
      ¬ hasKeyOutside v.Inputs.Flags.BooleanFlags setBooleanKeys ∧
      ¬ hasKeyOutside v.Inputs.Flags.Checks getChecks ∧
      ¬ hasKeyOutside v.Inputs.Flags.DurationFlags setDurationKeys ∧
      ¬ hasKeyOutside v.Inputs.Flags.ValuesFlags setValuesKeys ∧
      ¬ hasKeyOutside v.Inputs.Flags.StringFlags setStringKeys := by
  have hB : validateBooleanKeys σ v = none ↔ _ :=
    validateKeys_visit_none_iff σ v.Inputs.Flags.BooleanFlags setBooleanKeys _
  have hC := validateChecks_none_iff σ getChecks v
  have hD : validateDurationKeys σ v = none ↔ _ :=
    validateKeys_visit_none_iff σ v.Inputs.Flags.DurationFlags setDurationKeys _
  have hV : validateValuesKeys σ v = none ↔ _ :=
    validateKeys_visit_none_iff σ v.Inputs.Flags.ValuesFlags setValuesKeys _
  have hS : validateStringKeys σ v = none ↔ _ :=
    validateKeys_visit_none_iff σ v.Inputs.Flags.StringFlags setStringKeys _
  rw [checkInputs_chain, ← hB, ← hC, ← hD, ← hV, ← hS]
  cases validateBooleanKeys σ v <;> cases validateChecks σ getChecks v <;>
    cases validateDurationKeys σ v <;> cases validateValuesKeys σ v <;>
    cases validateStringKeys σ v <;> simp

/-- C19: `SetBoolean`, `SetDuration` and `SetString` each make the key map to the value
given, whatever it mapped to before, and leave every other key of that map, the other
flag maps, the check statuses and the rest of the verifier as they were. -/
theorem setters_overwrite (v : Verifier) (key : String) (b : Bool) (duration : Int)
    (strings : List String) :
    ((SetBoolean v key b).Inputs.Flags.BooleanFlags.get key = some b ∧
      (∀ k, k ≠ key → (SetBoolean v key b).Inputs.Flags.BooleanFlags.get k =
        v.Inputs.Flags.BooleanFlags.get k) ∧
      (SetBoolean v key b).Inputs.Flags.DurationFlags = v.Inputs.Flags.DurationFlags ∧
      (SetBoolean v key b).Inputs.Flags.StringFlags = v.Inputs.Flags.StringFlags ∧
      (SetBoolean v key b).Inputs.Flags.ValuesFlags = v.Inputs.Flags.ValuesFlags ∧
      (SetBoolean v key b).Inputs.Flags.Checks = v.Inputs.Flags.Checks ∧
      (SetBoolean v key b).Inputs.ChartUri = v.Inputs.ChartUri ∧
      (SetBoolean v key b).Outputs = v.Outputs ∧ (SetBoolean v key b).Id = v.Id) ∧
    ((SetDuration v key duration).Inputs.Flags.DurationFlags.get key = some duration ∧
      (∀ k, k ≠ key → (SetDuration v key duration).Inputs.Flags.DurationFlags.get k =
        v.Inputs.Flags.DurationFlags.get k) ∧
      (SetDuration v key duration).Inputs.Flags.BooleanFlags = v.Inputs.Flags.BooleanFlags ∧
      (SetDuration v key duration).Inputs.Flags.StringFlags = v.Inputs.Flags.StringFlags ∧
      (SetDuration v key duration).Inputs.Flags.ValuesFlags = v.Inputs.Flags.ValuesFlags ∧
      (SetDuration v key duration).Inputs.Flags.Checks = v.Inputs.Flags.Checks ∧
      (SetDuration v key duration).Inputs.ChartUri = v.Inputs.ChartUri ∧
      (SetDuration v key duration).Outputs = v.Outputs ∧
      (SetDuration v key duration).Id = v.Id) ∧
    ((SetString v key strings).Inputs.Flags.StringFlags.get key = some strings ∧
      (∀ k, k ≠ key → (SetString v key strings).Inputs.Flags.StringFlags.get k =
        v.Inputs.Flags.StringFlags.get k) ∧
      (SetString v key strings).Inputs.Flags.BooleanFlags = v.Inputs.Flags.BooleanFlags ∧
      (SetString v key strings).Inputs.Flags.DurationFlags = v.Inputs.Flags.DurationFlags ∧
      (SetString v key strings).Inputs.Flags.ValuesFlags = v.Inputs.Flags.ValuesFlags ∧
      (SetString v key strings).Inputs.Flags.Checks = v.Inputs.Flags.Checks ∧
      (SetString v key strings).Inputs.ChartUri = v.Inputs.ChartUri ∧
      (SetString v key strings).Outputs = v.Outputs ∧ (SetString v key strings).Id = v.Id) :=
  ⟨⟨GoMap.get_set_self _ _ _, fun _ hk => GoMap.get_set_ne _ _ (Ne.symm hk),
      rfl, rfl, rfl, rfl, rfl, rfl, rfl⟩,
    ⟨GoMap.get_set_self _ _ _, fun _ hk => GoMap.get_set_ne _ _ (Ne.symm hk),
      rfl, rfl, rfl, rfl, rfl, rfl, rfl⟩,
    ⟨GoMap.get_set_self _ _ _, fun _ hk => GoMap.get_set_ne _ _ (Ne.symm hk),
      rfl, rfl, rfl, rfl, rfl, rfl, rfl⟩⟩

end verifier

/-! ## The merge of `SetValues` -/

/-- On a string of ASCII characters the two forms of `strings.ToLower` agree. -/
theorem stringsToLowerUnicode_ascii (lowerRune : Char → Char) (s : String)
    (h : ∀ c ∈ s.data, c.toNat < 128) : stringsToLowerUnicode lowerRune s = stringsToLower s := by
  unfold stringsToLowerUnicode stringsToLower
  congr 1
  apply List.map_congr_left
  intro c hc
  rw [if_pos (h c hc)]

namespace verifier

/-- A key that is the lower-casing of no key visited keeps its entry. -/
theorem mergeLowerWith_get_other (lower : String → String) (visited : List (String × Value))
    (j : String) (h : ∀ kv ∈ visited, lower kv.1 ≠ j) : ∀ existing : GoMap String Value,
    GoMap.get (mergeLowerWith lower visited existing) j = GoMap.get existing j := by
  induction visited with
  | nil => intro existing; rfl
  | cons kv rest ih =>
    intro existing
    show GoMap.get (mergeLowerWith lower rest (GoMap.set existing (lower kv.1) kv.2)) j = _
    rw [ih (fun x hx => h x (List.mem_cons_of_mem _ hx)),
      GoMap.get_set_ne _ _ (h kv (List.mem_cons_self _ _))]

/-- An entry visited whose lower-cased key is the lower-casing of no other entry visited
is in the merged map, under its lower-cased key. -/
theorem mergeLowerWith_get_entry (lower : String → String) (visited : List (String × Value))
    (k : String) (x : Value) :
    (k, x) ∈ visited →
    (∀ kv ∈ visited, lower kv.1 = lower k → kv = (k, x)) →
    ∀ existing : GoMap String Value,
    GoMap.get (mergeLowerWith lower visited existing) (lower k) = some x := by
  induction visited with
  | nil => intro h; simp at h
  | cons kv rest ih =>
    intro hmem huniq existing
    show GoMap.get (mergeLowerWith lower rest (GoMap.set existing (lower kv.1) kv.2))
      (lower k) = some x
    by_cases hrest : (k, x) ∈ rest
    · exact ih hrest (fun y hy => huniq y (List.mem_cons_of_mem _ hy)) _
    · have hkv : kv = (k, x) := by
        rcases List.mem_cons.mp hmem with e | e
        · exact e.symm
        · exact absurd e hrest
      have hother : ∀ y ∈ rest, lower y.1 ≠ lower k := by
        intro y hy he
        have := huniq y (List.mem_cons_of_mem _ hy) he
        exact hrest (this ▸ hy)
      rw [mergeLowerWith_get_other lower rest _ hother, hkv, GoMap.get_set_self]

theorem mergeLower_get_other (visited : List (String × Value)) (j : String)
    (h : ∀ kv ∈ visited, stringsToLower kv.1 ≠ j) : ∀ existing : GoMap String Value,
    GoMap.get (mergeLower visited existing) j = GoMap.get existing j :=
  mergeLowerWith_get_other stringsToLower visited j h

theorem mergeLower_get_entry (visited : List (String × Value)) (k : String) (x : Value) :
    (k, x) ∈ visited →
    (∀ kv ∈ visited, stringsToLower kv.1 = stringsToLower k → kv = (k, x)) →
    ∀ existing : GoMap String Value,
    GoMap.get (mergeLower visited existing) (stringsToLower k) = some x :=
  mergeLowerWith_get_entry stringsToLower visited k x

/-- The entries visited are the entries of the map, in whatever order. -/
theorem mem_entriesVisited_iff (σ : RangeChoice) (m : GoMap String Value) (k : String)
    (x : Value) : (k, x) ∈ entriesVisited σ m ↔ GoMap.get m k = some x := by
  unfold entriesVisited
  rw [List.mem_filterMap]
  constructor
  · rintro ⟨k', _, h⟩
    cases hg : GoMap.get m k' with
    | none => rw [hg] at h; simp at h
    | some y =>
      rw [hg] at h
      simp only [Option.map_some', Option.some.injEq, Prod.mk.injEq] at h
      obtain ⟨rfl, rfl⟩ := h
      exact hg
  · intro h
    refine ⟨k, ((σ.visit_perm _).mem_iff).2 ((GoMap.mem_keys_iff m k).2 (by simp [h])), ?_⟩
    simp [h]

/-- The merge loop into a map object returns: the object holds the merged entries and
every other object is as it was. -/
theorem mergeInto_object (lower : String → String) (address : Nat) :
    ∀ (visited : List (String × Value)) (objects : GoMap Nat (GoMap String Value)),
    ∃ objects', mergeInto lower (MapRef.object address) visited objects = some objects' ∧
      (GoMap.get objects' address).getD [] =
        mergeLowerWith lower visited ((GoMap.get objects address).getD []) ∧
      ∀ other, other ≠ address → GoMap.get objects' other = GoMap.get objects other := by
  intro visited
  induction visited with
  | nil => intro objects; exact ⟨objects, rfl, rfl, fun _ _ => rfl⟩
  | cons kv rest ih =>
    intro objects
    obtain ⟨objects', h1, h2, h3⟩ := ih (GoMap.set objects address
      (GoMap.set ((GoMap.get objects address).getD []) (lower kv.1) kv.2))
    refine ⟨objects', h1, ?_, ?_⟩
    · rw [h2, GoMap.get_set_self]
      rfl
    · intro other hne
      rw [h3 other hne, GoMap.get_set_ne _ _ (Ne.symm hne)]

/-- The merge loop into the nil map panics at the first entry visited. -/
theorem mergeInto_nilMap (lower : String → String) (visited : List (String × Value))
    (objects : GoMap Nat (GoMap String Value)) :
    mergeInto lower MapRef.nilMap visited objects =
      if visited = [] then some objects else none := by
  cases visited with
  | nil => rfl
  | cons kv rest => simp [mergeInto]

/-- The method `SetValues` on a key that holds no map value: the map value given is stored
under the key, nothing else changes. -/
theorem SetValuesInMemory_absent (lowerRune : Char → Char) (σ : RangeChoice)
    (mem : ValuesMemory) (K : ValuesKey) (values : MapRef) (h : GoMap.get mem.flags K = none) :
    SetValuesInMemory lowerRune σ mem K values =
      some { mem with flags := GoMap.set mem.flags K values } := by
  simp [SetValuesInMemory, h]

/-- The method `SetValues` on a key that holds a map object: the method returns, the map
values stored are as they were, the object holds the merged entries and every other object
is as it was. -/
theorem SetValuesInMemory_object (lowerRune : Char → Char) (σ : RangeChoice)
    (mem : ValuesMemory) (K : ValuesKey) (values : MapRef) (address : Nat)
    (h : GoMap.get mem.flags K = some (MapRef.object address)) :
    ∃ mem', SetValuesInMemory lowerRune σ mem K values = some mem' ∧
      mem'.flags = mem.flags ∧
      mem'.read (MapRef.object address) =
        mergeLowerWith (stringsToLowerUnicode lowerRune) (entriesVisited σ (mem.read values))
          (mem.read (MapRef.object address)) ∧
      ∀ other, other ≠ address → GoMap.get mem'.objects other = GoMap.get mem.objects other := by
  obtain ⟨objects', h1, h2, h3⟩ := mergeInto_object (stringsToLowerUnicode lowerRune) address
    (entriesVisited σ (mem.read values)) mem.objects
  exact ⟨{ mem with objects := objects' }, by simp [SetValuesInMemory, h, h1], rfl, h2, h3⟩

/-- The method `SetValues` on a key that holds the nil map: it panics exactly when the
map given has an entry, and changes nothing otherwise. -/
theorem SetValuesInMemory_nilMap (lowerRune : Char → Char) (σ : RangeChoice)
    (mem : ValuesMemory) (K : ValuesKey) (values : MapRef)
    (h : GoMap.get mem.flags K = some MapRef.nilMap) :
    (SetValuesInMemory lowerRune σ mem K values = none ↔
      ∃ k, (GoMap.get (mem.read values) k).isSome = true) ∧
    ((∀ k, GoMap.get (mem.read values) k = none) →
      SetValuesInMemory lowerRune σ mem K values = some mem) := by
  have hrun : SetValuesInMemory lowerRune σ mem K values =
      if entriesVisited σ (mem.read values) = [] then some mem else none := by
    simp only [SetValuesInMemory, h, mergeInto_nilMap]
    split_ifs <;> rfl
  have hempty : entriesVisited σ (mem.read values) = [] ↔
      ∀ k, GoMap.get (mem.read values) k = none := by
    constructor
    · intro he k
      cases hg : GoMap.get (mem.read values) k with
      | none => rfl
      | some x =>
        have := (mem_entriesVisited_iff σ (mem.read values) k x).2 hg
        rw [he] at this
        simp at this
    · intro hall
      apply List.eq_nil_iff_forall_not_mem.2
      rintro ⟨k, x⟩ hkx
      have := (mem_entriesVisited_iff σ (mem.read values) k x).1 hkx
      rw [hall k] at this
      simp at this
  refine ⟨?_, ?_⟩
  · rw [hrun]
    constructor
    · intro hnone
      by_contra hno
      have hall : ∀ k, GoMap.get (mem.read values) k = none := by
        intro k
        cases hg : GoMap.get (mem.read values) k with
        | none => rfl
        | some x => exact absurd ⟨k, by simp [hg]⟩ hno
      rw [if_pos (hempty.2 hall)] at hnone
      simp at hnone
    · rintro ⟨k, hk⟩
      have hne : ¬ entriesVisited σ (mem.read values) = [] := by
        intro he
        have := hempty.1 he k
        rw [this] at hk
        simp at hk
      rw [if_neg hne]
  · intro hall
    rw [hrun, if_pos (hempty.2 hall)]

/-- The value map of a key is its entry in the view of the memory. -/
theorem view_get (mem : ValuesMemory) (K : ValuesKey) :
    GoMap.get mem.view K = mem.valueMap K := by
  unfold ValuesMemory.view ValuesMemory.valueMap
  induction mem.flags with
  | nil => rfl
  | cons kr rest ih =>
    obtain ⟨k, r⟩ := kr
    by_cases hk : k = K
    · simp [GoMap.get, hk]
    · simpa [GoMap.get, hk] using ih

/-- The values flags of the new verifier are those of its memory. -/
theorem newVerifierMemory_view (getChecks : List checks.CheckName)
    (id defaultProfile defaultProfileVersion : String) :
    (newVerifierMemory defaultProfile defaultProfileVersion).view =
      (NewVerifier getChecks id defaultProfile defaultProfileVersion).Inputs.Flags.ValuesFlags :=
  rfl

end verifier

namespace verifier

/-- A key outside the whitelist is a key of the list of keys outside the whitelist. -/
theorem hasKeyOutside_iff_keys {V : Type} (m : GoMap String V) (whitelist : List String) :
    hasKeyOutside m whitelist ↔ ∃ k ∈ m.keys, k ∉ whitelist := by
  constructor
  · rintro ⟨k, hk, hbad⟩
    exact ⟨k, (GoMap.mem_keys_iff m k).2 hk, hbad⟩
  · rintro ⟨k, hk, hbad⟩
    exact ⟨k, (GoMap.mem_keys_iff m k).1 hk, hbad⟩

/-- The method `checkInputs` returns an error exactly when some key of `BooleanFlags`,
`DurationFlags`, `ValuesFlags` or `StringFlags` is outside the whitelist of its map or
some name of the check-status map is outside the catalog, whatever the order in which the
maps are visited. The setters `SetBoolean`, `SetDuration`, `SetString` and `EnableChecks`,
`UnEnableChecks` return the verifier and no error, and store any key or name they are
given, in a whitelist or not; so does `SetValues` under a key that does not hold the nil
map. -/
theorem checkInputs_error_iff (σ : RangeChoice) (getChecks : List checks.CheckName)
    (v : Verifier) (key : String) (b : Bool) (duration : Int) (strings : List String)
    (names : List checks.CheckName) :
    ((checkInputs σ getChecks v).isSome = true ↔
      (hasKeyOutside v.Inputs.Flags.BooleanFlags setBooleanKeys ∨
       hasKeyOutside v.Inputs.Flags.DurationFlags setDurationKeys ∨
       hasKeyOutside v.Inputs.Flags.ValuesFlags setValuesKeys ∨
       hasKeyOutside v.Inputs.Flags.StringFlags setStringKeys ∨
       hasKeyOutside v.Inputs.Flags.Checks getChecks)) ∧
    (SetBoolean v key b).Inputs.Flags.BooleanFlags.get key = some b ∧
    (SetDuration v key duration).Inputs.Flags.DurationFlags.get key = some duration ∧
    (SetString v key strings).Inputs.Flags.StringFlags.get key = some strings ∧
    (∀ (lowerRune : Char → Char) (mem : ValuesMemory) (values : MapRef),
      GoMap.get mem.flags key ≠ some MapRef.nilMap →
      ∃ mem', SetValuesInMemory lowerRune σ mem key values = some mem' ∧
        (GoMap.get mem'.flags key).isSome = true) ∧
    (∀ c ∈ names, (EnableChecks getChecks v names).Inputs.Flags.Checks.get c =
      some { Enabled := true }) ∧
    (∀ c ∈ names, (UnEnableChecks getChecks v names).Inputs.Flags.Checks.get c =
      some { Enabled := false }) := by
  refine ⟨?_, GoMap.get_set_self _ _ _, GoMap.get_set_self _ _ _, GoMap.get_set_self _ _ _,
    ?_, ?_, ?_⟩
  · have hnone := checkInputs_eq_none_iff σ getChecks v
    constructor
    · intro hsome
      by_contra hno
      have hall : checkInputs σ getChecks v = none := by
        rw [hnone]
        refine ⟨fun h => hno (Or.inl h), fun h => hno (Or.inr (Or.inr (Or.inr (Or.inr h)))),
          fun h => hno (Or.inr (Or.inl h)), fun h => hno (Or.inr (Or.inr (Or.inl h))),
          fun h => hno (Or.inr (Or.inr (Or.inr (Or.inl h))))⟩
      rw [hall] at hsome
      exact absurd hsome (by simp)
    · intro hor
      cases hres : checkInputs σ getChecks v with
      | some e => rfl
      | none =>
        obtain ⟨h1, h2, h3, h4, h5⟩ := hnone.1 hres
        rcases hor with h | h | h | h | h
        · exact absurd h h1
        · exact absurd h h3
        · exact absurd h h4
        · exact absurd h h5
        · exact absurd h h2
  · intro lowerRune mem values hnil
    cases hx : GoMap.get mem.flags key with
    | none =>
      exact ⟨_, SetValuesInMemory_absent lowerRune σ mem key values hx,
        by simp [GoMap.get_set_self]⟩
    | some target =>
      cases target with
      | nilMap => exact absurd hx hnil
      | object address =>
        obtain ⟨mem', hrun, hflags, _⟩ :=
          SetValuesInMemory_object lowerRune σ mem key values address hx
        exact ⟨mem', hrun, by rw [hflags, hx]; rfl⟩
  · intro c hc
    have hne : names ≠ [] := List.ne_nil_of_mem hc
    rw [EnableChecks_get getChecks v names hne c, if_pos hc]
  · intro c hc
    have hne : names ≠ [] := List.ne_nil_of_mem hc
    rw [UnEnableChecks_get getChecks v names hne c, if_pos hc]

theorem checkInputs_error_iff_witness :
    hasKeyOutside Examples.invalidVerifier.Inputs.Flags.StringFlags setStringKeys ∧
    (checkInputs RangeChoice.reversed Examples.exampleCatalog Examples.invalidVerifier).isSome
      = true ∧
    ¬ (hasKeyOutside Examples.exampleVerifier.Inputs.Flags.BooleanFlags setBooleanKeys ∨
       hasKeyOutside Examples.exampleVerifier.Inputs.Flags.DurationFlags setDurationKeys ∨
       hasKeyOutside Examples.exampleVerifier.Inputs.Flags.ValuesFlags setValuesKeys ∨
       hasKeyOutside Examples.exampleVerifier.Inputs.Flags.StringFlags setStringKeys ∨
       hasKeyOutside Examples.exampleVerifier.Inputs.Flags.Checks Examples.exampleCatalog) ∧
    (SetBoolean Examples.exampleVerifier "no-such-flag" true).Inputs.Flags.BooleanFlags.get
      "no-such-flag" = some true :=
  have hs : hasKeyOutside Examples.invalidVerifier.Inputs.Flags.StringFlags setStringKeys :=
    (hasKeyOutside_iff_keys _ _).2 (by decide)
  have key := checkInputs_error_iff RangeChoice.reversed Examples.exampleCatalog
    Examples.invalidVerifier "no-such-flag" true 5 ["x"] []
  have key2 := checkInputs_error_iff RangeChoice.inOrder Examples.exampleCatalog
    Examples.exampleVerifier "no-such-flag" true 5 ["x"] []
  ⟨hs, key.1.2 (Or.inr (Or.inr (Or.inr (Or.inl hs)))),
    fun h => absurd (key2.1.2 h) (by decide), key2.2.1⟩

theorem checkInputs_first_category_witness :
    hasKeyOutside Examples.invalidVerifier.Inputs.Flags.BooleanFlags setBooleanKeys ∧
    hasKeyOutside Examples.invalidVerifier.Inputs.Flags.StringFlags setStringKeys ∧
    (∃ k, (Examples.invalidVerifier.Inputs.Flags.BooleanFlags.get k).isSome = true ∧
      k ∉ setBooleanKeys ∧
      checkInputs RangeChoice.reversed Examples.exampleCatalog Examples.invalidVerifier =
        some ("Invalid boolean key name: " ++ k)) ∧
    ¬ hasKeyOutside Examples.invalidCheckAndDuration.Inputs.Flags.BooleanFlags
      setBooleanKeys ∧
    hasKeyOutside Examples.invalidCheckAndDuration.Inputs.Flags.Checks
      Examples.exampleCatalog ∧
    hasKeyOutside Examples.invalidCheckAndDuration.Inputs.Flags.DurationFlags
      setDurationKeys ∧
    (∃ c, (Examples.invalidCheckAndDuration.Inputs.Flags.Checks.get c).isSome = true ∧
      c ∉ Examples.exampleCatalog ∧
      checkInputs RangeChoice.reversed Examples.exampleCatalog
        Examples.invalidCheckAndDuration = some ("Invalid check name : " ++ c)) :=
  have hb : hasKeyOutside Examples.invalidVerifier.Inputs.Flags.BooleanFlags
      setBooleanKeys := (hasKeyOutside_iff_keys _ _).2 (by decide)
  have hs : hasKeyOutside Examples.invalidVerifier.Inputs.Flags.StringFlags setStringKeys :=
    (hasKeyOutside_iff_keys _ _).2 (by decide)
  have hnb : ¬ hasKeyOutside Examples.invalidCheckAndDuration.Inputs.Flags.BooleanFlags
      setBooleanKeys := fun h => absurd ((hasKeyOutside_iff_keys _ _).1 h) (by decide)
  have hc : hasKeyOutside Examples.invalidCheckAndDuration.Inputs.Flags.Checks
      Examples.exampleCatalog := (hasKeyOutside_iff_keys _ _).2 (by decide)
  have hd : hasKeyOutside Examples.invalidCheckAndDuration.Inputs.Flags.DurationFlags
      setDurationKeys := (hasKeyOutside_iff_keys _ _).2 (by decide)
  ⟨hb, hs,
    (checkInputs_first_category RangeChoice.reversed Examples.exampleCatalog
      Examples.invalidVerifier).1 hb,
    hnb, hc, hd,
    (checkInputs_first_category RangeChoice.reversed Examples.exampleCatalog
      Examples.invalidCheckAndDuration).2.1 hnb hc⟩

end verifier

/-! ## One message for every failure -/

namespace reportsummary

/-- The scan finds the first entry of the name, if there is one. -/
theorem scanResults_eq_firstResult (pc : profiles.Check) (t : Tally) :
    ∀ results : List report.CheckReport,
    scanResults pc results t =
      match firstResult results pc.Name with
      | none => (false, t)
      | some reportCheck =>
        if reportCheck.Outcome = report.PassOutcomeType then
          (true, { t with passed := t.passed + 1 })
        else
          (true, { t with failed := t.failed + 1,
                          messages := t.messages ++ [flattenReason reportCheck.Reason] }) := by
  intro results
  induction results with
  | nil => rfl
  | cons rc rest ih =>
    by_cases h : pc.Name = rc.Check
    · simp [scanResults, firstResult, h]
    · have ih' := ih
      simp only [firstResult] at ih'
      simp [scanResults, firstResult, h, ih']

/-- The loop body on the zero counters: a passed check counts in `passed`, a check that
is not passed counts in `failed` with its message. -/
theorem tallyCheck_zero (results : List report.CheckReport) (pc : profiles.Check)
    (hm : pc.Type_ = checks.MandatoryCheckType) :
    tallyCheck results Tally.zero pc =
      if checkPassed results pc = true then { passed := 1, failed := 0, messages := [] }
      else { passed := 0, failed := 1, messages := [failureMessage results pc] } := by
  unfold tallyCheck
  rw [if_pos hm, scanResults_eq_firstResult]
  unfold checkPassed failureMessage
  cases hf : firstResult results pc.Name with
  | none => simp [Tally.zero]
  | some rc =>
    by_cases hp : rc.Outcome = report.PassOutcomeType
    · simp [hp, Tally.zero]
    · simp [hp, Tally.zero]

/-- The counters of the loop over Mandatory checks: `failed` counts the checks that are
not passed and `messages` holds their messages, in order. -/
theorem tallyProfile_failing (results : List report.CheckReport) :
    ∀ cs : List profiles.Check, (∀ pc ∈ cs, pc.Type_ = checks.MandatoryCheckType) →
    (tallyProfile results cs).failed =
      (cs.filter fun pc => !checkPassed results pc).length ∧
    (tallyProfile results cs).messages =
      (cs.filter fun pc => !checkPassed results pc).map (failureMessage results) ∧
    (tallyProfile results cs).passed =
      (cs.filter fun pc => checkPassed results pc).length := by
  intro cs
  induction cs with
  | nil => intro _; exact ⟨rfl, rfl, rfl⟩
  | cons pc cs ih =>
    intro hall
    have hm := hall pc (List.mem_cons_self _ _)
    obtain ⟨ih1, ih2, ih3⟩ := ih fun x hx => hall x (List.mem_cons_of_mem _ hx)
    have happ := tallyProfile_append results [pc] cs
    rw [tallyProfile_singleton, tallyCheck_zero results pc hm] at happ
    have hcons : tallyProfile results (pc :: cs) = tallyProfile results ([pc] ++ cs) := rfl
    rw [hcons, happ]
    by_cases hp : checkPassed results pc = true
    · simp [hp, ih1, ih2, ih3]
      omega
    · have hp' : checkPassed results pc = false := by
        cases hx : checkPassed results pc
        · rfl
        · exact absurd hx hp
      simp [hp', ih1, ih2, ih3]
      omega

/-- C28: the results summary `addResults` computes has as many messages as the number its
`Failed` encodes; the messages are, in profile order, one for each Mandatory check that is
not passed (failed in the report, or missing from it), and a passed check has none. -/
theorem addResults_messages (d : Deps) (r : ReportSummary) (rep : report.Report)
    (h : r.options.report = some rep) :
    ∃ r' rr f, addResults d r = some r' ∧ r'.ResultsReport = some rr ∧
      rr.Failed.toNat? = some f ∧ rr.Messages.length = f ∧
      f = (failingChecks rep.Results (resolveProfile d r.options.values rep).Checks).length ∧
      rr.Messages =
        (failingChecks rep.Results (resolveProfile d r.options.values rep).Checks).map
          (failureMessage rep.Results) := by
  have hmand : ∀ pc ∈ mandatoryChecks (resolveProfile d r.options.values rep).Checks,
      pc.Type_ = checks.MandatoryCheckType := by
    intro pc hpc
    have := (List.mem_filter.mp hpc).2
    simpa using this
  obtain ⟨h1, h2, _⟩ := tallyProfile_failing rep.Results _ hmand
  rw [← tallyProfile_mandatory] at h1 h2
  rw [addResults_eq d r rep h]
  refine ⟨_, _, (tallyProfile rep.Results (resolveProfile d r.options.values rep).Checks).failed,
    rfl, rfl, toNat?_sprintD _, ?_, ?_, ?_⟩
  · show (tallyProfile rep.Results (resolveProfile d r.options.values rep).Checks).messages.length
      = _
    rw [h2, List.length_map, h1]
  · exact h1
  · exact h2

theorem addResults_messages_witness :
    Examples.exampleSummary.options.report = some Examples.exampleReport ∧
    ∃ r' rr f, addResults Examples.exampleDeps Examples.exampleSummary = some r' ∧
      r'.ResultsReport = some rr ∧ rr.Failed.toNat? = some f ∧ rr.Messages.length = f ∧
      rr.Messages = ["bad, image", "Missing mandatory check : v1.0/has-readme"] :=
  ⟨rfl,
    match addResults_messages Examples.exampleDeps Examples.exampleSummary
      Examples.exampleReport rfl with
    | ⟨r', rr, f, h1, h2, h3, h4, _, h6⟩ =>
      ⟨r', rr, f, h1, h2, h3, h4, h6.trans (by decide)⟩⟩

end reportsummary

/-! ## `Run` -/

namespace verifier

/-- The validation reads the flags only. -/
theorem checkInputs_withChartUri (σ : RangeChoice) (getChecks : List checks.CheckName)
    (v : Verifier) (chart_uri : String) :
    checkInputs σ getChecks (v.withChartUri chart_uri) = checkInputs σ getChecks v := rfl

/-- What `Run` does once the run options are built. -/
theorem Run_of_options (σ : RangeChoice) (d : RunDeps) (v : Verifier) (chart_uri : String)
    (runOptions : RunOptions) (huri : chart_uri.length ≠ 0)
    (hcheck : checkInputs σ d.getChecks v = none)
    (hopts : buildRunOptions σ d (v.withChartUri chart_uri) chart_uri =
      some (Except.ok runOptions)) :
    Run σ d v chart_uri =
      match d.apiRun runOptions with
      | Except.error runErr => some (v.withChartUri chart_uri, some runErr, [runOptions])
      | Except.ok rep =>
        some ((v.withChartUri chart_uri).withReport (d.reportInit rep), none, [runOptions]) := by
  unfold Run
  rw [if_neg huri]
  simp only [checkInputs_withChartUri, hcheck, hopts]

/-- Every call `Run` makes to the execution: it is the only one, the inputs were valid,
the options are the ones built from the verifier, and `Run` returns the error of the call
as it is, or stores the report. -/
theorem Run_call (σ : RangeChoice) (d : RunDeps) (v v' : Verifier) (chart_uri : String)
    (err : Option String) (calls : List RunOptions) (runOptions : RunOptions)
    (hrun : Run σ d v chart_uri = some (v', err, calls)) (hmem : runOptions ∈ calls) :
    calls = [runOptions] ∧ chart_uri.length ≠ 0 ∧
    checkInputs σ d.getChecks v = none ∧
    buildRunOptions σ d (v.withChartUri chart_uri) chart_uri = some (Except.ok runOptions) ∧
    ((∃ runErr, d.apiRun runOptions = Except.error runErr ∧ err = some runErr ∧
        v' = v.withChartUri chart_uri) ∨
     (∃ rep, d.apiRun runOptions = Except.ok rep ∧ err = none ∧
        v' = (v.withChartUri chart_uri).withReport (d.reportInit rep))) := by
  unfold Run at hrun
  by_cases huri : chart_uri.length = 0
  · rw [if_pos huri] at hrun
    injection hrun with hrun
    injection hrun with _ hrun
    injection hrun with _ hcalls
    rw [← hcalls] at hmem
    simp at hmem
  · rw [if_neg huri] at hrun
    simp only [checkInputs_withChartUri] at hrun
    cases hcheck : checkInputs σ d.getChecks v with
    | some e =>
      rw [hcheck] at hrun
      injection hrun with hrun
      injection hrun with _ hrun
      injection hrun with _ hcalls
      rw [← hcalls] at hmem
      simp at hmem
    | none =>
      rw [hcheck] at hrun
      cases hbuild : buildRunOptions σ d (v.withChartUri chart_uri) chart_uri with
      | none => rw [hbuild] at hrun; simp at hrun
      | some res =>
        rw [hbuild] at hrun
        cases res with
        | error mergeErr =>
          injection hrun with hrun
          injection hrun with _ hrun
          injection hrun with _ hcalls
          rw [← hcalls] at hmem
          simp at hmem
        | ok opts =>
          cases hapi : d.apiRun opts with
          | error runErr =>
            simp only [hapi] at hrun
            injection hrun with hrun
            injection hrun with hv hrun
            injection hrun with herr hcalls
            rw [← hcalls] at hmem
            have hopts : runOptions = opts := by simpa using hmem
            subst hopts
            exact ⟨hcalls.symm, huri, rfl, rfl, Or.inl ⟨runErr, hapi, herr.symm, hv.symm⟩⟩
          | ok rep =>
            simp only [hapi] at hrun
            injection hrun with hrun
            injection hrun with hv hrun
            injection hrun with herr hcalls
            rw [← hcalls] at hmem
            have hopts : runOptions = opts := by simpa using hmem
            subst hopts
            exact ⟨hcalls.symm, huri, rfl, rfl, Or.inr ⟨rep, hapi, herr.symm, hv.symm⟩⟩

/-- The checks of the run options are the ones the loop over the status map collects. -/
theorem buildRunOptions_checks (σ : RangeChoice) (d : RunDeps) (v : Verifier)
    (chart_uri : String) (runOptions : RunOptions)
    (h : buildRunOptions σ d v chart_uri = some (Except.ok runOptions)) :
    runOptions.ChecksToRun = checksToRun σ v.Inputs.Flags.Checks := by
  unfold buildRunOptions at h
  cases hs : setHelmEnv σ d.cliNew v.Inputs.Flags.StringFlags with
  | none => simp [hs] at h
  | some settings =>
    simp only [hs] at h
    cases hm : d.mergeValues settings (valuesOptions σ v.Inputs.Flags) with
    | error e => simp [hm] at h
    | ok vals =>
      simp only [hm] at h
      cases ho : (match GoMap.get v.Inputs.Flags.StringFlags OpenshiftVersion with
          | some stringsValue => stringsValue.head?
          | none => some "") with
      | none => simp [ho] at h
      | some version =>
        simp only [ho] at h
        injection h with h
        injection h with h
        rw [← h]

/-- C22: for every verifier, valid or not, and whatever the order of the map visits and
the collaborators are, `Run("")` returns the error `run error: chart_uri is required`,
makes no call to the execution collaborator and returns the verifier as it was, its
inputs and its report included. -/
theorem Run_empty_uri (σ : RangeChoice) (d : RunDeps) (v : Verifier) :
    Run σ d v "" = some (v, some "run error: chart_uri is required", []) ∧
    (∀ v' err calls, Run σ d v "" = some (v', err, calls) →
      calls = [] ∧ v'.Inputs = v.Inputs ∧ GetReport v' = GetReport v ∧
      err = some "run error: chart_uri is required") := by
  have h : Run σ d v "" = some (v, some "run error: chart_uri is required", []) := by
    unfold Run
    rw [if_pos (by decide)]
  refine ⟨h, ?_⟩
  intro v' err calls hrun
  rw [h] at hrun
  injection hrun with hrun
  injection hrun with hv hrun
  injection hrun with herr hcalls
  subst hv
  exact ⟨hcalls.symm, rfl, rfl, herr.symm⟩

end verifier

namespace verifier

theorem mem_checksToRun (σ : RangeChoice) (m : GoMap checks.CheckName CheckStatus)
    (c : checks.CheckName) :
    c ∈ checksToRun σ m ↔ GoMap.get m c = some { Enabled := true } := by
  unfold checksToRun
  rw [List.mem_filter, (σ.visit_perm m.keys).mem_iff, GoMap.mem_keys_iff]
  cases hg : GoMap.get m c with
  | none => simp
  | some s =>
    cases s with
    | mk b => cases b <;> simp

theorem nodup_checksToRun (σ : RangeChoice) (m : GoMap checks.CheckName CheckStatus) :
    (checksToRun σ m).Nodup := by
  unfold checksToRun
  apply List.Nodup.filter
  rw [(σ.visit_perm m.keys).nodup_iff]
  exact List.nodup_dedup _

/-- C23, as stated, fails: `Run` collects the enabled checks by a `range` over the status
map, whose order Go leaves open; for a valid new verifier over a catalog of three checks
and the visit in reverse, the checks passed to the execution are the catalog backwards. -/
theorem Run_checks_order_counterexample :
    checkInputs RangeChoice.reversed Examples.exampleCatalog Examples.exampleVerifier = none ∧
    ∃ v' err runOptions,
      Run RangeChoice.reversed Examples.failingRunDeps Examples.exampleVerifier "chart.tgz" =
        some (v', err, [runOptions]) ∧
      runOptions.ChecksToRun =
        ["v1.0/images-are-certified", "v1.0/has-readme", "v1.0/is-helm-v3"] ∧
      runOptions.ChecksToRun ≠
        Examples.exampleCatalog.filter fun c =>
          decide (GoMap.get Examples.exampleVerifier.Inputs.Flags.Checks c =
            some { Enabled := true }) := by
  refine ⟨by decide, _, _, _, rfl, by decide, by decide⟩

/-- C23, amended: the checks `Run` passes to the execution collaborator are exactly the
checks whose status is `Enabled = true`, each once, all of them catalog checks; their
order is the order in which the status map is visited, so the list is a rearrangement of
the enabled catalog checks in catalog order (the catalog holding no name twice). -/
theorem Run_checksToRun (σ : RangeChoice) (d : RunDeps) (v v' : Verifier)
    (chart_uri : String) (err : Option String) (calls : List RunOptions)
    (runOptions : RunOptions)
    (hrun : Run σ d v chart_uri = some (v', err, calls)) (hmem : runOptions ∈ calls) :
    runOptions.ChecksToRun.Nodup ∧
    (∀ c, c ∈ runOptions.ChecksToRun ↔
      GoMap.get v.Inputs.Flags.Checks c = some { Enabled := true }) ∧
    (∀ c ∈ runOptions.ChecksToRun, c ∈ d.getChecks) ∧
    (d.getChecks.Nodup →
      runOptions.ChecksToRun.Perm
        (d.getChecks.filter fun c =>
          decide (GoMap.get v.Inputs.Flags.Checks c = some { Enabled := true }))) := by
  obtain ⟨_, _, hcheck, hbuild, _⟩ := Run_call σ d v v' chart_uri err calls runOptions hrun hmem
  have heq : runOptions.ChecksToRun = checksToRun σ v.Inputs.Flags.Checks :=
    buildRunOptions_checks σ d _ chart_uri runOptions hbuild
  have hvalid : ¬ hasKeyOutside v.Inputs.Flags.Checks d.getChecks :=
    ((checkInputs_eq_none_iff σ d.getChecks v).1 hcheck).2.1
  have hmemiff := mem_checksToRun σ v.Inputs.Flags.Checks
  have hcat : ∀ c ∈ runOptions.ChecksToRun, c ∈ d.getChecks := by
    intro c hc
    rw [heq] at hc
    by_contra hout
    exact hvalid ⟨c, by simp [(hmemiff c).1 hc], hout⟩
  rw [heq] at hcat ⊢
  refine ⟨nodup_checksToRun σ _, hmemiff, hcat, ?_⟩
  intro hnodup
  rw [List.perm_ext_iff_of_nodup (nodup_checksToRun σ _) (hnodup.filter _)]
  intro c
  rw [hmemiff, List.mem_filter]
  constructor
  · intro hc
    exact ⟨hcat c ((hmemiff c).2 hc), by simpa using hc⟩
  · rintro ⟨_, hc⟩
    simpa using hc

theorem Run_checksToRun_witness :
    (∃ v' err runOptions,
      Run RangeChoice.reversed Examples.failingRunDeps Examples.exampleVerifier "chart.tgz" =
        some (v', err, [runOptions]) ∧
      runOptions.ChecksToRun.Nodup ∧
      (∀ c, c ∈ runOptions.ChecksToRun ↔
        GoMap.get Examples.exampleVerifier.Inputs.Flags.Checks c = some { Enabled := true })) :=
  ⟨_, _, _, rfl,
    (Run_checksToRun RangeChoice.reversed Examples.failingRunDeps Examples.exampleVerifier _
      "chart.tgz" _ _ _ rfl (List.mem_singleton.mpr rfl)).1,
    (Run_checksToRun RangeChoice.reversed Examples.failingRunDeps Examples.exampleVerifier _
      "chart.tgz" _ _ _ rfl (List.mem_singleton.mpr rfl)).2.1⟩

/-- The setters and the check selections leave the report of the verifier alone; a new
verifier has none. -/
theorem Configured.report_none {getChecks : List checks.CheckName} {v : Verifier}
    (h : Configured getChecks v) : v.Outputs.Report = none := by
  induction h with
  | newVerifier id p pv => rfl
  | setBoolean key value _ ih => exact ih
  | setDuration key duration _ ih => exact ih
  | setString key value _ ih => exact ih
  | @setValues v key values _ ih =>
    unfold SetValues
    cases GoMap.get v.Inputs.Flags.ValuesFlags key <;> exact ih
  | @enableChecks v names _ ih =>
    unfold EnableChecks
    by_cases hn : names.length > 0
    · rw [if_pos hn]; exact ih
    · rw [if_neg hn]; exact ih
  | @unEnableChecks v names _ ih =>
    unfold UnEnableChecks
    by_cases hn : names.length > 0
    · rw [if_pos hn]; exact ih
    · rw [if_neg hn]; exact ih

/-- C24: for a verifier made by `NewVerifier` and configured by the setters and check
selections, when `Run` calls the execution collaborator (the inputs are then valid) and
the collaborator returns the error `e`, `Run` returns `e` itself, makes no other call, and
`GetReport` on the verifier returned gives no report. -/
theorem Run_collaborator_error (σ : RangeChoice) (d : RunDeps) (v v' : Verifier)
    (chart_uri : String) (err : Option String) (calls : List RunOptions)
    (runOptions : RunOptions) (e : String)
    (hconf : Configured d.getChecks v)
    (hrun : Run σ d v chart_uri = some (v', err, calls)) (hmem : runOptions ∈ calls)
    (he : d.apiRun runOptions = Except.error e) :
    err = some e ∧ GetReport v' = none ∧ calls = [runOptions] ∧
    checkInputs σ d.getChecks v = none := by
  obtain ⟨hcalls, _, hcheck, _, hcase⟩ :=
    Run_call σ d v v' chart_uri err calls runOptions hrun hmem
  rcases hcase with ⟨runErr, hapi, herr, hv⟩ | ⟨rep, hapi, _, _⟩
  · rw [he] at hapi
    injection hapi with hapi
    subst hapi
    refine ⟨herr, ?_, hcalls, hcheck⟩
    rw [hv]
    exact hconf.report_none
  · rw [he] at hapi
    cases hapi

theorem Run_collaborator_error_witness :
    Configured Examples.failingRunDeps.getChecks
      (SetBoolean Examples.exampleVerifier ProviderDelivery true) ∧
    ∃ v' runOptions,
      Run RangeChoice.inOrder Examples.failingRunDeps
        (SetBoolean Examples.exampleVerifier ProviderDelivery true) "chart.tgz" =
        some (v', some "boom", [runOptions]) ∧
      Examples.failingRunDeps.apiRun runOptions = Except.error "boom" ∧
      GetReport v' = none :=
  have hconf : Configured Examples.failingRunDeps.getChecks
      (SetBoolean Examples.exampleVerifier ProviderDelivery true) :=
    Configured.setBoolean _ _ (Configured.newVerifier "id-1" "partner" "v1.1")
  ⟨hconf, _, _, rfl, rfl,
    (Run_collaborator_error RangeChoice.inOrder Examples.failingRunDeps
      (SetBoolean Examples.exampleVerifier ProviderDelivery true) _ "chart.tgz" _ _ _ "boom"
      hconf rfl (List.mem_singleton.mpr rfl) rfl).2.1⟩

end verifier

namespace verifier

/-- C21, the code at the failing input: the first `SetValues` under a values key stores
the caller's map as it is, so a new verifier given `{Image.Tag: one}` under `chart-set`
holds the key `Image.Tag`, which is not lower-case; a second `SetValues` under the same
key takes the merge branch, lower-cases, and leaves two entries, `Image.Tag` and
`image.tag`, in the one value map. -/
theorem SetValues_first_insert_keeps_case (getChecks : List checks.CheckName)
    (id defaultProfile defaultProfileVersion : String) :
    (SetValues (NewVerifier getChecks id defaultProfile defaultProfileVersion) ChartSet
      [("Image.Tag", Value.str "one")]).Inputs.Flags.ValuesFlags.get ChartSet =
      some [("Image.Tag", Value.str "one")] ∧
    stringsToLower "Image.Tag" = "image.tag" ∧ stringsToLower "Image.Tag" ≠ "Image.Tag" ∧
    (SetValues
      (SetValues (NewVerifier getChecks id defaultProfile defaultProfileVersion) ChartSet
        [("Image.Tag", Value.str "one")])
      ChartSet [("Image.Tag", Value.str "two")]).Inputs.Flags.ValuesFlags.get ChartSet =
      some [("Image.Tag", Value.str "one"), ("image.tag", Value.str "two")] := by
  refine ⟨rfl, by decide, by decide, rfl⟩

/-- The status map of a new verifier holds catalog names only. -/
theorem NewVerifier_checks (getChecks : List checks.CheckName)
    (id defaultProfile defaultProfileVersion : String) :
    ¬ hasKeyOutside
      (NewVerifier getChecks id defaultProfile defaultProfileVersion).Inputs.Flags.Checks
      getChecks := by
  rintro ⟨c, hc, hout⟩
  have hget : GoMap.get (setAll getChecks true []) c = GoMap.get ([] : GoMap _ _) c :=
    get_setAll_of_not_mem getChecks true c hout []
  have : (NewVerifier getChecks id defaultProfile defaultProfileVersion).Inputs.Flags.Checks =
      setAll getChecks true [] := rfl
  rw [this, hget] at hc
  simp [GoMap.get] at hc

/-- C29, the code at the failing input: a new verifier given the empty list under the
whitelisted string key `kube-token` passes `checkInputs`, and `Run` then panics in
`setHelmEnv` at `value[0]` (the result `none`), whatever the order of the map visits and
the collaborators are; the same with the empty list under `openshift-version`, where the
panic is at `stringsValue[0]` in `Run`. -/
theorem Run_panics_on_empty_string_setting (σ : RangeChoice) (d : RunDeps)
    (id defaultProfile defaultProfileVersion : String) :
    checkInputs σ d.getChecks
      (SetString (NewVerifier d.getChecks id defaultProfile defaultProfileVersion)
        KubeToken []) = none ∧
    Run σ d
      (SetString (NewVerifier d.getChecks id defaultProfile defaultProfileVersion)
        KubeToken []) "chart.tgz" = none ∧
    checkInputs RangeChoice.inOrder Examples.exampleCatalog
      (SetString Examples.exampleVerifier OpenshiftVersion []) = none ∧
    Run RangeChoice.inOrder Examples.failingRunDeps
      (SetString Examples.exampleVerifier OpenshiftVersion []) "chart.tgz" = none := by
  have hcheck : checkInputs σ d.getChecks
      (SetString (NewVerifier d.getChecks id defaultProfile defaultProfileVersion)
        KubeToken []) = none := by
    rw [checkInputs_eq_none_iff]
    refine ⟨?_, NewVerifier_checks d.getChecks id defaultProfile defaultProfileVersion,
      ?_, ?_, ?_⟩
    · intro h
      obtain ⟨k, hk, hout⟩ := (hasKeyOutside_iff_keys _ _).1 h
      have hk' : k ∈ ([ProviderDelivery, SuppressErrorLog] : List String) := hk
      exact hout hk'
    · intro h
      obtain ⟨k, hk, _⟩ := (hasKeyOutside_iff_keys _ _).1 h
      have hk' : k ∈ ([] : List String) := hk
      simp at hk'
    · intro h
      obtain ⟨k, hk, hout⟩ := (hasKeyOutside_iff_keys _ _).1 h
      have hk' : k ∈ ([CommandSet] : List String) := hk
      have hke : k = CommandSet := by simpa using hk'
      subst hke
      exact hout (by decide)
    · intro h
      obtain ⟨k, hk, hout⟩ := (hasKeyOutside_iff_keys _ _).1 h
      have hk' : k ∈ ([KubeToken] : List String) := hk
      have hke : k = KubeToken := by simpa using hk'
      subst hke
      exact hout (by decide)
  refine ⟨hcheck, ?_, by decide, by decide⟩
  have hkeys : σ.visit (GoMap.keys ([(KubeToken, ([] : List String))] :
      GoMap StringKey (List String))) = [KubeToken] :=
    List.perm_singleton.mp (σ.visit_perm _)
  have henv : setHelmEnv σ d.cliNew
      ((SetString (NewVerifier d.getChecks id defaultProfile defaultProfileVersion)
        KubeToken []).withChartUri "chart.tgz").Inputs.Flags.StringFlags = none := by
    show setHelmEnvLoop [(KubeToken, [])] (σ.visit (GoMap.keys [(KubeToken, [])])) d.cliNew
      = none
    rw [hkeys]
    rfl
  unfold Run
  rw [if_neg (by decide)]
  simp only [checkInputs_withChartUri, hcheck, buildRunOptions, henv]

end verifier

/-! ## The check lists of the command line -/

namespace cmd

theorem filter_eq_singleton (getChecks : List checks.CheckName) (check : String)
    (hnodup : getChecks.Nodup) (hmem : check ∈ getChecks) :
    (getChecks.filter fun checkName => decide (check = checkName)) = [check] := by
  induction getChecks with
  | nil => simp at hmem
  | cons x xs ih =>
    obtain ⟨hx, hxs⟩ := List.nodup_cons.mp hnodup
    by_cases hc : check = x
    · subst hc
      have hnil : (xs.filter fun checkName => decide (check = checkName)) = [] := by
        rw [List.filter_eq_nil_iff]
        intro a ha
        have : ¬ check = a := fun e => hx (e ▸ ha)
        simpa using this
      simp [List.filter, hnil]
    · have hin : check ∈ xs := by
        rcases List.mem_cons.mp hmem with e | e
        · exact absurd e hc
        · exact e
      simp [List.filter, hc, ih hxs hin]

/-- The conversion of names that are all in a catalog without repeated names: the set
built so far, followed by the names, and no error. -/
theorem convertChecksLoop_valid (getChecks : List checks.CheckName)
    (hnodup : getChecks.Nodup) : ∀ (names : List String) (apiCheckSet : List checks.CheckName),
    (∀ c ∈ names, c ∈ getChecks) →
    convertChecksLoop getChecks names apiCheckSet = (apiCheckSet ++ names, none) := by
  intro names
  induction names with
  | nil => intro acc _; simp [convertChecksLoop]
  | cons check rest ih =>
    intro acc hall
    have hf := filter_eq_singleton getChecks check hnodup (hall check (List.mem_cons_self _ _))
    simp only [convertChecksLoop, hf]
    rw [ih (acc ++ [check]) fun c hc => hall c (List.mem_cons_of_mem _ hc)]
    simp

/-- C25: `buildChecks` returns its error, and neither enabled nor un-enabled checks,
whenever both lists are non-empty, whatever they hold; when the disable list is empty and
all names of the enable list are in the catalog it returns the enable list, in order, as
the enabled checks, no un-enabled checks and no error, and likewise for the disable list
when the enable list is empty (the catalog of `checks.GetChecks()` holding no name
twice). -/
theorem buildChecks_spec (getChecks : List checks.CheckName) (enabled unEnabled : List String) :
    (enabled ≠ [] → unEnabled ≠ [] →
      buildChecks getChecks enabled unEnabled =
        ([], [], some "--enable and --disable can't be used at the same time")) ∧
    (getChecks.Nodup → unEnabled = [] → (∀ c ∈ enabled, c ∈ getChecks) →
      buildChecks getChecks enabled unEnabled = (enabled, [], none)) ∧
    (getChecks.Nodup → enabled = [] → (∀ c ∈ unEnabled, c ∈ getChecks) →
      buildChecks getChecks enabled unEnabled = ([], unEnabled, none)) := by
  refine ⟨?_, ?_, ?_⟩
  · intro he hu
    have h1 : enabled.length > 0 := List.length_pos.mpr he
    have h2 : unEnabled.length > 0 := List.length_pos.mpr hu
    simp [buildChecks, h1, h2]
  · intro hnodup hu hall
    subst hu
    cases enabled with
    | nil => simp [buildChecks]
    | cons c rest =>
      have hconv := convertChecksLoop_valid getChecks hnodup (c :: rest) [] hall
      simp [buildChecks, convertChecks, hconv]
  · intro hnodup he hall
    subst he
    cases unEnabled with
    | nil => simp [buildChecks]
    | cons c rest =>
      have hconv := convertChecksLoop_valid getChecks hnodup (c :: rest) [] hall
      simp [buildChecks, convertChecks, hconv]

theorem buildChecks_spec_witness :
    buildChecks Examples.exampleCatalog ["no-such-check"] ["v1.0/has-readme"] =
      ([], [], some "--enable and --disable can't be used at the same time") ∧
    buildChecks Examples.exampleCatalog ["v1.0/has-readme", "v1.0/is-helm-v3"] [] =
      (["v1.0/has-readme", "v1.0/is-helm-v3"], [], none) ∧
    buildChecks Examples.exampleCatalog [] ["v1.0/has-readme", "v1.0/has-readme"] =
      ([], ["v1.0/has-readme", "v1.0/has-readme"], none) :=
  ⟨(buildChecks_spec Examples.exampleCatalog ["no-such-check"] ["v1.0/has-readme"]).1
      (by decide) (by decide),
    (buildChecks_spec Examples.exampleCatalog ["v1.0/has-readme", "v1.0/is-helm-v3"] []).2.1
      (by decide) rfl (by decide),
    (buildChecks_spec Examples.exampleCatalog [] ["v1.0/has-readme", "v1.0/has-readme"]).2.2
      (by decide) rfl (by decide)⟩

end cmd

/-! ## The internal report -/

namespace chartverifier

theorem map_check_modify (f : report.CheckReport → report.CheckReport)
    (hf : ∀ a, (f a).Check = a.Check) : ∀ (l : List report.CheckReport) (n : Nat),
    (l.modify f n).map (fun entry => entry.Check) = l.map fun entry => entry.Check := by
  intro l
  induction l with
  | nil => intro n; simp
  | cons a l ih =>
    intro n
    cases n with
    | zero => simp [hf]
    | succ n => simp [ih n]

theorem applyOp_names (c : InternalReport) (op : ReportOp) :
    (applyOp c op).APIReport.Results.map (fun entry => entry.Check) =
      c.APIReport.Results.map (fun entry => entry.Check) ++ addedNames [op] := by
  cases op with
  | addCheck check => simp [applyOp, AddCheck, addedNames]
  | setResult cr outcome reason =>
    simp only [applyOp, SetResult, addedNames, List.filterMap_cons, List.filterMap_nil,
      List.append_nil]
    exact map_check_modify
      (fun entry =>
        { entry with
          Outcome := if outcome then report.PassOutcomeType else report.FailOutcomeType,
          Reason := reason })
      (fun _ => rfl) _ _

theorem foldl_applyOp_names (ops : List ReportOp) : ∀ c : InternalReport,
    (ops.foldl applyOp c).APIReport.Results.map (fun entry => entry.Check) =
      c.APIReport.Results.map (fun entry => entry.Check) ++ addedNames ops := by
  induction ops with
  | nil => intro c; simp [addedNames]
  | cons op ops ih =>
    intro c
    rw [List.foldl_cons, ih, applyOp_names]
    have : addedNames (op :: ops) = addedNames [op] ++ addedNames ops := by
      simp [addedNames, List.filterMap_cons]
      cases op <;> simp
    rw [this, List.append_assoc]

/-- C26, as stated, fails: `AddCheck` appends an entry without looking at the entries the
report holds; the same check added twice gives two entries with one identifier. -/
theorem AddCheck_twice_counterexample :
    (runOps [ReportOp.addCheck Examples.someCheck,
      ReportOp.addCheck Examples.someCheck]).APIReport.Results.map (fun entry => entry.Check) =
      ["v1.0/is-helm-v3", "v1.0/is-helm-v3"] ∧
    ¬ ((runOps [ReportOp.addCheck Examples.someCheck,
      ReportOp.addCheck Examples.someCheck]).APIReport.Results.map
        (fun entry => entry.Check)).Nodup := by
  refine ⟨by decide, by decide⟩

/-- C26, amended: in the report reached from `newReport` by any sequence of `AddCheck`
and `SetResult` calls, the Check identifiers of the entries of `Results` are, in order, the
`<version>/<name>` identifiers of the checks given to `AddCheck`; they are pairwise
distinct exactly when those identifiers are. -/
theorem runOps_names (ops : List ReportOp) :
    (runOps ops).APIReport.Results.map (fun entry => entry.Check) = addedNames ops ∧
    (((runOps ops).APIReport.Results.map (fun entry => entry.Check)).Nodup ↔
      (addedNames ops).Nodup) := by
  have h : (runOps ops).APIReport.Results.map (fun entry => entry.Check) = addedNames ops := by
    unfold runOps
    rw [foldl_applyOp_names]
    simp [newReport]
  exact ⟨h, by rw [h]⟩

/-- C27: `AddCheck` appends one entry at the end of `Results`, with the identifier
`<version>/<name>` of the check, the type of the check, the outcome Unknown and the empty
reason, and changes nothing else of the report; `SetResult` on the check report returned
sets the outcome of that entry to Pass for `true` and Fail for `false` and its reason to
the reason given. `SetResult` on any check report changes the entry of that check report
only, and of it the outcome and the reason only. -/
theorem AddCheck_SetResult (c : InternalReport) (check : Check) (outcome : Bool)
    (reason : String) (cr : InternalCheckReport) :
    (AddCheck c check).1.APIReport.Results =
      c.APIReport.Results ++
        [{ Check := check.CheckId.Version ++ "/" ++ check.CheckId.Name, Type_ := check.Type_,
           Outcome := report.UnknownOutcomeType, Reason := "" }] ∧
    (AddCheck c check).1.APIReport.Apiversion = c.APIReport.Apiversion ∧
    (AddCheck c check).1.APIReport.Kind = c.APIReport.Kind ∧
    (AddCheck c check).1.APIReport.Metadata = c.APIReport.Metadata ∧
    (SetResult (AddCheck c check).1 (AddCheck c check).2 outcome reason).APIReport.Results =
      c.APIReport.Results ++
        [{ Check := check.CheckId.Version ++ "/" ++ check.CheckId.Name, Type_ := check.Type_,
           Outcome := if outcome then report.PassOutcomeType else report.FailOutcomeType,
           Reason := reason }] ∧
    (∀ j, j ≠ cr.index →
      (SetResult c cr outcome reason).APIReport.Results[j]? = c.APIReport.Results[j]?) ∧
    (SetResult c cr outcome reason).APIReport.Results[cr.index]? =
      c.APIReport.Results[cr.index]?.map (fun entry =>
        { entry with
          Outcome := if outcome then report.PassOutcomeType else report.FailOutcomeType,
          Reason := reason }) ∧
    (SetResult c cr outcome reason).APIReport.Results.length = c.APIReport.Results.length := by
  refine ⟨rfl, rfl, rfl, rfl, ?_, ?_, ?_, ?_⟩
  · simp only [SetResult, AddCheck, checkName]
    rw [List.modify_eq_take_cons_drop (by simp)]
    simp
  · intro j hj
    simp only [SetResult]
    exact List.getElem?_modify_ne _ _ (Ne.symm hj)
  · simp only [SetResult]
    exact List.getElem?_modify_eq _ _ _
  · simp [SetResult]

end chartverifier

namespace verifier

theorem Run_empty_uri_witness :
    checkInputs RangeChoice.reversed Examples.exampleCatalog Examples.invalidVerifier ≠ none ∧
    Run RangeChoice.reversed Examples.failingRunDeps Examples.invalidVerifier "" =
      some (Examples.invalidVerifier, some "run error: chart_uri is required", []) :=
  ⟨by decide,
    (Run_empty_uri RangeChoice.reversed Examples.failingRunDeps Examples.invalidVerifier).1⟩

end verifier

/-! ## `SetValues` on map objects: merge, shared objects and the nil map -/

namespace verifier

/-- On the maps of the examples the method on map objects leaves the entries that the
method on entries leaves: the memory after `SetValues(ChartSet, m3)` and
`SetValues(ChartSet, m1)`, `m3` and `m1` the caller's maps at the addresses 3 and 1. -/
theorem SetValuesInMemory_agrees_with_SetValues :
    ∃ mem1 mem2,
      SetValuesInMemory Examples.keepRune RangeChoice.inOrder Examples.exampleMemory ChartSet
        (MapRef.object 3) = some mem1 ∧
      SetValuesInMemory Examples.keepRune RangeChoice.inOrder mem1 ChartSet
        (MapRef.object 1) = some mem2 ∧
      mem1.view = (SetValues Examples.exampleVerifier ChartSet
        [("image.pullPolicy", Value.str "Always")]).Inputs.Flags.ValuesFlags ∧
      mem2.view = (SetValues (SetValues Examples.exampleVerifier ChartSet
        [("image.pullPolicy", Value.str "Always")]) ChartSet
          Examples.plainValues).Inputs.Flags.ValuesFlags :=
  ⟨_, _, rfl, rfl, by decide, by decide⟩

/-- The first insertion under a values key keeps the case of the keys on map objects as
on entries: after `SetValues(ChartSet, {Image.Tag: one})` and `SetValues(ChartSet,
{Image.Tag: two})` on the new verifier, the two maps being objects of the caller at the
addresses 1 and 2, the value map of `ChartSet` is the one the method on entries leaves. -/
theorem SetValuesInMemory_first_insert (getChecks : List checks.CheckName)
    (id defaultProfile defaultProfileVersion : String) :
    ∃ mem1 mem2,
      SetValuesInMemory Examples.keepRune RangeChoice.inOrder
        { objects := (newVerifierMemory defaultProfile defaultProfileVersion).objects ++
            [(1, [("Image.Tag", Value.str "one")]), (2, [("Image.Tag", Value.str "two")])],
          flags := (newVerifierMemory defaultProfile defaultProfileVersion).flags }
        ChartSet (MapRef.object 1) = some mem1 ∧
      SetValuesInMemory Examples.keepRune RangeChoice.inOrder mem1 ChartSet
        (MapRef.object 2) = some mem2 ∧
      mem1.valueMap ChartSet = some [("Image.Tag", Value.str "one")] ∧
      mem2.valueMap ChartSet =
        some [("Image.Tag", Value.str "one"), ("image.tag", Value.str "two")] ∧
      mem2.valueMap ChartSet =
        (SetValues
          (SetValues (NewVerifier getChecks id defaultProfile defaultProfileVersion) ChartSet
            [("Image.Tag", Value.str "one")])
          ChartSet [("Image.Tag", Value.str "two")]).Inputs.Flags.ValuesFlags.get ChartSet :=
  ⟨_, _, rfl, rfl, rfl, rfl, rfl⟩

/-- C17, the code at the failing input: on the new verifier, `SetValues(ChartSet, nil)`
returns and stores the nil map under `ChartSet`, a key of the whitelist that has no map
before; the next `SetValues(ChartSet, plainValues)` finds the key present, writes the first
entry visited into the nil map and panics, whatever the order of the entries. In general
`SetValues` under a key that holds the nil map panics exactly when the map given has an
entry. -/
theorem SetValuesInMemory_panics_on_nil_map (lowerRune : Char → Char) (σ : RangeChoice) :
    (∃ mem', SetValuesInMemory lowerRune σ Examples.exampleMemory ChartSet MapRef.nilMap =
        some mem' ∧
      GoMap.get mem'.flags ChartSet = some MapRef.nilMap ∧
      mem'.read (MapRef.object 1) = Examples.plainValues ∧
      SetValuesInMemory lowerRune σ mem' ChartSet (MapRef.object 1) = none) ∧
    (∀ (mem : ValuesMemory) (K : ValuesKey) (values : MapRef),
      GoMap.get mem.flags K = some MapRef.nilMap →
      (SetValuesInMemory lowerRune σ mem K values = none ↔
        ∃ k, (GoMap.get (mem.read values) k).isSome = true)) := by
  refine ⟨⟨_, SetValuesInMemory_absent lowerRune σ Examples.exampleMemory ChartSet
    MapRef.nilMap (by decide), by decide, by decide, ?_⟩, ?_⟩
  · exact (SetValuesInMemory_nilMap lowerRune σ _ ChartSet (MapRef.object 1)
      (by decide)).1.2 ⟨"replicas", by decide⟩
  · intro mem K values h
    exact (SetValuesInMemory_nilMap lowerRune σ mem K values h).1

end verifier

end ChartVerifier
